import Mathlib

/-! Lispreter: a shallow embedding of `lisp.cc`.

The interpreter keeps its syntax tree and its run-time values in one pool of
reference-counted `List` objects linked by `left`, `right`, `identifier_target`
and `parent` pointers.  The embedding keeps that pool explicit: a heap maps
addresses (natural numbers) to nodes, `make_shared<List>()` takes the next
unused address, and a pointer is an `Option Nat` (`none` is `nullptr`).
Objects are never reclaimed in the model; an object the program has dropped is
simply no longer referenced.

Every operation returns a `Res`: a value with the interpreter state after it, a
C++ exception with the state at the `throw`, `undefined` for behaviour the C++
standard leaves undefined (dereferencing a null pointer, `top()` of an empty
stack, integer division by zero, leaving `Eval` without a `return`), or
`timeout` when the recursion budget of the model is used up.
-/

namespace Lispreter

/-! ## Characters and tokens -/

/-- The `isspace` test of the C locale: space, `\t`, `\n`, `\v`, `\f`, `\r`. -/
def isspace (c : Char) : Bool :=
  c = ' ' || c = Char.ofNat 9 || c = Char.ofNat 10 || c = Char.ofNat 11 ||
    c = Char.ofNat 12 || c = Char.ofNat 13

/-- The `isdigit` test: `0` to `9`. -/
def isdigit (c : Char) : Bool :=
  decide (48 ≤ c.toNat) && decide (c.toNat ≤ 57)

/-- The enumeration `Token::State`. -/
inductive TokState where
  | E_Identifier
  | E_Bracket
  | E_Number
  | E_Start
  deriving DecidableEq, Repr

/-- The record `struct Token`. -/
structure Token where
  type : TokState
  name : String
  deriving DecidableEq, Repr

/-- The transition `Token::move`; its `default:` label is the `E_Bracket` state. -/
def Token.move (s : TokState) (nextchar : Char) : TokState :=
  match s with
  | .E_Identifier => .E_Identifier
  | .E_Start =>
    if nextchar = '(' then .E_Bracket
    else if nextchar = ')' then .E_Bracket
    else if isdigit nextchar then .E_Number
    else .E_Identifier
  | .E_Number => if !isdigit nextchar then .E_Identifier else .E_Number
  | .E_Bracket => .E_Identifier

/-- The first loop of `ParseToken`: advance `_pos` over white space.  The
argument and the result are the unread part `in[_pos..]` of the line. -/
def skipSpace : List Char → List Char
  | [] => []
  | c :: rest => if isspace c then skipSpace rest else c :: rest

/-- The `while (true)` loop of `ParseToken` on the unread part of the line,
which is not empty when the loop is entered or continued.  One round appends
`in[_pos]` to the name, moves the state, advances `_pos`, and stops when the
state is `E_Bracket`, the line is finished, or the next character is white
space or `)`. -/
def ParseToken.loop (type : TokState) (name : String) : List Char → Token × List Char
  | [] => (⟨type, name⟩, [])
  | c :: rest =>
    let name1 := name.push c
    let type1 := Token.move type c
    match rest with
    | [] => (⟨type1, name1⟩, [])
    | d :: _ =>
      if type1 = .E_Bracket ∨ isspace d = true ∨ d = ')' then (⟨type1, name1⟩, rest)
      else ParseToken.loop type1 name1 rest

/-- The function `Lisp::ParseToken`: `none` is the result `false`, otherwise
the token and the unread part after it. -/
def ParseToken (rest : List Char) : Option (Token × List Char) :=
  match skipSpace rest with
  | [] => none
  | c :: r => some (ParseToken.loop .E_Start "" (c :: r))

/-- The loop `while (ParseToken(token)) token_vec.push_back(token)`, bounded by
a number of rounds. -/
def tokensAux : Nat → List Char → List Token
  | 0, _ => []
  | n + 1, rest =>
    match ParseToken rest with
    | none => []
    | some (t, rest1) => t :: tokensAux n rest1

/-- The vector `token_vec` for a line; every token takes at least one
character, so as many rounds as the line is long are enough. -/
def tokenize (rest : List Char) : List Token :=
  tokensAux (rest.length + 1) rest

/-! ## Nodes, heap and scope stack -/

/-- The enumeration `List::Type`, in declaration order (`E_Define` is 0). -/
inductive Kind where
  | E_Define
  | E_Lambda
  | E_Identifier
  | E_BiFunc
  | E_Eq
  | E_Cond
  | E_List
  | E_Number
  | E_Logic
  | E_LambdaArg
  deriving DecidableEq, Repr

/-- The four functions that `Init` stores in `val.func`. -/
inductive BiFunc where
  | add
  | sub
  | mul
  | div
  deriving DecidableEq, Repr

/-- The union `val`.  `number` is the storage read as `int` (`val.logic = b`
stores 0 or 1 there); `func` is the stored function pointer, kept apart
because its numeric reading is not modelled. -/
structure Val where
  number : Int := 0
  func : Option BiFunc := none
  deriving DecidableEq, Repr

/-- Reading `val.logic`: the low byte of the storage is not zero. -/
def Val.logic (v : Val) : Bool := decide (v.number % 256 ≠ 0)

/-- The record `struct List`.  The defaults are what `make_shared<List>()`
produces: the object is value-initialised, so `type` is enumerator 0
(`E_Define`), the union is zero, the name is empty and all pointers are null. -/
structure Node where
  type : Kind := .E_Define
  name : String := ""
  val : Val := {}
  left : Option Nat := none
  right : Option Nat := none
  identifier_target : Option Nat := none
  parent : Option Nat := none
  deriving DecidableEq, Repr

/-- One `unordered_map<string, shared_ptr<List>>` of the scope stack, as an
association list with at most one entry for a name. -/
abbrev Frame := List (String × Nat)

/-- The lookup `it->find(id)`. -/
def Frame.find (f : Frame) (id : String) : Option Nat :=
  match f with
  | [] => none
  | (k, v) :: rest => if k = id then some v else Frame.find rest id

/-- The assignment `frame[id] = list`: replaces the entry of `id` or adds one. -/
def Frame.assign (f : Frame) (id : String) (v : Nat) : Frame :=
  (id, v) :: f.filter (fun e => decide (e.1 ≠ id))

/-- The class `IdHashMap`: the vector `_id`, stored innermost frame first, so
the head of the list is `_id.back()` and the list order is the order in which
`rbegin()..rend()` visits the frames. -/
abbrev IdHashMap := List Frame

/-- The constructor `IdHashMap()`: one empty frame. -/
def IdHashMap.new : IdHashMap := [[]]

/-- The method `AddTemp`. -/
def IdHashMap.AddTemp (m : IdHashMap) : IdHashMap := [] :: m

/-- The method `RemoveTemp`; `pop_back` of an empty vector is undefined. -/
def IdHashMap.RemoveTemp (m : IdHashMap) : Option IdHashMap :=
  match m with
  | [] => none
  | _ :: rest => some rest

/-- The method `Put`; `back()` of an empty vector is undefined. -/
def IdHashMap.Put (m : IdHashMap) (id : String) (list : Nat) : Option IdHashMap :=
  match m with
  | [] => none
  | top :: rest => some (top.assign id list :: rest)

/-- The method `Get`: the first frame from the innermost outwards that has the
name decides; `none` is `nullptr`. -/
def IdHashMap.Get (m : IdHashMap) (id : String) : Option Nat :=
  match m with
  | [] => none
  | top :: rest =>
    match top.find id with
    | some v => some v
    | none => IdHashMap.Get rest id

/-- The state of a `Lisp` object together with the pool of `List` objects:
`heap` gives the object at an address, `next` is the first unused address. -/
structure Lisp where
  heap : Nat → Node
  next : Nat
  _ids : IdHashMap
  _lmd_arg : Nat

/-- The call `make_shared<List>()` followed by the initialisation `init`. -/
def Lisp.alloc (L : Lisp) (init : Node) : Nat × Lisp :=
  (L.next, { L with heap := Function.update L.heap L.next init, next := L.next + 1 })

/-- An assignment to fields of the object at address `p`. -/
def Lisp.modify (L : Lisp) (p : Nat) (f : Node → Node) : Lisp :=
  { L with heap := Function.update L.heap p (f (L.heap p)) }

/-- The exceptions the program can raise.  `string` is a thrown `std::string`
(the only type `main` catches), `c_str` a thrown string literal of type
`const char*`, `out_of_range` the `std::out_of_range` of `stoi`. -/
inductive Exn where
  | string (msg : String)
  | c_str (msg : String)
  | out_of_range
  deriving DecidableEq, Repr

/-- The outcome of an operation. -/
inductive Res (α : Type) where
  | ok (a : α) (L : Lisp)
  | throw (e : Exn) (L : Lisp)
  | undefined
  | timeout

/-- Sequencing: continue after a normal return, pass everything else on. -/
def Res.bind {α β : Type} (r : Res α) (k : α → Lisp → Res β) : Res β :=
  match r with
  | .ok a L => k a L
  | .throw e L => .throw e L
  | .undefined => .undefined
  | .timeout => .timeout

/-- The call `_ids.Put(id, list)` as an operation on the interpreter state. -/
def Lisp.Put (L : Lisp) (id : String) (list : Nat) : Res Unit :=
  match L._ids.Put id list with
  | none => .undefined
  | some m => .ok () { L with _ids := m }

/-- The call `_ids.AddTemp()`. -/
def Lisp.AddTemp (L : Lisp) : Lisp := { L with _ids := L._ids.AddTemp }

/-- The call `_ids.RemoveTemp()`. -/
def Lisp.RemoveTemp (L : Lisp) : Res Unit :=
  match L._ids.RemoveTemp with
  | none => .undefined
  | some m => .ok () { L with _ids := m }

/-- Using a value that exists only when the behaviour is defined: the target
of a pointer dereferenced with `->` (null is undefined), the function behind
`val.func`, the quotient of a division. -/
def deref {α β : Type} (p : Option α) (k : α → Res β) : Res β :=
  match p with
  | none => .undefined
  | some a => k a

/-! ## The parser -/

/-- The largest `int`. -/
def INT_MAX : Int := 2147483647

/-- The value of a digit character. -/
def digitVal (c : Char) : Nat := c.toNat - 48

/-- The number a run of decimal digits denotes. -/
def digitsVal (cs : List Char) : Nat :=
  cs.foldl (fun acc c => 10 * acc + digitVal c) 0

/-- The call `stoi(name)` on the name of an `E_Number` token, which is a run
of digits; `none` is the `std::out_of_range` exception for a value above
`INT_MAX`. -/
def stoi (name : String) : Option Int :=
  if (digitsVal name.data : Int) ≤ INT_MAX then some (digitsVal name.data) else none

/-- The helper `AddLeft`: a fresh object becomes `cur->left`, with `cur` as its
parent; the result is the new `cur`. -/
def AddLeft (L : Lisp) (cur : Nat) : Nat × Lisp :=
  let (p, L1) := L.alloc { parent := some cur }
  (p, L1.modify cur fun n => { n with left := some p })

/-- The helper `AddRight`. -/
def AddRight (L : Lisp) (cur : Nat) : Nat × Lisp :=
  let (p, L1) := L.alloc { parent := some cur }
  (p, L1.modify cur fun n => { n with right := some p })

/-- The four reserved words with the type the enclosing list is retagged to. -/
def keywordKind (name : String) : Option Kind :=
  if name = "define" then some .E_Define
  else if name = "lambda" then some .E_Lambda
  else if name = "eq?" then some .E_Eq
  else if name = "cond" then some .E_Cond
  else none

/-- The local variables `cur` and `list_stack` of `BuildSyntaxTree`; the head
of `list_stack` is `top()`. -/
structure ParseState where
  cur : Nat
  list_stack : List Nat
  deriving DecidableEq, Repr

/-- One round of the loop `for (auto &x: token_vec)` of `BuildSyntaxTree`.
A `weak_ptr` parent is expired exactly when it is null here: an object is
dropped only by the `reset()` calls below, which drop the childless `cur`. -/
def BuildSyntaxTree.step (L : Lisp) (st : ParseState) (x : Token) : Res ParseState :=
  let L := L.modify st.cur fun n => { n with name := x.name }
  match x.type with
  | .E_Bracket =>
    if x.name = "(" then
      let L := L.modify st.cur fun n => { n with name := "list", type := .E_List }
      let (c, L) := AddRight L st.cur
      .ok ⟨c, st.cur :: st.list_stack⟩ L
    else
      let L :=
        match (L.heap st.cur).parent with
        | some p =>
          if (L.heap p).left = some st.cur then L.modify p fun n => { n with left := none }
          else L.modify p fun n => { n with right := none }
        | none => L
      match st.list_stack with
      | [] => .undefined
      | top :: rest =>
        let (c, L) := AddLeft L top
        .ok ⟨c, rest⟩ L
  | .E_Number =>
    let L := L.modify st.cur fun n => { n with type := .E_Number }
    match stoi x.name with
    | none => .throw .out_of_range L
    | some v =>
      let L := L.modify st.cur fun n => { n with val := { n.val with number := v } }
      let (c, L) := AddLeft L st.cur
      .ok ⟨c, st.list_stack⟩ L
  | .E_Identifier =>
    match keywordKind x.name with
    | some k =>
      match (L.heap st.cur).parent with
      | some p =>
        match st.list_stack with
        | [] => .undefined
        | top :: _ =>
          if p = top then
            .ok st (L.modify p fun n => { n with type := k, name := x.name })
          else
            let (c, L) := AddLeft L st.cur
            .ok ⟨c, st.list_stack⟩ L
      | none =>
        let (c, L) := AddLeft L st.cur
        .ok ⟨c, st.list_stack⟩ L
    | none =>
      let L := L.modify st.cur fun n => { n with type := .E_Identifier }
      let (c, L) := AddLeft L st.cur
      .ok ⟨c, st.list_stack⟩ L
  | .E_Start => .ok st L

/-- The loop `for (auto &x: token_vec)` of `BuildSyntaxTree`. -/
def BuildSyntaxTree.loop (L : Lisp) (st : ParseState) : List Token → Res ParseState
  | [] => .ok st L
  | x :: rest => (BuildSyntaxTree.step L st x).bind fun st1 L1 => BuildSyntaxTree.loop L1 st1 rest

/-- The function `Lisp::BuildSyntaxTree` on the line `line`; the result is the
address of `local_root`. -/
def BuildSyntaxTree (L : Lisp) (line : String) : Res Nat :=
  let token_vec := tokenize line.data
  let (local_root, L) := L.alloc {}
  (BuildSyntaxTree.loop L ⟨local_root, []⟩ token_vec).bind fun _ L1 =>
    .ok local_root (L1.modify local_root fun n => { n with left := none })

/-! ## Start-up -/

/-- One block of `Init`: a fresh object with the given fields is put under its
name. -/
def Init.entry (L : Lisp) (nd : Node) : Res Unit :=
  let (p, L1) := L.alloc nd
  L1.Put nd.name p

/-- The function `Lisp::Init`. -/
def Init (L : Lisp) : Res Unit :=
  let (a, L) := L.alloc { type := .E_LambdaArg }
  let L := { L with _lmd_arg := a }
  (Init.entry L { type := .E_BiFunc, name := "+", val := { func := some .add } }).bind fun _ L =>
  (Init.entry L { type := .E_BiFunc, name := "-", val := { func := some .sub } }).bind fun _ L =>
  (Init.entry L { type := .E_BiFunc, name := "*", val := { func := some .mul } }).bind fun _ L =>
  (Init.entry L { type := .E_BiFunc, name := "/", val := { func := some .div } }).bind fun _ L =>
  (Init.entry L { type := .E_Logic, name := "True", val := { number := 1 } }).bind fun _ L =>
  Init.entry L { type := .E_Logic, name := "False", val := { number := 0 } }

/-- The members of a `Lisp` object before the constructor body runs: an empty
pool, the scope stack of `IdHashMap()`, `_lmd_arg` not yet set. -/
def Lisp.blank : Lisp :=
  { heap := fun _ => {}, next := 0, _ids := IdHashMap.new, _lmd_arg := 0 }

/-- The constructor `Lisp()`: the freshly initialised interpreter. -/
def Lisp.new : Lisp :=
  match Init Lisp.blank with
  | .ok _ L => L
  | _ => Lisp.blank

/-! ## The closure preservation pass -/

/-- The function `Lisp::Preserve`. -/
def Preserve (L : Lisp) (list : Nat) : Lisp :=
  if (L.heap list).type = .E_Identifier then
    match L._ids.Get (L.heap list).name with
    | some val =>
      if (L.heap val).type ≠ .E_LambdaArg then
        L.modify list fun n => { n with identifier_target := some val }
      else L
    | none => L
  else L

/-- The loop `while (x != nullptr) { _ids.Put(x->name, _lmd_arg); x = x->left; }`
of `TraverseAndPreserve` and of `Eval`. -/
def putLambdaArgs : Nat → Lisp → Option Nat → Res Unit
  | 0, _, _ => .timeout
  | _ + 1, L, none => .ok () L
  | n + 1, L, some x =>
    (L.Put (L.heap x).name L._lmd_arg).bind fun _ L1 => putLambdaArgs n L1 (L1.heap x).left

/-- The body of `Lisp::TraverseLambda`, with the function it calls for
`TraverseAndPreserve` as a parameter. -/
def TraverseLambdaWith (tap : Lisp → Option Nat → Res Unit) (L : Lisp) (lmda : Nat) :
    Res Unit :=
  deref (L.heap lmda).right fun r =>
    (tap L (L.heap r).left).bind fun _ L1 =>
      match (L1.heap lmda).left with
      | some l => tap L1 (some l)
      | none => .ok () L1

/-- The function `Lisp::TraverseAndPreserve`; the first argument bounds the
depth of the recursion. -/
def TraverseAndPreserve : Nat → Lisp → Option Nat → Res Unit
  | 0, _, _ => .timeout
  | _ + 1, _, none => .undefined
  | fuel + 1, L, some list =>
    if (L.heap list).left = none ∧ (L.heap list).right = none then
      .ok () (Preserve L list)
    else if (L.heap list).type = .E_Lambda then
      let L1 := L.AddTemp
      deref (L1.heap list).right fun r =>
        (putLambdaArgs fuel L1 (L1.heap r).right).bind fun _ L2 =>
          (TraverseLambdaWith (TraverseAndPreserve fuel) L2 list).bind fun _ L3 =>
            L3.RemoveTemp
    else
      let L1 := Preserve L list
      let afterLeft : Res Unit :=
        match (L1.heap list).left with
        | some l => TraverseAndPreserve fuel L1 (some l)
        | none => .ok () L1
      afterLeft.bind fun _ L2 =>
        match (L2.heap list).right with
        | some r => TraverseAndPreserve fuel L2 (some r)
        | none => .ok () L2

/-- The function `Lisp::TraverseLambda`. -/
def TraverseLambda (fuel : Nat) (L : Lisp) (lmda : Nat) : Res Unit :=
  TraverseLambdaWith (TraverseAndPreserve fuel) L lmda

/-! ## The evaluator -/

/-- The value `INT_MIN`. -/
def INT_MIN : Int := -2147483648

/-- Reduction of an arithmetic result to the 32-bit two's complement range
(what the machine leaves in an `int` when the mathematical result is out of
range). -/
def wrap32 (x : Int) : Int := (x + 2147483648) % 4294967296 - 2147483648

/-- A call `first->val.func(x, y)` of one of the four functions of `Init`;
`none` is the undefined division (by zero, or `INT_MIN / -1`).  `/` on `int`
truncates towards zero. -/
def BiFunc.call (f : BiFunc) (x y : Int) : Option Int :=
  match f with
  | .add => some (wrap32 (x + y))
  | .sub => some (wrap32 (x - y))
  | .mul => some (wrap32 (x * y))
  | .div => if y = 0 ∨ (x = INT_MIN ∧ y = -1) then none else some (Int.tdiv x y)

/-- The loop of the `E_List` branch of `Eval` that binds the formal parameters
`x` to the values of the actual arguments `para`; `ev` is `Eval`. -/
def bindArgs (ev : Lisp → Option Nat → Res Nat) : Nat → Lisp → Option Nat → Option Nat →
    Res Unit
  | 0, _, _, _ => .timeout
  | _ + 1, L, none, _ => .ok () L
  | n + 1, L, some x, para =>
    match para with
    | none => .throw (.c_str "too few parameters passed") L
    | some p =>
      (ev L (some p)).bind fun para_v L1 =>
        (L1.Put (L1.heap x).name para_v).bind fun _ L2 =>
          bindArgs ev n L2 (L2.heap x).left (L2.heap p).left

/-- The second loop of the `E_Lambda` branch of `Eval`, which evaluates what
each formal parameter is bound to and rebinds it; the closing assignment
`para = para->left` is a dereference only. -/
def rebindArgs (ev : Lisp → Option Nat → Res Nat) : Nat → Lisp → Option Nat → Res Unit
  | 0, _, _ => .timeout
  | _ + 1, L, none => .ok () L
  | n + 1, L, some x =>
    let para := L._ids.Get (L.heap x).name
    (ev L para).bind fun para_v L1 =>
      (L1.Put (L1.heap x).name para_v).bind fun _ L2 =>
        deref para fun _ => rebindArgs ev n L2 (L2.heap x).left

/-- The loop of the `E_Cond` branch of `Eval` over the clauses from `x` on. -/
def condLoop (ev : Lisp → Option Nat → Res Nat) : Nat → Lisp → Option Nat → Res Nat
  | 0, _, _ => .timeout
  | _ + 1, L, none => .throw (.c_str "no True condition") L
  | n + 1, L, some x =>
    (ev L (L.heap x).right).bind fun boo L1 =>
      deref (L1.heap x).right fun r =>
        (ev L1 (L1.heap r).left).bind fun expr L2 =>
          if (L2.heap boo).val.logic then .ok expr L2
          else condLoop ev n L2 (L2.heap x).left

/-- The function `Lisp::Eval`; the first argument bounds the depth of the
recursion.  Fields are read from the state current at the read. -/
def Eval : Nat → Lisp → Option Nat → Res Nat
  | 0, _, _ => .timeout
  | _ + 1, _, none => .undefined
  | fuel + 1, L, some list =>
    match (L.heap list).right with
    | none =>
      if (L.heap list).type = .E_Identifier then
        let value :=
          match (L.heap list).identifier_target with
          | some t => some t
          | none => L._ids.Get (L.heap list).name
        match value with
        | none => .throw (.string ("undefined identifier " ++ (L.heap list).name)) L
        | some value =>
          if (L.heap value).type = .E_Identifier then Eval fuel L (some value)
          else .ok value L
      else .ok list L
    | some right =>
      match (L.heap list).type with
      | .E_Define =>
        let id := right
        let res := (L.heap id).left
        match L._ids.Get (L.heap id).name with
        | some _ => .throw (.string ("identifier \"" ++ (L.heap id).name ++ "\" exists")) L
        | none =>
          (Eval fuel L res).bind fun v L1 =>
            (L1.Put (L1.heap id).name v).bind fun _ L2 => .ok list L2
      | .E_List =>
        let first : Res Nat :=
          if (L.heap right).type ≠ .E_BiFunc ∧ (L.heap right).type ≠ .E_Lambda then
            Eval fuel L (some right)
          else .ok right L
        first.bind fun first L1 =>
          if (L1.heap first).type = .E_BiFunc then
            deref (L1.heap list).right fun r1 =>
              (Eval fuel L1 (L1.heap r1).left).bind fun second L2 =>
                deref (L2.heap list).right fun r2 =>
                  deref (L2.heap r2).left fun a =>
                    (Eval fuel L2 (L2.heap a).left).bind fun third L3 =>
                      deref (L3.heap first).val.func fun f =>
                        deref (f.call (L3.heap second).val.number (L3.heap third).val.number)
                          fun v =>
                            let (res, L4) :=
                              L3.alloc { type := .E_Number, val := { number := v } }
                            .ok res L4
          else if (L1.heap first).type = .E_Lambda then
            let L2 := L1.AddTemp
            deref (L2.heap first).right fun ps =>
              deref (L2.heap list).right fun r1 =>
                (bindArgs (Eval fuel) fuel L2 (L2.heap ps).right (L2.heap r1).left).bind
                  fun _ L3 =>
                    deref (L3.heap first).right fun ps3 =>
                      (Eval fuel L3 (L3.heap ps3).left).bind fun res L4 =>
                        L4.RemoveTemp.bind fun _ L5 => .ok res L5
          else .ok first L1
      | .E_Lambda =>
        let L1 := L.AddTemp
        deref (L1.heap list).right fun ps =>
          deref (L1.heap ps).right fun x =>
            let para := L1._ids.Get (L1.heap x).name
            let asValue : Res Nat :=
              (putLambdaArgs fuel L1 (some x)).bind fun _ L2 =>
                (TraverseLambda fuel L2 list).bind fun _ L3 =>
                  L3.RemoveTemp.bind fun _ L4 => .ok list L4
            let asCall : Res Nat :=
              (rebindArgs (Eval fuel) fuel L1 (some x)).bind fun _ L2 =>
                deref (L2.heap list).right fun ps2 =>
                  (Eval fuel L2 (L2.heap ps2).left).bind fun res L3 =>
                    L3.RemoveTemp.bind fun _ L4 => .ok res L4
            if (L1.heap list).left = none then asValue
            else deref para fun p =>
              if (L1.heap p).type = .E_LambdaArg then asValue else asCall
      | .E_Eq =>
        (Eval fuel L (L.heap list).right).bind fun arg1 L1 =>
          deref (L1.heap list).right fun r1 =>
            (Eval fuel L1 (L1.heap r1).left).bind fun arg2 L2 =>
              let eq : Int :=
                if (L2.heap arg1).val.number = (L2.heap arg2).val.number then 1 else 0
              let (tmp, L3) := L2.alloc { type := .E_Logic, val := { number := eq } }
              .ok tmp L3
      | .E_Cond => condLoop (Eval fuel) fuel L (L.heap list).right
      | .E_Identifier => Eval fuel L (some list)
      | _ => .undefined

/-! ## One line -/

/-- The function `std::to_string(int)`: the decimal rendering. -/
def to_string (n : Int) : String :=
  if n < 0 then "-" ++ Nat.repr n.natAbs else Nat.repr n.natAbs

/-- The function `Lisp::Exec` on the line `line` (the member `in`); the value
is the string assigned to `out`. -/
def Exec (fuel : Nat) (L : Lisp) (line : String) : Res String :=
  (BuildSyntaxTree L line).bind fun root L1 =>
    (Eval fuel L1 (some root)).bind fun res L2 =>
      if (L2.heap res).type = .E_Number then .ok (to_string (L2.heap res).val.number) L2
      else if (L2.heap res).type = .E_Logic then
        .ok (if (L2.heap res).val.logic then "True" else "False") L2
      else .ok (L2.heap res).name L2

/-- How a run of `main` ends: the input is exhausted and `main` returns
(`eof`), an exception that the handler does not catch leaves `main`
(`terminate`), the behaviour is undefined, or the fuel of the model is used
up. -/
inductive Ending
  | eof (L : Lisp)
  | terminate (e : Exn) (L : Lisp)
  | undefined
  | timeout

/-- The loop of `main` over the lines read from the input: each line is given
to `Exec` and what it returns is printed; the handler catches a thrown
`std::string` only, prints it and goes on with the next line in the state the
throw left. The printed lines come first in the result. -/
def main (fuel : Nat) : Lisp → List String → List String × Ending
  | L, [] => ([], .eof L)
  | L, line :: rest =>
    match Exec fuel L line with
    | .ok out L1 => (out :: (main fuel L1 rest).1, (main fuel L1 rest).2)
    | .throw (.string e) L1 => (e :: (main fuel L1 rest).1, (main fuel L1 rest).2)
    | .throw e L1 => ([], .terminate e L1)
    | .undefined => ([], .undefined)
    | .timeout => ([], .timeout)

/-- The exception that left `main` uncaught, if one did. -/
def Ending.uncaught : Ending → Option Exn
  | .terminate e _ => some e
  | _ => none

/-- Whether the run ended in undefined behaviour. -/
def Ending.isUndefined : Ending → Bool
  | .undefined => true
  | _ => false

/-! ## Vocabulary of the properties -/

/-- The characters at which `ParseToken` ends a token that has begun: white
space and `)`. -/
def isDelim (d : Char) : Bool := isspace d || decide (d = ')')

/-- A run of characters that `ParseToken` reads as one token that is not a
bracket: not empty, not starting with a bracket or white space, and free of
white space and `)` after the first character. -/
def IsAtom (cs : List Char) : Prop :=
  match cs with
  | [] => False
  | c :: r => c ≠ '(' ∧ isDelim c = false ∧ ∀ d ∈ r, isDelim d = false

/-- Whether a run of characters is an atom can be computed. -/
instance IsAtom.decidable : DecidablePred IsAtom
  | [] => isFalse id
  | c :: r =>
    inferInstanceAs (Decidable (c ≠ '(' ∧ isDelim c = false ∧ ∀ d ∈ r, isDelim d = false))

/-- The state `Token::move` reaches from `E_Start` over a run of characters. -/
def atomType (cs : List Char) : TokState := cs.foldl Token.move .E_Start

/-- An unsigned decimal literal in `int` range: a non-empty run of digits whose
value is at most `INT_MAX`. -/
def IsLiteral (a : String) : Prop :=
  a.data ≠ [] ∧ (∀ c ∈ a.data, isdigit c = true) ∧ (digitsVal a.data : Int) ≤ INT_MAX

/-- Whether a string is a literal in range can be computed. -/
instance IsLiteral.decidable (a : String) : Decidable (IsLiteral a) :=
  inferInstanceAs (Decidable (a.data ≠ [] ∧ (∀ c ∈ a.data, isdigit c = true) ∧
    (digitsVal a.data : Int) ≤ INT_MAX))

/-- The integer a literal denotes. -/
def litVal (a : String) : Int := (digitsVal a.data : Int)

/-- The name under which `Init` binds each built-in operator. -/
def BiFunc.symbol (op : BiFunc) : String :=
  match op with
  | .add => "+"
  | .sub => "-"
  | .mul => "*"
  | .div => "/"

/-- The operator on the integers, with `/` the division truncating towards
zero. -/
def BiFunc.math (op : BiFunc) (x y : Int) : Int :=
  match op with
  | .add => x + y
  | .sub => x - y
  | .mul => x * y
  | .div => Int.tdiv x y

/-- The value an operation returns, when it returns. -/
def Res.result {α : Type} (r : Res α) : Option α :=
  match r with
  | .ok a _ => some a
  | _ => none

/-- The exception an operation ends with, when it throws. -/
def Res.thrown {α : Type} (r : Res α) : Option Exn :=
  match r with
  | .throw e _ => some e
  | _ => none

/-- An identifier token as the input grammar has it: a non-empty run without
white space or brackets that is not a pure digit run and not one of the four
reserved words. -/
def IsIdentifier (x : String) : Prop :=
  x.data ≠ [] ∧ (∀ c ∈ x.data, isspace c = false ∧ c ≠ '(' ∧ c ≠ ')') ∧
    (¬ ∀ c ∈ x.data, isdigit c = true) ∧ keywordKind x = none

/-- Whether a string is an identifier token can be computed. -/
instance IsIdentifier.decidable (x : String) : Decidable (IsIdentifier x) :=
  inferInstanceAs (Decidable (x.data ≠ [] ∧ (∀ c ∈ x.data, isspace c = false ∧ c ≠ '(' ∧ c ≠ ')') ∧
    (¬ ∀ c ∈ x.data, isdigit c = true) ∧ keywordKind x = none))

/-- A frame binds a name. -/
def Frame.binds (f : Frame) (id : String) : Prop := (f.find id).isSome = true

/-- Whether a frame binds a name can be computed. -/
instance Frame.binds.decidable (f : Frame) (id : String) : Decidable (f.binds id) :=
  inferInstanceAs (Decidable ((f.find id).isSome = true))

/-- A small state for trying `Eval` on single nodes: at address 1 the
identifier `x`, first child of the `define` list at address 0, and the number
at address 2 as its value; at address 3 a leaf identifier `y`, at address 4 a
leaf identifier `x`.  The one frame binds `x` to the number at address 5. -/
def sampleState : Lisp :=
  { heap := fun p =>
      if p = 0 then { type := .E_Define, name := "define", right := some 1 }
      else if p = 1 then { type := .E_Identifier, name := "x", left := some 2, parent := some 0 }
      else if p = 2 then { type := .E_Number, name := "7", val := { number := 7 }, parent := some 1 }
      else if p = 3 then { type := .E_Identifier, name := "y" }
      else if p = 4 then { type := .E_Identifier, name := "x" }
      else if p = 5 then { type := .E_Number, name := "5", val := { number := 5 } }
      else {},
    next := 6,
    _ids := [[("x", 5)]],
    _lmd_arg := 6 }

/-- `r.le r1`: the outcome `r1` is the outcome `r`, unless `r` is the exhausted
recursion budget. -/
def Res.le {α : Type} (r r1 : Res α) : Prop := r = .timeout ∨ r = r1

/-- The state an operation leaves, with the blank state standing in where it
leaves none. -/
def Res.stateD {α : Type} (r : Res α) : Lisp :=
  match r with
  | .ok _ L => L
  | .throw _ L => L
  | _ => Lisp.blank

/-- The state of the interpreter after the line
`(define add2 (lambda (x y) (op x y)))` in the freshly initialised
interpreter. -/
def add2State (op : BiFunc) : Lisp :=
  (Exec 6 Lisp.new ("(define add2 (lambda (x y) (" ++ op.symbol ++ " x y)))")).stateD

/-- The state of the interpreter after the line
`(define 666kk (lambda (x1) (lambda (x2 x3) (+ x1 (+ x2 x3)))))` in the freshly
initialised interpreter. -/
def kkState : Lisp :=
  (Exec 10 Lisp.new "(define 666kk (lambda (x1) (lambda (x2 x3) (+ x1 (+ x2 x3)))))").stateD

/-- The name of a Boolean literal. -/
def boolName (c : Bool) : String := if c then "True" else "False"

/-- The text of one clause `(c e)` of a `cond`, with the blank before it. -/
def clauseText (ce : Bool × String) : String := " (" ++ boolName ce.1 ++ " " ++ ce.2 ++ ")"

/-- The text of a sequence of clauses. -/
def clausesText : List (Bool × String) → String
  | [] => ""
  | ce :: cs => clauseText ce ++ clausesText cs

/-- The line `(cond (c1 e1) (c2 e2) ...)`. -/
def condLine (clauses : List (Bool × String)) : String := "(cond" ++ clausesText clauses ++ ")"

/-- The tokens of one clause. -/
def clauseTokens (ce : Bool × String) : List Token :=
  [⟨.E_Bracket, "("⟩, ⟨.E_Identifier, boolName ce.1⟩, ⟨.E_Number, ce.2⟩, ⟨.E_Bracket, ")"⟩]

/-- The tokens of a sequence of clauses. -/
def clausesTokens : List (Bool × String) → List Token
  | [] => []
  | ce :: cs => clauseTokens ce ++ clausesTokens cs

/-- The shape `BuildSyntaxTree` gives the clauses of a `cond`, read from the
pointer `x` on: each clause is a list object at an address `p` not below `lo`,
its condition the identifier object at `p + 1`, its expression the number
object at `p + 2`, and `left` of the list object leads to the next clause. -/
def CondChain (lo : Nat) (h : Nat → Node) : Option Nat → List (Bool × String) → Prop
  | x, [] => x = none
  | x, ce :: cs =>
    ∃ p, x = some p ∧ lo ≤ p ∧ (h p).right = some (p + 1) ∧
      (h (p + 1)).type = .E_Identifier ∧ (h (p + 1)).right = none ∧
      (h (p + 1)).identifier_target = none ∧ (h (p + 1)).name = boolName ce.1 ∧
      (h (p + 1)).left = some (p + 2) ∧
      (h (p + 2)).type = .E_Number ∧ (h (p + 2)).right = none ∧
      (h (p + 2)).val.number = litVal ce.2 ∧
      CondChain lo h (h p).left cs

/-- The fields of an object that only the parser assigns: everything but the
cached target. -/
def Node.shape (n : Node) : Node := { n with identifier_target := none }

/-- `L.Ext L1`: the state `L1` can be reached from `L` by evaluation steps.  The
objects of `L` are still there with the same `type`, `name`, `val`, `left`,
`right` and `parent`; only objects at addresses that were unused in `L` are
new, and `_lmd_arg` is the same. -/
def Lisp.Ext (L L1 : Lisp) : Prop :=
  L.next ≤ L1.next ∧ L1._lmd_arg = L._lmd_arg ∧
    ∀ a, a < L.next → (L1.heap a).shape = (L.heap a).shape

/-- `r.Post P`: the state in which the operation returned or threw satisfies
`P`. -/
def Res.Post {α : Type} (P : Lisp → Prop) (r : Res α) : Prop :=
  match r with
  | .ok _ L => P L
  | .throw _ L => P L
  | _ => True

/-- `r.PostOk P`: the state in which the operation returned satisfies `P`. -/
def Res.PostOk {α : Type} (P : Lisp → Prop) (r : Res α) : Prop :=
  match r with
  | .ok _ L => P L
  | _ => True

/-- The scope stack has `m` frames. -/
def Lisp.Frames (m : Nat) (L : Lisp) : Prop := L._ids.length = m

/-- No object of the state is a `define` form that `Eval` would execute: an
object of type `E_Define` has no `right` (it is an unused slot or a reserved
word that retagged nothing). -/
def Lisp.NoDefine (L : Lisp) : Prop :=
  ∀ a, (L.heap a).type = .E_Define → (L.heap a).right = none

/-- `L.Below L1`: the scope stack of `L1` has as many frames as that of `L`,
and every frame below the top one is the same; a state without `define` forms
stays one. -/
def Lisp.Below (L L1 : Lisp) : Prop :=
  L1._ids.length = L._ids.length ∧ L1._ids.tail = L._ids.tail ∧ (L.NoDefine → L1.NoDefine)

/-- `L.Scoped L1`: what `Eval` leaves of the scope stack of `L` when it
returns in `L1`: as many frames, the same frames below the top one, every
name bound in the top frame still bound there, and, when no object is a
`define` form, the same scope stack altogether. -/
def Lisp.Scoped (L L1 : Lisp) : Prop :=
  L.Below L1 ∧
    (∀ id, ((L._ids.headD []).find id).isSome → ((L1._ids.headD []).find id).isSome) ∧
    (L.NoDefine → L1._ids = L._ids)

/-- `L.Inner X`: the scope stack of `X` is that of `L` under one more
frame. -/
def Lisp.Inner (L X : Lisp) : Prop :=
  X._ids.length = L._ids.length + 1 ∧ X._ids.tail = L._ids ∧ (L.NoDefine → X.NoDefine)

/-- `L.SameIds L1`: the scope stack of `L1` is that of `L`. -/
def Lisp.SameIds (L L1 : Lisp) : Prop :=
  L1._ids = L._ids ∧ (L.NoDefine → L1.NoDefine)

/-- The objects reached from the pointer `x` by following `left`: the items of
a parameter list or an argument list, in order. -/
def LeftChain (h : Nat → Node) : Option Nat → List Nat → Prop
  | x, [] => x = none
  | x, a :: as => x = some a ∧ LeftChain h (h a).left as

/-- The actual arguments `actuals` evaluate without error, one after the other
from the state `L`, each value being bound to the formal parameter of the same
position (`formals`) before the next is evaluated; `Lm` is the state after the
last binding. -/
def ArgsEval (ev : Lisp → Option Nat → Res Nat) : Lisp → List Nat → List Nat → Lisp → Prop
  | L, [], _, Lm => Lm = L
  | _, _ :: _, [], _ => False
  | L, a :: as, x :: xs, Lm =>
    ∃ v L1, ev L (some a) = .ok v L1 ∧
      ArgsEval ev (L1.Put (L1.heap x).name v).stateD as xs Lm

/-- Some `)` of the token sequence has no open list, `d` lists being open at
its start. -/
def unmatchedClose : Nat → List Token → Bool
  | _, [] => false
  | d, t :: ts =>
    if t.type = .E_Bracket then
      if t.name = "(" then unmatchedClose (d + 1) ts
      else
        match d with
        | 0 => true
        | d + 1 => unmatchedClose d ts
    else unmatchedClose d ts

/-- The token sequences for which the loop of `BuildSyntaxTree` runs to its
end, `d` lists being open at the start and `hp` telling whether `cur` has a
parent: every `)` has an open list, every number is in the range of `int`,
and no reserved word is met with no list open once `cur` has a parent. -/
def treeBuilt : Bool → Nat → List Token → Bool
  | _, _, [] => true
  | hp, d, t :: ts =>
    match t.type with
    | .E_Bracket =>
      if t.name = "(" then treeBuilt true (d + 1) ts
      else
        match d with
        | 0 => false
        | d + 1 => treeBuilt true d ts
    | .E_Number => (stoi t.name).isSome && treeBuilt true d ts
    | .E_Identifier =>
      if (keywordKind t.name).isSome && hp && decide (d = 0) then false
      else treeBuilt true d ts
    | .E_Start => treeBuilt hp d ts

/-- The state of the freshly initialised interpreter after `BuildSyntaxTree`
on the line `((lambda (x) x) 5)`; the tree is rooted at address 7. -/
def sampleApply : Lisp := (BuildSyntaxTree Lisp.new "((lambda (x) x) 5)").stateD

/-! ### Lists as the input grammar has them, and their serialisation -/

/-- The renaming of addresses that keeps those below `n0` and moves the others
up by `d`. -/
def shift (n0 d a : Nat) : Nat := if a < n0 then a else a + d

/-- A node with its four pointers renamed. -/
def Node.shift (n0 d : Nat) (nd : Node) : Node :=
  { nd with
    left := nd.left.map (Lispreter.shift n0 d),
    right := nd.right.map (Lispreter.shift n0 d),
    identifier_target := nd.identifier_target.map (Lispreter.shift n0 d),
    parent := nd.parent.map (Lispreter.shift n0 d) }

/-- A scope stack with the bound objects renamed. -/
def IdHashMap.shift (n0 d : Nat) (m : IdHashMap) : IdHashMap :=
  m.map fun f => f.map fun e => (e.1, Lispreter.shift n0 d e.2)

/-- `X.Shifted n0 d Y`: the state `Y` is the state `X` with the objects at
addresses from `n0` on moved up by `d` (whatever `Y` holds in the gap). -/
def Lisp.Shifted (n0 d : Nat) (X Y : Lisp) : Prop :=
  n0 ≤ X.next ∧ Y.next = X.next + d ∧
    (∀ a, Y.heap (Lispreter.shift n0 d a) = (X.heap a).shift n0 d) ∧
    Y._ids = X._ids.shift n0 d ∧ Y._lmd_arg = Lispreter.shift n0 d X._lmd_arg

/-- The local variables of `BuildSyntaxTree` with their addresses renamed. -/
def ParseState.shift (n0 d : Nat) (st : ParseState) : ParseState :=
  ⟨Lispreter.shift n0 d st.cur, st.list_stack.map (Lispreter.shift n0 d)⟩

/-- Two outcomes are the same up to the renaming: both return, with values
related by `vr` and states related by `Shifted`, or both throw the same
exception in related states, or both are undefined, or both run out of
fuel. -/
def Res.Shifted {α : Type} (n0 d : Nat) (vr : α → α → Prop) (r1 r2 : Res α) : Prop :=
  match r1, r2 with
  | .ok v X, .ok w Y => vr v w ∧ X.Shifted n0 d Y
  | .throw e X, .throw e1 Y => e = e1 ∧ X.Shifted n0 d Y
  | .undefined, .undefined => True
  | .timeout, .timeout => True
  | _, _ => False

/-- `L.Kept L1`: every binding of the top frame of `L` is a binding of the top
frame of `L1`, with the same object. -/
def Lisp.Kept (L L1 : Lisp) : Prop :=
  ∀ id v, (L._ids.headD []).find id = some v → (L1._ids.headD []).find id = some v

/-- The pointers of a node all lie below `n`. -/
def Node.Closed (nd : Node) (n : Nat) : Prop :=
  (∀ p, nd.left = some p → p < n) ∧ (∀ p, nd.right = some p → p < n) ∧
    (∀ p, nd.identifier_target = some p → p < n) ∧ (∀ p, nd.parent = some p → p < n)

/-- The state is well formed: every pointer, in an object or in the scope
stack, and `_lmd_arg` is the address of an object that has been made, and the
addresses not yet used hold nothing. -/
def Lisp.WF (L : Lisp) : Prop :=
  (∀ a, (L.heap a).Closed L.next) ∧ (∀ a, L.next ≤ a → L.heap a = {}) ∧
    (∀ f ∈ L._ids, ∀ e ∈ f, e.2 < L.next) ∧ L._lmd_arg < L.next

/-- `L.Grows L1`: `L1` is well formed, has all the addresses of `L` in use,
and the same `_lmd_arg`. -/
def Lisp.Grows (L L1 : Lisp) : Prop :=
  L1.WF ∧ L.next ≤ L1.next ∧ L1._lmd_arg = L._lmd_arg

/-- `r.PostG L V`: the state in which the operation returned or threw is
well formed and grown from `L`, and a returned value satisfies `V` there. -/
def Res.PostG {α : Type} (L : Lisp) (V : α → Lisp → Prop) (r : Res α) : Prop :=
  match r with
  | .ok v L1 => L.Grows L1 ∧ V v L1
  | .throw _ L1 => L.Grows L1
  | _ => True

/-- The value is the address of an object that has been made. -/
def Lisp.Has (v : Nat) (L : Lisp) : Prop := v < L.next

/-- A small state holding the tree of `((lambda (x y) x) 1)`: the list at
address 0, the lambda at 1, its parameter list at 2 with `x` at 3 and `y` at 4,
the body `x` at 5 and the argument `1` at 6. -/
def sampleCall : Lisp :=
  { heap := fun p =>
      if p = 0 then { type := .E_List, name := "list", right := some 1 }
      else if p = 1 then
        { type := .E_Lambda, name := "lambda", left := some 6, right := some 2, parent := some 0 }
      else if p = 2 then
        { type := .E_List, name := "list", left := some 5, right := some 3, parent := some 1 }
      else if p = 3 then { type := .E_Identifier, name := "x", left := some 4, parent := some 2 }
      else if p = 4 then { type := .E_Identifier, name := "y", parent := some 3 }
      else if p = 5 then { type := .E_Identifier, name := "x", parent := some 2 }
      else if p = 6 then
        { type := .E_Number, name := "1", val := { number := 1 }, parent := some 1 }
      else {},
    next := 7,
    _ids := [[]],
    _lmd_arg := 7 }

/-! # Properties of the embedded program -/

/-! ## The tokenizer -/

theorem skipSpace_length (rest : List Char) : (skipSpace rest).length ≤ rest.length := by
  induction rest with
  | nil => simp [skipSpace]
  | cons c r ih =>
    unfold skipSpace
    split
    · exact Nat.le_succ_of_le ih
    · exact Nat.le_refl _

theorem ParseToken.loop_length (r : List Char) :
    ∀ (ty : TokState) (nm : String) (c : Char), (ParseToken.loop ty nm (c :: r)).2.length ≤ r.length := by
  induction r with
  | nil => intro ty nm c; simp [ParseToken.loop]
  | cons d r ih =>
    intro ty nm c
    rw [ParseToken.loop]
    split
    · exact Nat.le_refl _
    · exact Nat.le_succ_of_le (ih _ _ _)

theorem ParseToken_length {rest r : List Char} {t : Token} (h : ParseToken rest = some (t, r)) :
    r.length < rest.length := by
  unfold ParseToken at h
  split at h
  · cases h
  · rename_i c r1 hs
    have h1 := skipSpace_length rest
    rw [hs] at h1
    have h2 := ParseToken.loop_length r1 .E_Start "" c
    simp only [Option.some.injEq] at h
    rw [h] at h2
    simp only [List.length_cons] at h1
    simp only at h2
    omega

theorem tokensAux_stable : ∀ (n : Nat) (rest : List Char), rest.length ≤ n →
    tokensAux n rest = tokensAux rest.length rest := by
  intro n
  induction n using Nat.strong_induction_on with
  | _ n ih =>
    intro rest hn
    cases n with
    | zero =>
      have : rest = [] := List.length_eq_zero.mp (Nat.le_zero.mp hn)
      subst this; rfl
    | succ n =>
      cases hr : rest with
      | nil => simp [tokensAux, ParseToken, skipSpace]
      | cons c r =>
        subst hr
        simp only [List.length_cons, tokensAux]
        cases hp : ParseToken (c :: r) with
        | none => rfl
        | some tr =>
          obtain ⟨t, r1⟩ := tr
          have hl := ParseToken_length hp
          simp only [List.length_cons] at hl hn
          simp only
          rw [ih n (Nat.lt_succ_self n) r1 (by omega)]
          by_cases hz : r.length = n
          · rw [hz]
            rw [ih n (Nat.lt_succ_self n) r1 (by omega)]
          · rw [ih r.length (by omega) r1 (by omega)]

theorem tokenize_eq (rest : List Char) :
    tokenize rest =
      match ParseToken rest with
      | none => []
      | some (t, r) => t :: tokenize r := by
  unfold tokenize
  rw [tokensAux]
  cases hp : ParseToken rest with
  | none => rfl
  | some tr =>
    obtain ⟨t, r⟩ := tr
    have hl := ParseToken_length hp
    simp only
    rw [tokensAux_stable rest.length r (by omega), tokensAux_stable (r.length + 1) r (by omega)]


theorem isDelim_cases {d : Char} (h : isDelim d = true) :
    d = ' ' ∨ d = Char.ofNat 9 ∨ d = Char.ofNat 10 ∨ d = Char.ofNat 11 ∨ d = Char.ofNat 12 ∨
      d = Char.ofNat 13 ∨ d = ')' := by
  simpa [isDelim, isspace, or_assoc] using h

theorem isdigit_not_delim {c : Char} (h : isdigit c = true) : isDelim c = false := by
  cases hd : isDelim c with
  | false => rfl
  | true =>
    exfalso
    rcases isDelim_cases hd with h1 | h1 | h1 | h1 | h1 | h1 | h1 <;> (subst h1; revert h; decide)

theorem isdigit_ne_open {c : Char} (h : isdigit c = true) : c ≠ '(' := by
  intro h1; subst h1; revert h; decide

theorem move_ne_bracket {ty : TokState} {c : Char} (h : ty ≠ .E_Start) (h1 : ty ≠ .E_Bracket) :
    Token.move ty c ≠ .E_Bracket ∧ Token.move ty c ≠ .E_Start := by
  cases ty with
  | E_Identifier => simp [Token.move]
  | E_Bracket => exact (h1 rfl).elim
  | E_Number => simp only [Token.move]; split <;> simp
  | E_Start => exact (h rfl).elim

theorem move_start_ne {c : Char} (h : c ≠ '(') (h1 : isDelim c = false) :
    Token.move .E_Start c ≠ .E_Bracket ∧ Token.move .E_Start c ≠ .E_Start := by
  have h2 : c ≠ ')' := by
    intro h3; subst h3; revert h1; decide
  simp only [Token.move, h, h2, if_false]
  split <;> simp

theorem ParseToken.loop_atom (d : Char) (rest : List Char) (hd : isDelim d = true) (r : List Char) :
    ∀ (ty : TokState) (nm : String) (c : Char), Token.move ty c ≠ .E_Bracket →
      Token.move ty c ≠ .E_Start → (∀ x ∈ r, isDelim x = false) →
      ParseToken.loop ty nm (c :: (r ++ d :: rest)) =
        (⟨(c :: r).foldl Token.move ty, ⟨nm.data ++ c :: r⟩⟩, d :: rest) := by
  induction r with
  | nil =>
    intro ty nm c h1 _ _
    have hd1 : isspace d = true ∨ d = ')' := by simpa [isDelim] using hd
    simp [ParseToken.loop, h1, hd1, String.push]
  | cons e r ih =>
    intro ty nm c h1 h2 hr
    have he : isDelim e = false := hr e (List.mem_cons_self _ _)
    have he1 : ¬ (isspace e = true ∨ e = ')') := by simpa [isDelim] using he
    have hm := @move_ne_bracket (Token.move ty c) e h2 h1
    rw [List.cons_append, ParseToken.loop]
    simp only [h1, he1, or_self, if_false]
    rw [ih _ _ _ hm.1 hm.2 (fun x hx => hr x (List.mem_cons_of_mem _ hx))]
    simp [String.push]

theorem ParseToken.loop_atom_end (r : List Char) :
    ∀ (ty : TokState) (nm : String) (c : Char), Token.move ty c ≠ .E_Bracket →
      Token.move ty c ≠ .E_Start → (∀ x ∈ r, isDelim x = false) →
      ParseToken.loop ty nm (c :: r) = (⟨(c :: r).foldl Token.move ty, ⟨nm.data ++ c :: r⟩⟩, []) := by
  induction r with
  | nil =>
    intro ty nm c _ _ _
    simp [ParseToken.loop, String.push]
  | cons e r ih =>
    intro ty nm c h1 h2 hr
    have he : isDelim e = false := hr e (List.mem_cons_self _ _)
    have he1 : ¬ (isspace e = true ∨ e = ')') := by simpa [isDelim] using he
    have hm := @move_ne_bracket (Token.move ty c) e h2 h1
    rw [ParseToken.loop]
    simp only [h1, he1, or_self, if_false]
    rw [ih _ _ _ hm.1 hm.2 (fun x hx => hr x (List.mem_cons_of_mem _ hx))]
    simp [String.push]

theorem skipSpace_of_not {c : Char} {r : List Char} (h : isDelim c = false) :
    skipSpace (c :: r) = c :: r := by
  have : isspace c = false := by
    cases hs : isspace c with
    | false => rfl
    | true => simp [isDelim, hs] at h
  simp [skipSpace, this]

theorem ParseToken_atom {cs : List Char} (h : IsAtom cs) (d : Char) (rest : List Char)
    (hd : isDelim d = true) :
    ParseToken (cs ++ d :: rest) = some (⟨atomType cs, ⟨cs⟩⟩, d :: rest) := by
  cases cs with
  | nil => exact h.elim
  | cons c r =>
    obtain ⟨h1, h2, h3⟩ := h
    have hm := move_start_ne h1 h2
    rw [List.cons_append, ParseToken, skipSpace_of_not h2]
    simp only
    rw [ParseToken.loop_atom d rest hd r _ _ _ hm.1 hm.2 h3]
    simp [atomType]

theorem ParseToken_atom_end {cs : List Char} (h : IsAtom cs) :
    ParseToken cs = some (⟨atomType cs, ⟨cs⟩⟩, []) := by
  cases cs with
  | nil => exact h.elim
  | cons c r =>
    obtain ⟨h1, h2, h3⟩ := h
    have hm := move_start_ne h1 h2
    rw [ParseToken, skipSpace_of_not h2]
    simp only
    rw [ParseToken.loop_atom_end r _ _ _ hm.1 hm.2 h3]
    simp [atomType]

theorem ParseToken_open (rest : List Char) :
    ParseToken ('(' :: rest) = some (⟨.E_Bracket, "("⟩, rest) := by
  cases rest <;> simp [ParseToken, skipSpace, isspace, ParseToken.loop, Token.move] <;> rfl

theorem ParseToken_close (rest : List Char) :
    ParseToken (')' :: rest) = some (⟨.E_Bracket, ")"⟩, rest) := by
  cases rest <;> simp [ParseToken, skipSpace, isspace, ParseToken.loop, Token.move] <;> rfl

theorem ParseToken_space (c : Char) (rest : List Char) (h : isspace c = true) :
    ParseToken (c :: rest) = ParseToken rest := by
  simp [ParseToken, skipSpace, h]

theorem tokenize_nil : tokenize [] = [] := rfl

theorem tokenize_space (c : Char) (rest : List Char) (h : isspace c = true) :
    tokenize (c :: rest) = tokenize rest := by
  rw [tokenize_eq, ParseToken_space c rest h, ← tokenize_eq]

theorem tokenize_open (rest : List Char) :
    tokenize ('(' :: rest) = ⟨.E_Bracket, "("⟩ :: tokenize rest := by
  rw [tokenize_eq, ParseToken_open]

theorem tokenize_close (rest : List Char) :
    tokenize (')' :: rest) = ⟨.E_Bracket, ")"⟩ :: tokenize rest := by
  rw [tokenize_eq, ParseToken_close]

theorem tokenize_atom (cs : List Char) (h : IsAtom cs) (d : Char) (rest : List Char)
    (hd : isDelim d = true) :
    tokenize (cs ++ d :: rest) = ⟨atomType cs, ⟨cs⟩⟩ :: tokenize (d :: rest) := by
  rw [tokenize_eq, ParseToken_atom h d rest hd]

theorem tokenize_atom_end {cs : List Char} (h : IsAtom cs) :
    tokenize cs = [⟨atomType cs, ⟨cs⟩⟩] := by
  rw [tokenize_eq, ParseToken_atom_end h]
  rfl

theorem foldl_move_number (ds : List Char) (h : ∀ c ∈ ds, isdigit c = true) :
    ds.foldl Token.move .E_Number = .E_Number := by
  induction ds with
  | nil => rfl
  | cons c r ih =>
    have hc := h c (List.mem_cons_self _ _)
    simp only [List.foldl_cons, Token.move, hc, Bool.not_true, Bool.false_eq_true, if_false]
    exact ih (fun x hx => h x (List.mem_cons_of_mem _ hx))

theorem foldl_move_identifier (cs : List Char) :
    cs.foldl Token.move .E_Identifier = .E_Identifier := by
  induction cs with
  | nil => rfl
  | cons c r ih => simpa [List.foldl_cons, Token.move] using ih

theorem isAtom_of_isLiteral {a : String} (h : IsLiteral a) : IsAtom a.data := by
  obtain ⟨h1, h2, _⟩ := h
  cases hd : a.data with
  | nil => exact h1 hd
  | cons c r =>
    rw [hd] at h2
    exact ⟨isdigit_ne_open (h2 c (List.mem_cons_self _ _)),
      isdigit_not_delim (h2 c (List.mem_cons_self _ _)),
      fun d hd1 => isdigit_not_delim (h2 d (List.mem_cons_of_mem _ hd1))⟩

theorem atomType_of_isLiteral {a : String} (h : IsLiteral a) : atomType a.data = .E_Number := by
  obtain ⟨h1, h2, _⟩ := h
  cases hd : a.data with
  | nil => exact (h1 hd).elim
  | cons c r =>
    rw [hd] at h2
    have hc := h2 c (List.mem_cons_self _ _)
    have h3 : c ≠ '(' := isdigit_ne_open hc
    have h4 : c ≠ ')' := by
      intro h5; subst h5; revert hc; decide
    simp only [atomType, List.foldl_cons, Token.move, h3, h4, hc, if_true, if_false]
    exact foldl_move_number r (fun x hx => h2 x (List.mem_cons_of_mem _ hx))

theorem stoi_of_isLiteral {a : String} (h : IsLiteral a) : stoi a = some (litVal a) := by
  simp [stoi, litVal, h.2.2]

theorem tokenize_literal {a : String} (h : IsLiteral a) (d : Char) (rest : List Char)
    (hd : isDelim d = true) :
    tokenize (a.data ++ d :: rest) = ⟨.E_Number, a⟩ :: tokenize (d :: rest) := by
  rw [tokenize_atom _ (isAtom_of_isLiteral h) d rest hd, atomType_of_isLiteral h]

/-! ## The recursion budget

A larger budget changes no outcome other than `timeout`. -/

theorem Res.le_refl {α : Type} (r : Res α) : r.le r := Or.inr rfl

theorem Res.timeout_le {α : Type} (r : Res α) : (Res.timeout : Res α).le r := Or.inl rfl

theorem Res.bind_mono {α β : Type} {r r1 : Res α} {k k1 : α → Lisp → Res β}
    (h : r.le r1) (hk : ∀ a L, (k a L).le (k1 a L)) : (r.bind k).le (r1.bind k1) := by
  rcases h with h | h
  · subst h; exact Or.inl rfl
  · subst h
    cases r with
    | ok a L => exact hk a L
    | throw e L => exact Or.inr rfl
    | undefined => exact Or.inr rfl
    | timeout => exact Or.inl rfl

theorem deref_mono {α β : Type} (p : Option α) {k k1 : α → Res β}
    (hk : ∀ a, (k a).le (k1 a)) : (deref p k).le (deref p k1) := by
  cases p with
  | none => exact Or.inr rfl
  | some a => exact hk a

theorem putLambdaArgs_mono : ∀ (n m : Nat), n ≤ m → ∀ (L : Lisp) (x : Option Nat),
    (putLambdaArgs n L x).le (putLambdaArgs m L x) := by
  intro n
  induction n with
  | zero => intro m _ L x; exact Or.inl rfl
  | succ n ih =>
    intro m hm L x
    obtain ⟨m1, rfl⟩ : ∃ m1, m = m1 + 1 := ⟨m - 1, by omega⟩
    cases x with
    | none => exact Or.inr rfl
    | some x =>
      simp only [putLambdaArgs]
      exact Res.bind_mono (Res.le_refl _) (fun _ L1 => ih m1 (by omega) L1 _)

theorem TraverseLambdaWith_mono {tap tap1 : Lisp → Option Nat → Res Unit}
    (h : ∀ L p, (tap L p).le (tap1 L p)) (L : Lisp) (lmda : Nat) :
    (TraverseLambdaWith tap L lmda).le (TraverseLambdaWith tap1 L lmda) := by
  unfold TraverseLambdaWith
  apply deref_mono
  intro r
  apply Res.bind_mono (h _ _)
  intro _ L1
  split
  · exact h _ _
  · exact Res.le_refl _

theorem TraverseAndPreserve_mono : ∀ (n m : Nat), n ≤ m → ∀ (L : Lisp) (p : Option Nat),
    (TraverseAndPreserve n L p).le (TraverseAndPreserve m L p) := by
  intro n
  induction n with
  | zero => intro m _ L p; exact Or.inl rfl
  | succ n ih =>
    intro m hm L p
    obtain ⟨m1, rfl⟩ : ∃ m1, m = m1 + 1 := ⟨m - 1, by omega⟩
    have ih1 := ih m1 (by omega)
    cases p with
    | none => exact Or.inr rfl
    | some list =>
      simp only [TraverseAndPreserve]
      split_ifs
      · exact Res.le_refl _
      · apply deref_mono
        intro r
        apply Res.bind_mono (putLambdaArgs_mono n m1 (by omega) _ _)
        intro _ L2
        apply Res.bind_mono (TraverseLambdaWith_mono ih1 _ _)
        intro _ L3
        exact Res.le_refl _
      · apply Res.bind_mono
        · split
          · exact ih1 _ _
          · exact Res.le_refl _
        · intro _ L2
          split
          · exact ih1 _ _
          · exact Res.le_refl _

theorem TraverseLambda_mono (n m : Nat) (h : n ≤ m) (L : Lisp) (lmda : Nat) :
    (TraverseLambda n L lmda).le (TraverseLambda m L lmda) :=
  TraverseLambdaWith_mono (TraverseAndPreserve_mono n m h) L lmda

theorem bindArgs_mono {ev ev1 : Lisp → Option Nat → Res Nat}
    (h : ∀ L p, (ev L p).le (ev1 L p)) : ∀ (n m : Nat), n ≤ m → ∀ (L : Lisp) (x para : Option Nat),
    (bindArgs ev n L x para).le (bindArgs ev1 m L x para) := by
  intro n
  induction n with
  | zero => intro m _ L x para; exact Or.inl rfl
  | succ n ih =>
    intro m hm L x para
    obtain ⟨m1, rfl⟩ : ∃ m1, m = m1 + 1 := ⟨m - 1, by omega⟩
    cases x with
    | none => exact Or.inr rfl
    | some x =>
      cases para with
      | none => exact Or.inr rfl
      | some p =>
        simp only [bindArgs]
        apply Res.bind_mono (h _ _)
        intro v L1
        apply Res.bind_mono (Res.le_refl _)
        intro _ L2
        exact ih m1 (by omega) _ _ _

theorem rebindArgs_mono {ev ev1 : Lisp → Option Nat → Res Nat}
    (h : ∀ L p, (ev L p).le (ev1 L p)) : ∀ (n m : Nat), n ≤ m → ∀ (L : Lisp) (x : Option Nat),
    (rebindArgs ev n L x).le (rebindArgs ev1 m L x) := by
  intro n
  induction n with
  | zero => intro m _ L x; exact Or.inl rfl
  | succ n ih =>
    intro m hm L x
    obtain ⟨m1, rfl⟩ : ∃ m1, m = m1 + 1 := ⟨m - 1, by omega⟩
    cases x with
    | none => exact Or.inr rfl
    | some x =>
      simp only [rebindArgs]
      apply Res.bind_mono (h _ _)
      intro v L1
      apply Res.bind_mono (Res.le_refl _)
      intro _ L2
      apply deref_mono
      intro _
      exact ih m1 (by omega) _ _

theorem condLoop_mono {ev ev1 : Lisp → Option Nat → Res Nat}
    (h : ∀ L p, (ev L p).le (ev1 L p)) : ∀ (n m : Nat), n ≤ m → ∀ (L : Lisp) (x : Option Nat),
    (condLoop ev n L x).le (condLoop ev1 m L x) := by
  intro n
  induction n with
  | zero => intro m _ L x; exact Or.inl rfl
  | succ n ih =>
    intro m hm L x
    obtain ⟨m1, rfl⟩ : ∃ m1, m = m1 + 1 := ⟨m - 1, by omega⟩
    cases x with
    | none => exact Or.inr rfl
    | some x =>
      simp only [condLoop]
      apply Res.bind_mono (h _ _)
      intro boo L1
      apply deref_mono
      intro r
      apply Res.bind_mono (h _ _)
      intro expr L2
      split
      · exact Res.le_refl _
      · exact ih m1 (by omega) _ _

theorem Eval_mono : ∀ (n m : Nat), n ≤ m → ∀ (L : Lisp) (p : Option Nat),
    (Eval n L p).le (Eval m L p) := by
  intro n
  induction n with
  | zero => intro m _ L p; exact Or.inl rfl
  | succ n ih =>
    intro m hm L p
    obtain ⟨m1, rfl⟩ : ∃ m1, m = m1 + 1 := ⟨m - 1, by omega⟩
    have hnm : n ≤ m1 := by omega
    have ih1 := ih m1 hnm
    cases p with
    | none => exact Or.inr rfl
    | some list =>
      simp only [Eval]
      cases hR : (L.heap list).right with
      | none =>
        simp only
        split_ifs
        · split
          · exact Res.le_refl _
          · split_ifs
            · exact ih1 _ _
            · exact Res.le_refl _
        · exact Res.le_refl _
      | some right =>
        simp only
        cases hT : (L.heap list).type with
        | E_Define =>
          simp only
          split
          · exact Res.le_refl _
          · apply Res.bind_mono (ih1 _ _)
            intro v L1
            exact Res.le_refl _
        | E_List =>
          simp only
          apply Res.bind_mono
          · split_ifs
            · exact ih1 _ _
            · exact Res.le_refl _
          · intro first L1
            split_ifs
            · apply deref_mono; intro r1
              apply Res.bind_mono (ih1 _ _); intro second L2
              apply deref_mono; intro r2
              apply deref_mono; intro a
              apply Res.bind_mono (ih1 _ _); intro third L3
              exact Res.le_refl _
            · apply deref_mono; intro ps
              apply deref_mono; intro r1
              apply Res.bind_mono (bindArgs_mono ih1 n m1 hnm _ _ _); intro _ L3
              apply deref_mono; intro ps3
              apply Res.bind_mono (ih1 _ _); intro res L4
              exact Res.le_refl _
            · exact Res.le_refl _
        | E_Lambda =>
          simp only
          apply deref_mono; intro ps
          apply deref_mono; intro x
          have hV : ∀ L1 : Lisp,
              ((putLambdaArgs n L1 (some x)).bind fun _ L2 =>
                (TraverseLambda n L2 list).bind fun _ L3 =>
                  L3.RemoveTemp.bind fun _ L4 => Res.ok list L4).le
              ((putLambdaArgs m1 L1 (some x)).bind fun _ L2 =>
                (TraverseLambda m1 L2 list).bind fun _ L3 =>
                  L3.RemoveTemp.bind fun _ L4 => Res.ok list L4) := by
            intro L1
            apply Res.bind_mono (putLambdaArgs_mono n m1 hnm _ _); intro _ L2
            apply Res.bind_mono (TraverseLambda_mono n m1 hnm _ _); intro _ L3
            exact Res.le_refl _
          split_ifs
          · exact hV _
          · apply deref_mono; intro p
            split_ifs
            · exact hV _
            · apply Res.bind_mono (rebindArgs_mono ih1 n m1 hnm _ _); intro _ L2
              apply deref_mono; intro ps2
              apply Res.bind_mono (ih1 _ _); intro res L3
              exact Res.le_refl _
        | E_Eq =>
          simp only
          apply Res.bind_mono (ih1 _ _); intro arg1 L1
          apply deref_mono; intro r1
          apply Res.bind_mono (ih1 _ _); intro arg2 L2
          exact Res.le_refl _
        | E_Cond =>
          simp only
          exact condLoop_mono ih1 n m1 hnm _ _
        | E_Identifier =>
          simp only
          exact ih1 _ _
        | E_BiFunc => exact Or.inr rfl
        | E_Number => exact Or.inr rfl
        | E_Logic => exact Or.inr rfl
        | E_LambdaArg => exact Or.inr rfl

theorem Exec_mono (n m : Nat) (h : n ≤ m) (L : Lisp) (line : String) :
    (Exec n L line).le (Exec m L line) := by
  unfold Exec
  apply Res.bind_mono (Res.le_refl _)
  intro root L1
  apply Res.bind_mono (Eval_mono n m h _ _)
  intro res L2
  exact Res.le_refl _

theorem Exec_of_le {n m : Nat} {L : Lisp} {line : String} {r : Res String}
    (h : Exec n L line = r) (hr : r ≠ .timeout) (hnm : n ≤ m) : Exec m L line = r := by
  rcases Exec_mono n m hnm L line with h1 | h1
  · exact (hr (h ▸ h1)).elim
  · rw [← h1, h]


theorem Exec_result_of_le {n m : Nat} {L : Lisp} {line : String} {v : String}
    (h : (Exec n L line).result = some v) (hnm : n ≤ m) : (Exec m L line).result = some v := by
  rcases Exec_mono n m hnm L line with h1 | h1
  · rw [h1] at h; cases h
  · rw [← h1, h]

theorem Res.eq_ok_of_result {α : Type} {r : Res α} {v : α} (h : r.result = some v) :
    r = .ok v r.stateD := by
  cases r with
  | ok a L => simp only [Res.result, Option.some.injEq] at h; subst h; rfl
  | throw e L => cases h
  | undefined => cases h
  | timeout => cases h

/-! ## Helper facts for whole lines -/

/-- The tokens of a line `(op a b)` with an atom and two literals. -/
theorem tokenize_binary (op : String) (hop : IsAtom op.data) (a b : String) (ha : IsLiteral a) (hb : IsLiteral b) :
    tokenize ("(" ++ op ++ " " ++ a ++ " " ++ b ++ ")").data =
      [⟨.E_Bracket, "("⟩, ⟨atomType op.data, op⟩, ⟨.E_Number, a⟩, ⟨.E_Number, b⟩, ⟨.E_Bracket, ")"⟩] := by
  simp only [String.data_append, List.append_assoc]
  simp only [List.singleton_append, List.cons_append, List.nil_append]
  rw [tokenize_open, tokenize_atom _ hop ' ' _ (by decide), tokenize_space ' ' _ (by decide),
    tokenize_literal ha ' ' _ (by decide), tokenize_space ' ' _ (by decide),
    tokenize_literal hb ')' _ (by decide), tokenize_close, tokenize_nil]

theorem wrap32_of_range {x : Int} (h1 : INT_MIN ≤ x) (h2 : x ≤ INT_MAX) : wrap32 x = x := by
  unfold wrap32
  unfold INT_MIN at h1
  unfold INT_MAX at h2
  omega

theorem litVal_nonneg (a : String) : 0 ≤ litVal a := Int.ofNat_nonneg _

/-- The freshly initialised interpreter, written out. -/
theorem Lisp.new_eq : Lisp.new =
    { heap := Function.update (Function.update (Function.update (Function.update (Function.update
        (Function.update (Function.update (fun _ => {}) 0 { type := .E_LambdaArg })
          1 { type := .E_BiFunc, name := "+", val := { func := some .add } })
          2 { type := .E_BiFunc, name := "-", val := { func := some .sub } })
          3 { type := .E_BiFunc, name := "*", val := { func := some .mul } })
          4 { type := .E_BiFunc, name := "/", val := { func := some .div } })
          5 { type := .E_Logic, name := "True", val := { number := 1 } })
          6 { type := .E_Logic, name := "False", val := { number := 0 } },
      next := 7,
      _ids := [[("False", 6), ("True", 5), ("/", 4), ("*", 3), ("-", 2), ("+", 1)]],
      _lmd_arg := 0 } := by
  rfl

theorem foldl_move_number_nondigit (r : List Char) (h : ¬ ∀ c ∈ r, isdigit c = true) :
    r.foldl Token.move .E_Number = .E_Identifier := by
  induction r with
  | nil => exact (h (fun c hc => by cases hc)).elim
  | cons c r ih =>
    cases hc : isdigit c with
    | false => simp [List.foldl_cons, Token.move, hc, foldl_move_identifier]
    | true =>
      simp only [List.foldl_cons, Token.move, hc, Bool.not_true, Bool.false_eq_true, if_false]
      apply ih
      intro h1
      apply h
      intro x hx
      rcases List.mem_cons.mp hx with rfl | hx
      · exact hc
      · exact h1 x hx

theorem isAtom_of_isIdentifier {x : String} (h : IsIdentifier x) : IsAtom x.data := by
  obtain ⟨h1, h2, _, _⟩ := h
  have hd : ∀ c ∈ x.data, isDelim c = false := by
    intro c hc
    obtain ⟨a1, _, a3⟩ := h2 c hc
    simp [isDelim, a1, a3]
  cases hx : x.data with
  | nil => exact h1 hx
  | cons c r =>
    rw [hx] at h2 hd
    exact ⟨(h2 c (List.mem_cons_self _ _)).2.1, hd c (List.mem_cons_self _ _),
      fun d hd1 => hd d (List.mem_cons_of_mem _ hd1)⟩

theorem atomType_of_isIdentifier {x : String} (h : IsIdentifier x) :
    atomType x.data = .E_Identifier := by
  obtain ⟨h1, h2, h3, _⟩ := h
  cases hx : x.data with
  | nil => exact (h1 hx).elim
  | cons c r =>
    rw [hx] at h2 h3
    obtain ⟨_, a2, a3⟩ := h2 c (List.mem_cons_self _ _)
    cases hc : isdigit c with
    | false =>
      simp [atomType, List.foldl_cons, Token.move, a2, a3, hc, foldl_move_identifier]
    | true =>
      simp only [atomType, List.foldl_cons, Token.move, a2, a3, hc, if_true, if_false]
      apply foldl_move_number_nondigit
      intro h4
      apply h3
      intro y hy
      rcases List.mem_cons.mp hy with rfl | hy
      · exact hc
      · exact h4 y hy

theorem tokenize_define (x n : String) (hx : IsIdentifier x) (hn : IsLiteral n) :
    tokenize ("(define " ++ x ++ " " ++ n ++ ")").data =
      [⟨.E_Bracket, "("⟩, ⟨.E_Identifier, "define"⟩, ⟨.E_Identifier, x⟩, ⟨.E_Number, n⟩,
        ⟨.E_Bracket, ")"⟩] := by
  simp only [String.data_append, List.append_assoc]
  simp only [List.singleton_append, List.cons_append, List.nil_append]
  rw [tokenize_open]
  have h := tokenize_atom "define".data (by decide) ' '
    (x.data ++ ' ' :: (n.data ++ [')'])) (by decide)
  simp only [List.cons_append, List.nil_append] at h
  rw [h, tokenize_space ' ' _ (by decide), tokenize_atom _ (isAtom_of_isIdentifier hx) ' ' _ (by decide),
    atomType_of_isIdentifier hx, tokenize_space ' ' _ (by decide), tokenize_literal hn ')' _ (by decide),
    tokenize_close, tokenize_nil]
  rfl

theorem tokenize_identifier (x : String) (hx : IsIdentifier x) :
    tokenize x.data = [⟨.E_Identifier, x⟩] := by
  rw [tokenize_atom_end (isAtom_of_isIdentifier hx), atomType_of_isIdentifier hx]

theorem keywordKind_none {x : String} (h : keywordKind x = none) :
    x ≠ "define" ∧ x ≠ "lambda" ∧ x ≠ "eq?" ∧ x ≠ "cond" := by
  unfold keywordKind at h
  refine ⟨?_, ?_, ?_, ?_⟩ <;> intro h1 <;> subst h1 <;> simp at h

theorem IdHashMap.Get_cons_none {top : Frame} {rest : IdHashMap} {x : String}
    (h : IdHashMap.Get (top :: rest) x = none) :
    top.find x = none ∧ IdHashMap.Get rest x = none := by
  unfold IdHashMap.Get at h
  split at h
  · cases h
  · exact ⟨by assumption, h⟩


/-! ## The scope stack -/

theorem IdHashMap.Get_isSome_of_binds {m : IdHashMap} {id : String}
    (h : ∃ f ∈ m, Frame.binds f id) : ∃ v, m.Get id = some v := by
  induction m with
  | nil => obtain ⟨f, hf, _⟩ := h; cases hf
  | cons top rest ih =>
    unfold IdHashMap.Get
    cases ht : top.find id with
    | some v => exact ⟨v, rfl⟩
    | none =>
      obtain ⟨f, hf, hb⟩ := h
      rcases List.mem_cons.mp hf with rfl | hf
      · simp [Frame.binds, ht] at hb
      · exact ih ⟨f, hf, hb⟩

theorem IdHashMap.Get_none_of_not_binds {m : IdHashMap} {id : String}
    (h : ∀ f ∈ m, ¬ Frame.binds f id) : m.Get id = none := by
  induction m with
  | nil => rfl
  | cons top rest ih =>
    unfold IdHashMap.Get
    have ht : top.find id = none := by
      have := h top (List.mem_cons_self _ _)
      simpa [Frame.binds] using this
    rw [ht]
    exact ih (fun f hf => h f (List.mem_cons_of_mem _ hf))

theorem IdHashMap.Get_innermost {inner outer : List Frame} {f : Frame} {id : String} {v : Nat}
    (hin : ∀ g ∈ inner, ¬ Frame.binds g id) (hf : f.find id = some v) :
    IdHashMap.Get (inner ++ f :: outer) id = some v := by
  induction inner with
  | nil => simp [IdHashMap.Get, hf]
  | cons g inner ih =>
    have hg : g.find id = none := by
      have := hin g (List.mem_cons_self _ _)
      simpa [Frame.binds] using this
    rw [List.cons_append, IdHashMap.Get, hg]
    exact ih (fun g hg => hin g (List.mem_cons_of_mem _ hg))


/-- The line `(op a b)` on two literals in the freshly initialised interpreter. -/
theorem exec_binary_result (op : BiFunc) (a b : String) (ha : IsLiteral a) (hb : IsLiteral b)
    (hdiv : op = .div → litVal b ≠ 0)
    (hlo : INT_MIN ≤ op.math (litVal a) (litVal b)) (hhi : op.math (litVal a) (litVal b) ≤ INT_MAX)
    (fuel : Nat) (hf : 2 ≤ fuel) :
    (Exec fuel Lisp.new ("(" ++ op.symbol ++ " " ++ a ++ " " ++ b ++ ")")).result =
      some (to_string (op.math (litVal a) (litVal b))) := by
  obtain ⟨k, rfl⟩ : ∃ k, fuel = k + 2 := ⟨fuel - 2, by omega⟩
  have hw := wrap32_of_range hlo hhi
  have hb0 := litVal_nonneg b
  unfold Exec BuildSyntaxTree
  cases op
  all_goals
    rw [tokenize_binary _ (by decide) a b ha hb, Lisp.new_eq]
    simp [BiFunc.symbol, atomType, Token.move, isdigit, BuildSyntaxTree.loop, BuildSyntaxTree.step, Res.bind, stoi_of_isLiteral ha, stoi_of_isLiteral hb,
      Lisp.alloc, Lisp.Put, IdHashMap.Put, Lisp.modify, AddLeft, AddRight, Frame.assign,
      keywordKind, Eval, deref, IdHashMap.Get, Frame.find, BiFunc.call, Res.result,
      Function.update_apply]
  · simpa [BiFunc.math] using congrArg to_string hw
  · simpa [BiFunc.math] using congrArg to_string hw
  · simpa [BiFunc.math] using congrArg to_string hw
  · have h0 : litVal b ≠ 0 := hdiv rfl
    have h1 : ¬ (litVal b = -1) := by omega
    simp [h0, h1, BiFunc.math]

/-- A built-in operator with no operand or one operand: `Eval` calls itself
on the null pointer of the missing operand and dereferences it. -/
theorem missing_operand_undefined (op : BiFunc) (a : String) (ha : IsLiteral a)
    (fuel : Nat) (hf : 2 ≤ fuel) :
    Exec fuel Lisp.new ("(" ++ op.symbol ++ ")") = .undefined ∧
      Exec fuel Lisp.new ("(" ++ op.symbol ++ " " ++ a ++ ")") = .undefined := by
  obtain ⟨k, rfl⟩ : ∃ k, fuel = k + 2 := ⟨fuel - 2, by omega⟩
  have t0 : ∀ o : String, IsAtom o.data → tokenize ("(" ++ o ++ ")").data =
      [⟨.E_Bracket, "("⟩, ⟨atomType o.data, o⟩, ⟨.E_Bracket, ")"⟩] := by
    intro o ho
    simp only [String.data_append, List.append_assoc]
    simp only [List.singleton_append, List.cons_append, List.nil_append]
    rw [tokenize_open, tokenize_atom _ ho ')' _ (by decide), tokenize_close, tokenize_nil]
  have t1 : ∀ o : String, IsAtom o.data → tokenize ("(" ++ o ++ " " ++ a ++ ")").data =
      [⟨.E_Bracket, "("⟩, ⟨atomType o.data, o⟩, ⟨.E_Number, a⟩, ⟨.E_Bracket, ")"⟩] := by
    intro o ho
    simp only [String.data_append, List.append_assoc]
    simp only [List.singleton_append, List.cons_append, List.nil_append]
    rw [tokenize_open, tokenize_atom _ ho ' ' _ (by decide), tokenize_space ' ' _ (by decide),
      tokenize_literal ha ')' _ (by decide), tokenize_close, tokenize_nil]
  unfold Exec BuildSyntaxTree
  cases op
  all_goals
    rw [t0 _ (by decide), t1 _ (by decide), Lisp.new_eq]
    simp [BiFunc.symbol, atomType, Token.move, isdigit, BuildSyntaxTree.loop,
      BuildSyntaxTree.step, Res.bind, stoi_of_isLiteral ha,
      Lisp.alloc, Lisp.Put, IdHashMap.Put, Lisp.modify, AddLeft, AddRight, Frame.assign,
      keywordKind, Eval, deref, IdHashMap.Get, Frame.find, BiFunc.call, Res.result,
      Function.update_apply]

/-- The tokens of a call `(f a b)` of an identifier on two literals. -/
theorem tokenize_call2 (f a b : String) (hf : IsIdentifier f) (ha : IsLiteral a)
    (hb : IsLiteral b) :
    tokenize ("(" ++ f ++ " " ++ a ++ " " ++ b ++ ")").data =
      [⟨.E_Bracket, "("⟩, ⟨.E_Identifier, f⟩, ⟨.E_Number, a⟩, ⟨.E_Number, b⟩,
        ⟨.E_Bracket, ")"⟩] := by
  rw [tokenize_binary f (isAtom_of_isIdentifier hf) a b ha hb, atomType_of_isIdentifier hf]

/-- The line that defines `add2` returns, and the objects it leaves. -/
theorem add2State_facts (op : BiFunc) :
    (Exec 6 Lisp.new ("(define add2 (lambda (x y) (" ++ op.symbol ++ " x y)))")).result =
      some "define" ∧
    (add2State op).next = 22 ∧
    (add2State op)._ids =
      [[("add2", 9), ("False", 6), ("True", 5), ("/", 4), ("*", 3), ("-", 2), ("+", 1)]] ∧
    (add2State op).heap 1 = { type := .E_BiFunc, name := "+", val := { func := some .add } } ∧
    (add2State op).heap 2 = { type := .E_BiFunc, name := "-", val := { func := some .sub } } ∧
    (add2State op).heap 3 = { type := .E_BiFunc, name := "*", val := { func := some .mul } } ∧
    (add2State op).heap 9 =
      { type := .E_Lambda, name := "lambda", right := some 10, parent := some 8 } ∧
    (add2State op).heap 10 =
      { type := .E_List, name := "list", left := some 14, right := some 11, parent := some 9 } ∧
    (add2State op).heap 11 =
      { type := .E_Identifier, name := "x", left := some 12, parent := some 10 } ∧
    (add2State op).heap 12 = { type := .E_Identifier, name := "y", parent := some 11 } ∧
    (add2State op).heap 14 =
      { type := .E_List, name := "list", right := some 15, parent := some 10 } ∧
    (add2State op).heap 15 =
      { type := .E_Identifier, name := (op.symbol), left := some 16,
        identifier_target := some (match op with | .add => 1 | .sub => 2 | .mul => 3 | .div => 4),
        parent := some 14 } ∧
    (add2State op).heap 16 =
      { type := .E_Identifier, name := "x", left := some 17, parent := some 15 } ∧
    (add2State op).heap 17 = { type := .E_Identifier, name := "y", parent := some 16 } := by
  cases op <;> decide!

/-- The call `(add2 a b)` in the state the defining line leaves. -/
theorem call_add2 (op : BiFunc) (hop : op ≠ .div) (a b : String)
    (ha : IsLiteral a) (hb : IsLiteral b)
    (hlo : INT_MIN ≤ op.math (litVal a) (litVal b))
    (hhi : op.math (litVal a) (litVal b) ≤ INT_MAX) :
    (Exec 4 (add2State op) ("(add2 " ++ a ++ " " ++ b ++ ")")).result =
      some (to_string (op.math (litVal a) (litVal b))) := by
  obtain ⟨_, hn, hids, o1, o2, o3, e9, e10, e11, e12, e14, e15, e16, e17⟩ := add2State_facts op
  have hw := wrap32_of_range hlo hhi
  have ht : tokenize ("(add2 " ++ a ++ " " ++ b ++ ")").data = _ :=
    tokenize_call2 "add2" a b (by decide) ha hb
  generalize add2State op = L at *
  unfold Exec BuildSyntaxTree
  rw [ht]
  cases op
  case div => exact (hop rfl).elim
  all_goals
    simp [BiFunc.symbol, BuildSyntaxTree.loop, BuildSyntaxTree.step, Res.bind,
      stoi_of_isLiteral ha, stoi_of_isLiteral hb,
      Lisp.alloc, Lisp.Put, IdHashMap.Put, Lisp.modify, AddLeft, AddRight, Frame.assign,
      keywordKind, Eval, deref, IdHashMap.Get, Frame.find, BiFunc.call, Res.result,
      bindArgs, Lisp.AddTemp, Lisp.RemoveTemp, IdHashMap.AddTemp, IdHashMap.RemoveTemp,
      Function.update_apply, hn, hids, e9, e10, e11, e12, e14, e15, e16, e17, o1, o2, o3]
    simpa [BiFunc.math] using congrArg to_string hw

/-- The line that defines `666kk` returns, and the objects it leaves. -/
theorem kkState_facts :
    (Exec 10 Lisp.new
      "(define 666kk (lambda (x1) (lambda (x2 x3) (+ x1 (+ x2 x3)))))").result = some "define" ∧
    kkState.next = 31 ∧
    kkState._lmd_arg = 0 ∧
    kkState._ids =
      [[("666kk", 9), ("False", 6), ("True", 5), ("/", 4), ("*", 3), ("-", 2), ("+", 1)]] ∧
    kkState.heap 0 = { type := .E_LambdaArg } ∧
    kkState.heap 1 = { type := .E_BiFunc, name := "+", val := { func := some .add } } ∧
    kkState.heap 9 = { type := .E_Lambda, name := "lambda", right := some 10, parent := some 8 } ∧
    kkState.heap 10 =
      { type := .E_List, name := "list", left := some 13, right := some 11, parent := some 9 } ∧
    kkState.heap 11 = { type := .E_Identifier, name := "x1", parent := some 10 } ∧
    kkState.heap 13 =
      { type := .E_Lambda, name := "lambda", right := some 14, parent := some 10 } ∧
    kkState.heap 14 =
      { type := .E_List, name := "list", left := some 18, right := some 15, parent := some 13 } ∧
    kkState.heap 15 =
      { type := .E_Identifier, name := "x2", left := some 16, parent := some 14 } ∧
    kkState.heap 16 = { type := .E_Identifier, name := "x3", parent := some 15 } ∧
    kkState.heap 18 = { type := .E_List, name := "list", right := some 19, parent := some 14 } ∧
    kkState.heap 19 =
      { type := .E_Identifier, name := "+", left := some 20, identifier_target := some 1,
        parent := some 18 } ∧
    kkState.heap 20 =
      { type := .E_Identifier, name := "x1", left := some 21, parent := some 19 } ∧
    kkState.heap 21 = { type := .E_List, name := "list", right := some 22, parent := some 20 } ∧
    kkState.heap 22 =
      { type := .E_Identifier, name := "+", left := some 23, identifier_target := some 1,
        parent := some 21 } ∧
    kkState.heap 23 =
      { type := .E_Identifier, name := "x2", left := some 24, parent := some 22 } ∧
    kkState.heap 24 = { type := .E_Identifier, name := "x3", parent := some 23 } := by
  decide!

/-- The tokens of the line `((666kk a) b c)`. -/
theorem tokenize_kk_call (a b c : String) (ha : IsLiteral a) (hb : IsLiteral b)
    (hc : IsLiteral c) :
    tokenize ("((666kk " ++ a ++ ") " ++ b ++ " " ++ c ++ ")").data =
      [⟨.E_Bracket, "("⟩, ⟨.E_Bracket, "("⟩, ⟨.E_Identifier, "666kk"⟩, ⟨.E_Number, a⟩,
        ⟨.E_Bracket, ")"⟩, ⟨.E_Number, b⟩, ⟨.E_Number, c⟩, ⟨.E_Bracket, ")"⟩] := by
  simp only [String.data_append, List.append_assoc]
  simp only [List.singleton_append, List.cons_append, List.nil_append]
  have h := tokenize_atom "666kk".data (by decide) ' '
    (a.data ++ ')' :: ' ' :: (b.data ++ ' ' :: (c.data ++ [')']))) (by decide)
  simp only [List.cons_append, List.nil_append] at h
  rw [tokenize_open, tokenize_open, h, tokenize_space ' ' _ (by decide),
    tokenize_literal ha ')' _ (by decide), tokenize_close, tokenize_space ' ' _ (by decide),
    tokenize_literal hb ' ' _ (by decide), tokenize_space ' ' _ (by decide),
    tokenize_literal hc ')' _ (by decide), tokenize_close, tokenize_nil]
  rfl

/-- The call `((666kk a) b c)` in the state the defining line leaves. -/
theorem call_kk (a b c : String) (ha : IsLiteral a) (hb : IsLiteral b) (hc : IsLiteral c)
    (hsum : litVal a + litVal b + litVal c ≤ INT_MAX) :
    (Exec 10 kkState ("((666kk " ++ a ++ ") " ++ b ++ " " ++ c ++ ")")).result =
      some (to_string (litVal a + litVal b + litVal c)) := by
  obtain ⟨_, hn, hl, hids, e0, e1, e9, e10, e11, e13, e14, e15, e16, e18, e19, e20, e21, e22,
    e23, e24⟩ := kkState_facts
  have ha0 := litVal_nonneg a
  have hb0 := litVal_nonneg b
  have hc0 := litVal_nonneg c
  have hw1 : wrap32 (litVal b + litVal c) = litVal b + litVal c :=
    wrap32_of_range (by unfold INT_MIN; omega) (by unfold INT_MAX at *; omega)
  have hw2 : wrap32 (litVal a + (litVal b + litVal c)) = litVal a + (litVal b + litVal c) :=
    wrap32_of_range (by unfold INT_MIN; omega) (by unfold INT_MAX at *; omega)
  generalize kkState = L at *
  unfold Exec BuildSyntaxTree
  rw [tokenize_kk_call a b c ha hb hc]
  simp [BuildSyntaxTree.loop, BuildSyntaxTree.step, Res.bind,
    stoi_of_isLiteral ha, stoi_of_isLiteral hb, stoi_of_isLiteral hc,
    Lisp.alloc, Lisp.Put, IdHashMap.Put, Lisp.modify, AddLeft, AddRight, Frame.assign,
    keywordKind, Eval, deref, IdHashMap.Get, Frame.find, BiFunc.call, Res.result,
    bindArgs, putLambdaArgs, TraverseLambda, TraverseLambdaWith, TraverseAndPreserve,
    Preserve, Lisp.AddTemp, Lisp.RemoveTemp, IdHashMap.AddTemp, IdHashMap.RemoveTemp,
    Function.update_apply, hn, hl, hids, e0, e1, e9, e10, e11, e13, e14, e15, e16, e18, e19,
    e20, e21, e22, e23, e24, hw1, hw2]
  rw [Int.add_assoc]

/-! ## Lines with `cond` -/

/-- The tokens of the clauses of a `cond` and the bracket that closes it. -/
theorem tokenize_clauses : ∀ (cs : List (Bool × String)), (∀ ce ∈ cs, IsLiteral ce.2) →
    tokenize ((clausesText cs).data ++ [')']) = clausesTokens cs ++ [⟨.E_Bracket, ")"⟩] := by
  intro cs
  induction cs with
  | nil => intro _; exact (tokenize_close []).trans (by rw [tokenize_nil]; rfl)
  | cons ce cs ih =>
    intro h
    have he : IsLiteral ce.2 := h ce (List.mem_cons_self _ _)
    have ih1 := ih (fun x hx => h x (List.mem_cons_of_mem _ hx))
    have hb : IsAtom (boolName ce.1).data := by cases ce.1 <;> decide
    have hbt : atomType (boolName ce.1).data = .E_Identifier := by cases ce.1 <;> decide
    simp only [clausesText, clauseText, String.data_append, List.append_assoc]
    simp only [List.singleton_append, List.cons_append, List.nil_append]
    rw [tokenize_space ' ' _ (by decide), tokenize_open, tokenize_atom _ hb ' ' _ (by decide),
      hbt, tokenize_space ' ' _ (by decide), tokenize_literal he ')' _ (by decide),
      tokenize_close, ih1]
    rfl

/-- The tokens of a `cond` line. -/
theorem tokenize_condLine (cs : List (Bool × String)) (h : ∀ ce ∈ cs, IsLiteral ce.2) :
    tokenize (condLine cs).data =
      ⟨.E_Bracket, "("⟩ :: ⟨.E_Identifier, "cond"⟩ ::
        (clausesTokens cs ++ [⟨.E_Bracket, ")"⟩]) := by
  have ht := tokenize_clauses cs h
  have hd : ∃ d rest, (clausesText cs).data ++ [')'] = d :: rest ∧ isDelim d = true := by
    cases cs with
    | nil => exact ⟨')', [], rfl, by decide⟩
    | cons ce cs =>
      refine ⟨' ', '(' :: ((boolName ce.1).data ++ ' ' :: (ce.2.data ++ ')' ::
        ((clausesText cs).data ++ [')']))), ?_, by decide⟩
      simp only [clausesText, clauseText, String.data_append, List.append_assoc]
      rfl
  obtain ⟨d, rest, hdr, hdd⟩ := hd
  simp only [condLine, String.data_append, List.append_assoc]
  rw [hdr] at ht ⊢
  have h1 := tokenize_atom "cond".data (by decide) d rest hdd
  simp only [List.cons_append, List.nil_append] at h1
  show tokenize ('(' :: 'c' :: 'o' :: 'n' :: 'd' :: d :: rest) = _
  rw [tokenize_open, h1, ht]
  rfl

/-- The loop of the `E_Cond` branch on clauses of the parsed shape: the first
clause whose condition is `True` decides. -/
theorem condLoop_chain (lo t f : Nat) (L : Lisp)
    (hT : L._ids.Get "True" = some t) (hTt : (L.heap t).type = .E_Logic)
    (hTv : (L.heap t).val.number = 1)
    (hF : L._ids.Get "False" = some f) (hFt : (L.heap f).type = .E_Logic)
    (hFv : (L.heap f).val.number = 0) (fuel : Nat) :
    ∀ (cs : List (Bool × String)) (x : Option Nat) (n : Nat), CondChain lo L.heap x cs →
      cs.length < n →
      (∀ pre e post, cs = pre ++ (true, e) :: post → (∀ ce ∈ pre, ce.1 = false) →
        ∃ v, condLoop (Eval (fuel + 1)) n L x = .ok v L ∧ (L.heap v).type = .E_Number ∧
          (L.heap v).val.number = litVal e) ∧
      ((∀ ce ∈ cs, ce.1 = false) →
        condLoop (Eval (fuel + 1)) n L x = .throw (.c_str "no True condition") L) := by
  intro cs
  induction cs with
  | nil =>
    intro x n hc hn
    obtain ⟨n1, rfl⟩ : ∃ n1, n = n1 + 1 := ⟨n - 1, by omega⟩
    simp only [CondChain] at hc
    subst hc
    refine ⟨?_, fun _ => rfl⟩
    intro pre e post h
    cases pre <;> cases h
  | cons ce cs ih =>
    intro x n hc hn
    obtain ⟨n1, rfl⟩ : ∃ n1, n = n1 + 1 := ⟨n - 1, by omega⟩
    obtain ⟨p, rfl, _, h1, h2, h3, h4, h5, h6, h7, h8, h9, h10⟩ := hc
    have hn1 : cs.length < n1 := by simpa using hn
    obtain ⟨ihA, ihB⟩ := ih (L.heap p).left n1 h10 hn1
    obtain ⟨c, e⟩ := ce
    have hne : Kind.E_Logic ≠ Kind.E_Identifier := by decide
    have hne2 : Kind.E_Number ≠ Kind.E_Identifier := by decide
    cases c with
    | true =>
      have step : condLoop (Eval (fuel + 1)) (n1 + 1) L (some p) = .ok (p + 2) L := by
        simp [condLoop, Eval, h1, h2, h3, h4, h5, h6, h7, h8, boolName, hT, hTt, hTv, hne,
          hne2, Res.bind, deref, Val.logic]
      refine ⟨?_, ?_⟩
      · intro pre e1 post h hpre
        cases pre with
        | nil =>
          simp only [List.nil_append, List.cons.injEq, Prod.mk.injEq, true_and] at h
          obtain ⟨rfl, _⟩ := h
          exact ⟨p + 2, step, h7, h9⟩
        | cons a pre =>
          simp only [List.cons_append, List.cons.injEq] at h
          have := hpre a (List.mem_cons_self _ _)
          rw [← h.1] at this
          cases this
      · intro hall
        have := hall (true, e) (List.mem_cons_self _ _)
        cases this
    | false =>
      have step : condLoop (Eval (fuel + 1)) (n1 + 1) L (some p) =
          condLoop (Eval (fuel + 1)) n1 L (L.heap p).left := by
        simp [condLoop, Eval, h1, h2, h3, h4, h5, h6, h7, h8, boolName, hF, hFt, hFv, hne,
          hne2, Res.bind, deref, Val.logic]
      refine ⟨?_, ?_⟩
      · intro pre e1 post h hpre
        cases pre with
        | nil =>
          simp only [List.nil_append, List.cons.injEq, Prod.mk.injEq] at h
          obtain ⟨⟨h0, _⟩, _⟩ := h
          cases h0
        | cons a pre =>
          simp only [List.cons_append, List.cons.injEq] at h
          rw [step]
          exact ihA pre e1 post h.2 (fun x hx => hpre x (List.mem_cons_of_mem _ hx))
      · intro hall
        rw [step]
        exact ihB (fun x hx => hall x (List.mem_cons_of_mem _ hx))

theorem Res.bind_assoc {α β γ : Type} (r : Res α) (k : α → Lisp → Res β)
    (k1 : β → Lisp → Res γ) :
    (r.bind k).bind k1 = r.bind fun a L => (k a L).bind k1 := by
  cases r <;> rfl

/-- The parser loop on a concatenation of token lists. -/
theorem BuildSyntaxTree.loop_append (ts1 ts2 : List Token) : ∀ (L : Lisp) (st : ParseState),
    BuildSyntaxTree.loop L st (ts1 ++ ts2) =
      (BuildSyntaxTree.loop L st ts1).bind fun st1 L1 => BuildSyntaxTree.loop L1 st1 ts2 := by
  induction ts1 with
  | nil => intro L st; rfl
  | cons x ts1 ih =>
    intro L st
    simp only [List.cons_append, BuildSyntaxTree.loop, Res.bind_assoc]
    congr 1
    funext st1 L1
    exact ih L1 st1

/-- Parsing the clauses of a `cond` and the closing bracket, from a state in
which `cur` is the fresh object at `p`, the last one allocated, reached by
`left` from the object at `q`: the clauses end up in the parsed shape, the
objects below `p` other than `q` and the root are untouched. -/
theorem parse_clauses (root lo : Nat) : ∀ (cs : List (Bool × String)),
    (∀ ce ∈ cs, IsLiteral ce.2) → ∀ (L : Lisp) (p q : Nat), L.next = p + 1 →
    (L.heap p).parent = some q → (L.heap q).left = some p → root < q → q < p → lo ≤ p →
    ∃ st1 L1, BuildSyntaxTree.loop L ⟨p, [root]⟩ (clausesTokens cs ++ [⟨.E_Bracket, ")"⟩]) =
        .ok st1 L1 ∧
      L1._ids = L._ids ∧
      (∀ a, a < p → a ≠ q → a ≠ root → L1.heap a = L.heap a) ∧
      L1.heap q = { L.heap q with left := if cs = [] then none else some p } ∧
      (L1.heap root).type = (L.heap root).type ∧
      (L1.heap root).right = (L.heap root).right ∧
      CondChain lo L1.heap (if cs = [] then none else some p) cs := by
  intro cs
  induction cs with
  | nil =>
    intro _ L p q hn hp hq hrq hqp _
    have h1 : q ≠ p := by omega
    have h2 : root ≠ p := by omega
    have h3 : root ≠ q := by omega
    have h4 : root ≠ p + 1 := by omega
    have h5 : q ≠ p + 1 := by omega
    have hst : BuildSyntaxTree.loop L ⟨p, [root]⟩ [⟨.E_Bracket, ")"⟩] =
        .ok ⟨p + 1, []⟩ (BuildSyntaxTree.loop L ⟨p, [root]⟩ [⟨.E_Bracket, ")"⟩]).stateD := by
      simp [BuildSyntaxTree.loop, BuildSyntaxTree.step, Res.bind, Lisp.modify,
        Lisp.alloc, AddLeft, Function.update_apply, hp, hq, h1, h2, h3, hn, Res.stateD]
    refine ⟨⟨p + 1, []⟩, _, hst, ?_, ?_, ?_, ?_, ?_, ?_⟩
    · simp [BuildSyntaxTree.loop, BuildSyntaxTree.step, Res.bind, Lisp.modify,
        Lisp.alloc, AddLeft, Function.update_apply, hp, hq, h1, h2, h3, hn, Res.stateD]
    · intro a ha haq har
      have a1 : a ≠ p := by omega
      have a2 : a ≠ p + 1 := by omega
      simp [BuildSyntaxTree.loop, BuildSyntaxTree.step, Res.bind, Lisp.modify,
        Lisp.alloc, AddLeft, Function.update_apply, hp, hq, h1, h2, h3, hn, Res.stateD,
        har, a1, a2, haq]
    · simp [BuildSyntaxTree.loop, BuildSyntaxTree.step, Res.bind, Lisp.modify,
        Lisp.alloc, AddLeft, Function.update_apply, hp, hq, h1, h2, h3, h5, hn, Res.stateD,
        Ne.symm h3]
    · simp [BuildSyntaxTree.loop, BuildSyntaxTree.step, Res.bind, Lisp.modify,
        Lisp.alloc, AddLeft, Function.update_apply, hp, hq, h1, h2, h3, h4, hn, Res.stateD]
    · simp [BuildSyntaxTree.loop, BuildSyntaxTree.step, Res.bind, Lisp.modify,
        Lisp.alloc, AddLeft, Function.update_apply, hp, hq, h1, h2, h3, h4, hn, Res.stateD]
    · simp [CondChain]
  | cons ce cs ih =>
    intro hlit L p q hn hp hq hrq hqp hlo
    obtain ⟨c, e⟩ := ce
    have he : IsLiteral e := hlit (c, e) (List.mem_cons_self _ _)
    have hk : keywordKind (boolName c) = none := by cases c <;> decide
    have ih1 := ih (fun x hx => hlit x (List.mem_cons_of_mem _ hx))
    have h1 : q ≠ p := by omega
    have h2 : root ≠ p := by omega
    have hst : BuildSyntaxTree.loop L ⟨p, [root]⟩ (clauseTokens (c, e)) =
        .ok ⟨p + 4, [root]⟩ (BuildSyntaxTree.loop L ⟨p, [root]⟩ (clauseTokens (c, e))).stateD := by
      simp [clauseTokens, BuildSyntaxTree.loop, BuildSyntaxTree.step, Res.bind, Lisp.modify,
        Lisp.alloc, AddLeft, AddRight, Function.update_apply, hn, hk, stoi_of_isLiteral he,
        Res.stateD, Nat.add_assoc]
    have facts : (BuildSyntaxTree.loop L ⟨p, [root]⟩ (clauseTokens (c, e))).stateD.next =
          p + 4 + 1 ∧
        (BuildSyntaxTree.loop L ⟨p, [root]⟩ (clauseTokens (c, e))).stateD._ids = L._ids ∧
        ((BuildSyntaxTree.loop L ⟨p, [root]⟩ (clauseTokens (c, e))).stateD.heap p).right =
          some (p + 1) ∧
        ((BuildSyntaxTree.loop L ⟨p, [root]⟩ (clauseTokens (c, e))).stateD.heap p).left =
          some (p + 4) ∧
        (BuildSyntaxTree.loop L ⟨p, [root]⟩ (clauseTokens (c, e))).stateD.heap (p + 1) =
          { type := .E_Identifier, name := boolName c, left := some (p + 2),
            parent := some p } ∧
        (BuildSyntaxTree.loop L ⟨p, [root]⟩ (clauseTokens (c, e))).stateD.heap (p + 2) =
          { type := .E_Number, name := e, val := { number := litVal e },
            parent := some (p + 1) } ∧
        ((BuildSyntaxTree.loop L ⟨p, [root]⟩ (clauseTokens (c, e))).stateD.heap (p + 4)).parent =
          some p := by
      simp [clauseTokens, BuildSyntaxTree.loop, BuildSyntaxTree.step, Res.bind, Lisp.modify,
        Lisp.alloc, AddLeft, AddRight, Function.update_apply, hn, hk, stoi_of_isLiteral he,
        Res.stateD, Nat.add_assoc]
    have frame : ∀ a, a < p →
        (BuildSyntaxTree.loop L ⟨p, [root]⟩ (clauseTokens (c, e))).stateD.heap a = L.heap a := by
      intro a ha
      have a0 : a ≠ p := by omega
      have a1 : a ≠ p + 1 := by omega
      have a2 : a ≠ p + 2 := by omega
      have a3 : a ≠ p + 3 := by omega
      have a4 : a ≠ p + 4 := by omega
      simp [clauseTokens, BuildSyntaxTree.loop, BuildSyntaxTree.step, Res.bind, Lisp.modify,
        Lisp.alloc, AddLeft, AddRight, Function.update_apply, hn, hk, stoi_of_isLiteral he,
        Res.stateD, Nat.add_assoc, a0, a1, a2, a3, a4]
    generalize (BuildSyntaxTree.loop L ⟨p, [root]⟩ (clauseTokens (c, e))).stateD = L1 at *
    obtain ⟨f1, f2, f3, f4, f5, f6, f7⟩ := facts
    obtain ⟨st2, L2, g1, g2, g3, g4, g5, g6, g7⟩ :=
      ih1 L1 (p + 4) p f1 f7 f4 (by omega) (by omega) (by omega)
    have e1 : L2.heap (p + 1) = L1.heap (p + 1) := g3 (p + 1) (by omega) (by omega) (by omega)
    have e2 : L2.heap (p + 2) = L1.heap (p + 2) := g3 (p + 2) (by omega) (by omega) (by omega)
    refine ⟨st2, L2, ?_, g2.trans f2, ?_, ?_, ?_, ?_, ?_⟩
    · show BuildSyntaxTree.loop L ⟨p, [root]⟩
          (clauseTokens (c, e) ++ (clausesTokens cs ++ [⟨.E_Bracket, ")"⟩])) = _
      · rw [BuildSyntaxTree.loop_append, hst]
        exact g1
    · intro a ha haq har
      rw [g3 a (by omega) (by omega) har, frame a ha]
    · rw [g3 q (by omega) h1 (by omega), frame q hqp]
      simp only [reduceCtorEq, if_false]
      cases hQ : L.heap q
      rw [hQ] at hq
      simp only at hq
      simp [hq]
    · rw [g5, frame root (by omega)]
    · rw [g6, frame root (by omega)]
    · simp only [reduceCtorEq, if_false]
      refine ⟨p, rfl, hlo, ?_, ?_, ?_, ?_, ?_, ?_, ?_, ?_, ?_, ?_⟩
      · rw [g4]; exact f3
      · rw [e1, f5]
      · rw [e1, f5]
      · rw [e1, f5]
      · rw [e1, f5]
      · rw [e1, f5]
      · rw [e2, f6]
      · rw [e2, f6]
      · rw [e2, f6]
      · rw [g4]; exact g7

/-- The parsed shape of clauses depends only on the objects from `lo` on. -/
theorem CondChain_congr (lo : Nat) (h h1 : Nat → Node) (hh : ∀ a, lo ≤ a → h1 a = h a) :
    ∀ (cs : List (Bool × String)) (x : Option Nat), CondChain lo h x cs →
      CondChain lo h1 x cs := by
  intro cs
  induction cs with
  | nil => intro x hx; exact hx
  | cons ce cs ih =>
    intro x hx
    obtain ⟨p, rfl, hp, c1, c2, c3, c4, c5, c6, c7, c8, c9, c10⟩ := hx
    have e0 := hh p hp
    have e1 := hh (p + 1) (by omega)
    have e2 := hh (p + 2) (by omega)
    refine ⟨p, rfl, hp, ?_, ?_, ?_, ?_, ?_, ?_, ?_, ?_, ?_, ?_⟩
    · rw [e0]; exact c1
    · rw [e1]; exact c2
    · rw [e1]; exact c3
    · rw [e1]; exact c4
    · rw [e1]; exact c5
    · rw [e1]; exact c6
    · rw [e2]; exact c7
    · rw [e2]; exact c8
    · rw [e2]; exact c9
    · rw [e0]; exact ih _ c10

/-- The tree `BuildSyntaxTree` returns for a `cond` line in the freshly
initialised interpreter. -/
theorem parse_condLine (ce : Bool × String) (cs : List (Bool × String))
    (hlit : ∀ x ∈ ce :: cs, IsLiteral x.2) :
    ∃ L, BuildSyntaxTree Lisp.new (condLine (ce :: cs)) = .ok 7 L ∧
      L._ids = Lisp.new._ids ∧
      (L.heap 7).type = .E_Cond ∧ (L.heap 7).right = some 8 ∧
      L.heap 5 = { type := .E_Logic, name := "True", val := { number := 1 } } ∧
      L.heap 6 = { type := .E_Logic, name := "False", val := { number := 0 } } ∧
      CondChain 8 L.heap (some 8) (ce :: cs) := by
  obtain ⟨c, e⟩ := ce
  have he : IsLiteral e := hlit (c, e) (List.mem_cons_self _ _)
  have hk : keywordKind (boolName c) = none := by cases c <;> decide
  have hkc : keywordKind "cond" = some .E_Cond := by decide
  have hst : BuildSyntaxTree.loop (Lisp.new.alloc {}).2 ⟨7, []⟩
        (⟨.E_Bracket, "("⟩ :: ⟨.E_Identifier, "cond"⟩ :: clauseTokens (c, e)) =
      .ok ⟨12, [7]⟩ (BuildSyntaxTree.loop (Lisp.new.alloc {}).2 ⟨7, []⟩
        (⟨.E_Bracket, "("⟩ :: ⟨.E_Identifier, "cond"⟩ :: clauseTokens (c, e))).stateD := by
    rw [Lisp.new_eq]
    simp [clauseTokens, BuildSyntaxTree.loop, BuildSyntaxTree.step, Res.bind, Lisp.modify,
      Lisp.alloc, AddLeft, AddRight, Function.update_apply, hk, hkc, stoi_of_isLiteral he,
      Res.stateD]
  have facts : (BuildSyntaxTree.loop (Lisp.new.alloc {}).2 ⟨7, []⟩
        (⟨.E_Bracket, "("⟩ :: ⟨.E_Identifier, "cond"⟩ :: clauseTokens (c, e))).stateD.next =
        12 + 1 ∧
      (BuildSyntaxTree.loop (Lisp.new.alloc {}).2 ⟨7, []⟩
        (⟨.E_Bracket, "("⟩ :: ⟨.E_Identifier, "cond"⟩ :: clauseTokens (c, e))).stateD._ids =
        Lisp.new._ids ∧
      (BuildSyntaxTree.loop (Lisp.new.alloc {}).2 ⟨7, []⟩
        (⟨.E_Bracket, "("⟩ :: ⟨.E_Identifier, "cond"⟩ :: clauseTokens (c, e))).stateD.heap 5 =
        { type := .E_Logic, name := "True", val := { number := 1 } } ∧
      (BuildSyntaxTree.loop (Lisp.new.alloc {}).2 ⟨7, []⟩
        (⟨.E_Bracket, "("⟩ :: ⟨.E_Identifier, "cond"⟩ :: clauseTokens (c, e))).stateD.heap 6 =
        { type := .E_Logic, name := "False", val := { number := 0 } } ∧
      (BuildSyntaxTree.loop (Lisp.new.alloc {}).2 ⟨7, []⟩
        (⟨.E_Bracket, "("⟩ :: ⟨.E_Identifier, "cond"⟩ :: clauseTokens (c, e))).stateD.heap 7 =
        { type := .E_Cond, name := "cond", right := some 8 } ∧
      (BuildSyntaxTree.loop (Lisp.new.alloc {}).2 ⟨7, []⟩
        (⟨.E_Bracket, "("⟩ :: ⟨.E_Identifier, "cond"⟩ :: clauseTokens (c, e))).stateD.heap 8 =
        { type := .E_List, name := "list", left := some 12, right := some 9,
          parent := some 7 } ∧
      (BuildSyntaxTree.loop (Lisp.new.alloc {}).2 ⟨7, []⟩
        (⟨.E_Bracket, "("⟩ :: ⟨.E_Identifier, "cond"⟩ :: clauseTokens (c, e))).stateD.heap 9 =
        { type := .E_Identifier, name := boolName c, left := some 10, parent := some 8 } ∧
      (BuildSyntaxTree.loop (Lisp.new.alloc {}).2 ⟨7, []⟩
        (⟨.E_Bracket, "("⟩ :: ⟨.E_Identifier, "cond"⟩ :: clauseTokens (c, e))).stateD.heap 10 =
        { type := .E_Number, name := e, val := { number := litVal e }, parent := some 9 } ∧
      ((BuildSyntaxTree.loop (Lisp.new.alloc {}).2 ⟨7, []⟩
        (⟨.E_Bracket, "("⟩ :: ⟨.E_Identifier, "cond"⟩ :: clauseTokens (c, e))).stateD.heap
          12).parent = some 8 := by
    rw [Lisp.new_eq]
    simp [clauseTokens, BuildSyntaxTree.loop, BuildSyntaxTree.step, Res.bind, Lisp.modify,
      Lisp.alloc, AddLeft, AddRight, Function.update_apply, hk, hkc, stoi_of_isLiteral he,
      Res.stateD]
  generalize (BuildSyntaxTree.loop (Lisp.new.alloc {}).2 ⟨7, []⟩
    (⟨.E_Bracket, "("⟩ :: ⟨.E_Identifier, "cond"⟩ :: clauseTokens (c, e))).stateD = L1 at *
  obtain ⟨f1, f2, f5, f6, f7, f8, f9, f10, f12⟩ := facts
  obtain ⟨st2, L2, g1, g2, g3, g4, g5, g6, g7⟩ :=
    parse_clauses 7 8 cs (fun x hx => hlit x (List.mem_cons_of_mem _ hx)) L1 12 8 f1 f12
      (by rw [f8]) (by decide) (by decide) (by decide)
  have hloop : BuildSyntaxTree.loop (Lisp.new.alloc {}).2 ⟨7, []⟩
      (tokenize (condLine ((c, e) :: cs)).data) = .ok st2 L2 := by
    rw [tokenize_condLine _ hlit]
    show BuildSyntaxTree.loop (Lisp.new.alloc {}).2 ⟨7, []⟩
      ((⟨.E_Bracket, "("⟩ :: ⟨.E_Identifier, "cond"⟩ :: clauseTokens (c, e)) ++
        (clausesTokens cs ++ [⟨.E_Bracket, ")"⟩])) = _
    rw [BuildSyntaxTree.loop_append, hst]
    exact g1
  have hchain : CondChain 8 L2.heap (some 8) ((c, e) :: cs) := by
    have e9 : L2.heap 9 = L1.heap 9 := g3 9 (by decide) (by decide) (by decide)
    have e10 : L2.heap 10 = L1.heap 10 := g3 10 (by decide) (by decide) (by decide)
    refine ⟨8, rfl, Nat.le_refl 8, ?_, ?_, ?_, ?_, ?_, ?_, ?_, ?_, ?_, ?_⟩
    · rw [g4, f8]
    · rw [e9, f9]
    · rw [e9, f9]
    · rw [e9, f9]
    · rw [e9, f9]
    · rw [e9, f9]
    · rw [e10, f10]
    · rw [e10, f10]
    · rw [e10, f10]
    · rw [g4]; exact g7
  refine ⟨L2.modify 7 fun n => { n with left := none }, ?_, g2.trans f2, ?_, ?_, ?_, ?_, ?_⟩
  · have hn : (Lisp.new.alloc {}).1 = 7 := rfl
    unfold BuildSyntaxTree
    simp only [hn]
    rw [hloop]
    rfl
  · simp [Lisp.modify, g5, f7]
  · simp [Lisp.modify, g6, f7]
  · have := g3 5 (by decide) (by decide) (by decide)
    simp [Lisp.modify, Function.update_apply, this, f5]
  · have := g3 6 (by decide) (by decide) (by decide)
    simp [Lisp.modify, Function.update_apply, this, f6]
  · apply CondChain_congr 8 L2.heap _ _ _ _ hchain
    intro a ha
    have : a ≠ 7 := by omega
    simp [Lisp.modify, Function.update_apply, this]

/-! ## What evaluation leaves untouched -/

theorem Lisp.Ext.refl (L : Lisp) : L.Ext L := ⟨Nat.le_refl _, rfl, fun _ _ => rfl⟩

theorem Lisp.Ext.trans {L L1 L2 : Lisp} (h : L.Ext L1) (h1 : L1.Ext L2) : L.Ext L2 :=
  ⟨Nat.le_trans h.1 h1.1, h1.2.1.trans h.2.1,
    fun a ha => (h1.2.2 a (Nat.lt_of_lt_of_le ha h.1)).trans (h.2.2 a ha)⟩

theorem Lisp.Ext.alloc (L : Lisp) (nd : Node) : L.Ext (L.alloc nd).2 := by
  refine ⟨Nat.le_succ _, rfl, ?_⟩
  intro a ha
  have : a ≠ L.next := by omega
  simp [Lisp.alloc, Function.update_apply, this]

theorem Lisp.Ext.set_target (L : Lisp) (p : Nat) (t : Option Nat) :
    L.Ext (L.modify p fun n => { n with identifier_target := t }) := by
  refine ⟨Nat.le_refl _, rfl, ?_⟩
  intro a _
  by_cases h : a = p
  · subst h; simp [Lisp.modify, Node.shape]
  · simp [Lisp.modify, Function.update_apply, h]

theorem Lisp.Ext.ids (L : Lisp) (m : IdHashMap) : L.Ext { L with _ids := m } :=
  ⟨Nat.le_refl _, rfl, fun _ _ => rfl⟩

theorem Res.Post.mono {α : Type} {P Q : Lisp → Prop} {r : Res α} (h : r.Post P)
    (hPQ : ∀ L, P L → Q L) : r.Post Q := by
  cases r with
  | ok a L => exact hPQ L h
  | throw e L => exact hPQ L h
  | undefined => trivial
  | timeout => trivial

theorem Res.Post.bind_ext {α β : Type} {L : Lisp} {r : Res α} {k : α → Lisp → Res β}
    (h : r.Post L.Ext) (hk : ∀ a L1, L.Ext L1 → (k a L1).Post L1.Ext) :
    (r.bind k).Post L.Ext := by
  cases r with
  | ok a L1 => exact (hk a L1 h).mono (fun _ h2 => Lisp.Ext.trans h h2)
  | throw e L1 => exact h
  | undefined => trivial
  | timeout => trivial

theorem deref_post {α β : Type} {P : Lisp → Prop} (p : Option α) {k : α → Res β}
    (hk : ∀ a, (k a).Post P) : (deref p k).Post P := by
  cases p with
  | none => trivial
  | some a => exact hk a

theorem Lisp.Put_ext (L : Lisp) (id : String) (v : Nat) : (L.Put id v).Post L.Ext := by
  unfold Lisp.Put
  split
  · trivial
  · exact Lisp.Ext.ids L _

theorem Lisp.RemoveTemp_ext (L : Lisp) : L.RemoveTemp.Post L.Ext := by
  unfold Lisp.RemoveTemp
  split
  · trivial
  · exact Lisp.Ext.ids L _

theorem Lisp.AddTemp_ext (L : Lisp) : L.Ext L.AddTemp := Lisp.Ext.ids L _

theorem Preserve_ext (L : Lisp) (list : Nat) : L.Ext (Preserve L list) := by
  unfold Preserve
  split_ifs
  · split
    · split_ifs
      · exact Lisp.Ext.set_target L _ _
      · exact Lisp.Ext.refl L
    · exact Lisp.Ext.refl L
  · exact Lisp.Ext.refl L

theorem putLambdaArgs_ext : ∀ (n : Nat) (L : Lisp) (x : Option Nat),
    (putLambdaArgs n L x).Post L.Ext := by
  intro n
  induction n with
  | zero => intro L x; trivial
  | succ n ih =>
    intro L x
    cases x with
    | none => exact Lisp.Ext.refl L
    | some x =>
      simp only [putLambdaArgs]
      exact Res.Post.bind_ext (Lisp.Put_ext _ _ _) (fun _ L1 _ => ih L1 _)

theorem TraverseLambdaWith_ext {tap : Lisp → Option Nat → Res Unit}
    (h : ∀ L p, (tap L p).Post L.Ext) (L : Lisp) (lmda : Nat) :
    (TraverseLambdaWith tap L lmda).Post L.Ext := by
  unfold TraverseLambdaWith
  apply deref_post
  intro r
  apply Res.Post.bind_ext (h _ _)
  intro _ L1 _
  split
  · exact h _ _
  · exact Lisp.Ext.refl L1

theorem TraverseAndPreserve_ext : ∀ (n : Nat) (L : Lisp) (p : Option Nat),
    (TraverseAndPreserve n L p).Post L.Ext := by
  intro n
  induction n with
  | zero => intro L p; trivial
  | succ n ih =>
    intro L p
    cases p with
    | none => trivial
    | some list =>
      simp only [TraverseAndPreserve]
      split_ifs
      · exact Preserve_ext L list
      · apply deref_post
        intro r
        have h1 : (((putLambdaArgs n L.AddTemp (L.AddTemp.heap r).right).bind fun _ L2 =>
            (TraverseLambdaWith (TraverseAndPreserve n) L2 list).bind fun _ L3 =>
              L3.RemoveTemp)).Post L.AddTemp.Ext := by
          apply Res.Post.bind_ext (putLambdaArgs_ext n _ _)
          intro _ L2 _
          apply Res.Post.bind_ext (TraverseLambdaWith_ext ih _ _)
          intro _ L3 _
          exact Lisp.RemoveTemp_ext L3
        exact h1.mono (fun _ h2 => Lisp.Ext.trans (Lisp.AddTemp_ext L) h2)
      · have h1 : (((match ((Preserve L list).heap list).left with
            | some l => TraverseAndPreserve n (Preserve L list) (some l)
            | none => Res.ok () (Preserve L list)) : Res Unit).bind fun _ L2 =>
              match (L2.heap list).right with
              | some r => TraverseAndPreserve n L2 (some r)
              | none => Res.ok () L2).Post (Preserve L list).Ext := by
          apply Res.Post.bind_ext
          · split
            · exact ih _ _
            · exact Lisp.Ext.refl _
          · intro _ L2 _
            split
            · exact ih _ _
            · exact Lisp.Ext.refl _
        exact h1.mono (fun _ h2 => Lisp.Ext.trans (Preserve_ext L list) h2)

theorem TraverseLambda_ext (n : Nat) (L : Lisp) (lmda : Nat) :
    (TraverseLambda n L lmda).Post L.Ext :=
  TraverseLambdaWith_ext (TraverseAndPreserve_ext n) L lmda

theorem bindArgs_ext {ev : Lisp → Option Nat → Res Nat} (h : ∀ L p, (ev L p).Post L.Ext) :
    ∀ (n : Nat) (L : Lisp) (x para : Option Nat), (bindArgs ev n L x para).Post L.Ext := by
  intro n
  induction n with
  | zero => intro L x para; trivial
  | succ n ih =>
    intro L x para
    cases x with
    | none => exact Lisp.Ext.refl L
    | some x =>
      cases para with
      | none => exact Lisp.Ext.refl L
      | some p =>
        simp only [bindArgs]
        apply Res.Post.bind_ext (h _ _)
        intro v L1 _
        apply Res.Post.bind_ext (Lisp.Put_ext _ _ _)
        intro _ L2 _
        exact ih _ _ _

theorem rebindArgs_ext {ev : Lisp → Option Nat → Res Nat} (h : ∀ L p, (ev L p).Post L.Ext) :
    ∀ (n : Nat) (L : Lisp) (x : Option Nat), (rebindArgs ev n L x).Post L.Ext := by
  intro n
  induction n with
  | zero => intro L x; trivial
  | succ n ih =>
    intro L x
    cases x with
    | none => exact Lisp.Ext.refl L
    | some x =>
      simp only [rebindArgs]
      apply Res.Post.bind_ext (h _ _)
      intro v L1 _
      apply Res.Post.bind_ext (Lisp.Put_ext _ _ _)
      intro _ L2 _
      apply deref_post
      intro _
      exact ih _ _

theorem condLoop_ext {ev : Lisp → Option Nat → Res Nat} (h : ∀ L p, (ev L p).Post L.Ext) :
    ∀ (n : Nat) (L : Lisp) (x : Option Nat), (condLoop ev n L x).Post L.Ext := by
  intro n
  induction n with
  | zero => intro L x; trivial
  | succ n ih =>
    intro L x
    cases x with
    | none => exact Lisp.Ext.refl L
    | some x =>
      simp only [condLoop]
      apply Res.Post.bind_ext (h _ _)
      intro boo L1 _
      apply deref_post
      intro r
      apply Res.Post.bind_ext (h _ _)
      intro expr L2 _
      split
      · exact Lisp.Ext.refl L2
      · exact ih _ _

/-- Evaluation keeps the objects that exist: whenever `Eval` returns or throws,
every object of the state it started in has its `type`, `name`, `val`, `left`,
`right` and `parent` unchanged. -/
theorem Eval_ext : ∀ (n : Nat) (L : Lisp) (p : Option Nat), (Eval n L p).Post L.Ext := by
  intro n
  induction n with
  | zero => intro L p; trivial
  | succ n ih =>
    intro L p
    cases p with
    | none => trivial
    | some list =>
      simp only [Eval]
      cases hR : (L.heap list).right with
      | none =>
        simp only
        split_ifs
        · split
          · exact Lisp.Ext.refl L
          · split_ifs
            · exact ih _ _
            · exact Lisp.Ext.refl L
        · exact Lisp.Ext.refl L
      | some right =>
        simp only
        cases hT : (L.heap list).type with
        | E_Define =>
          simp only
          split
          · exact Lisp.Ext.refl L
          · apply Res.Post.bind_ext (ih _ _)
            intro v L1 _
            apply Res.Post.bind_ext (Lisp.Put_ext _ _ _)
            intro _ L2 _
            exact Lisp.Ext.refl L2
        | E_List =>
          simp only
          apply Res.Post.bind_ext
          · split_ifs
            · exact ih _ _
            · exact Lisp.Ext.refl L
          · intro first L1 _
            split_ifs
            · apply deref_post; intro r1
              apply Res.Post.bind_ext (ih _ _); intro second L2 _
              apply deref_post; intro r2
              apply deref_post; intro a
              apply Res.Post.bind_ext (ih _ _); intro third L3 _
              apply deref_post; intro f
              apply deref_post; intro v
              exact Lisp.Ext.alloc L3 _
            · have h1 : (deref (L1.AddTemp.heap first).right fun ps =>
                  deref (L1.AddTemp.heap list).right fun r1 =>
                    (bindArgs (Eval n) n L1.AddTemp (L1.AddTemp.heap ps).right
                      (L1.AddTemp.heap r1).left).bind fun _ L3 =>
                        deref (L3.heap first).right fun ps3 =>
                          (Eval n L3 (L3.heap ps3).left).bind fun res L4 =>
                            L4.RemoveTemp.bind fun _ L5 => Res.ok res L5).Post
                    L1.AddTemp.Ext := by
                apply deref_post; intro ps
                apply deref_post; intro r1
                apply Res.Post.bind_ext (bindArgs_ext ih n _ _ _); intro _ L3 _
                apply deref_post; intro ps3
                apply Res.Post.bind_ext (ih _ _); intro res L4 _
                apply Res.Post.bind_ext (Lisp.RemoveTemp_ext _); intro _ L5 _
                exact Lisp.Ext.refl L5
              exact h1.mono (fun _ h2 => Lisp.Ext.trans (Lisp.AddTemp_ext L1) h2)
            · exact Lisp.Ext.refl L1
        | E_Lambda =>
          simp only
          have hV : ∀ x : Nat,
              ((putLambdaArgs n L.AddTemp (some x)).bind fun _ L2 =>
                (TraverseLambda n L2 list).bind fun _ L3 =>
                  L3.RemoveTemp.bind fun _ L4 => Res.ok list L4).Post L.AddTemp.Ext := by
            intro x
            apply Res.Post.bind_ext (putLambdaArgs_ext n _ _); intro _ L2 _
            apply Res.Post.bind_ext (TraverseLambda_ext n _ _); intro _ L3 _
            apply Res.Post.bind_ext (Lisp.RemoveTemp_ext _); intro _ L4 _
            exact Lisp.Ext.refl L4
          have h1 : (deref (L.AddTemp.heap list).right fun ps =>
              deref (L.AddTemp.heap ps).right fun x =>
                if (L.AddTemp.heap list).left = none then
                  (putLambdaArgs n L.AddTemp (some x)).bind fun _ L2 =>
                    (TraverseLambda n L2 list).bind fun _ L3 =>
                      L3.RemoveTemp.bind fun _ L4 => Res.ok list L4
                else deref (L.AddTemp._ids.Get (L.AddTemp.heap x).name) fun p =>
                  if (L.AddTemp.heap p).type = .E_LambdaArg then
                    (putLambdaArgs n L.AddTemp (some x)).bind fun _ L2 =>
                      (TraverseLambda n L2 list).bind fun _ L3 =>
                        L3.RemoveTemp.bind fun _ L4 => Res.ok list L4
                  else
                    (rebindArgs (Eval n) n L.AddTemp (some x)).bind fun _ L2 =>
                      deref (L2.heap list).right fun ps2 =>
                        (Eval n L2 (L2.heap ps2).left).bind fun res L3 =>
                          L3.RemoveTemp.bind fun _ L4 => Res.ok res L4).Post L.AddTemp.Ext := by
            apply deref_post; intro ps
            apply deref_post; intro x
            split_ifs
            · exact hV x
            · apply deref_post; intro p
              split_ifs
              · exact hV x
              · apply Res.Post.bind_ext (rebindArgs_ext ih n _ _); intro _ L2 _
                apply deref_post; intro ps2
                apply Res.Post.bind_ext (ih _ _); intro res L3 _
                apply Res.Post.bind_ext (Lisp.RemoveTemp_ext _); intro _ L4 _
                exact Lisp.Ext.refl L4
          exact h1.mono (fun _ h2 => Lisp.Ext.trans (Lisp.AddTemp_ext L) h2)
        | E_Eq =>
          simp only
          apply Res.Post.bind_ext (ih _ _); intro arg1 L1 _
          apply deref_post; intro r1
          apply Res.Post.bind_ext (ih _ _); intro arg2 L2 _
          exact Lisp.Ext.alloc L2 _
        | E_Cond =>
          simp only
          exact condLoop_ext ih n _ _
        | E_Identifier =>
          simp only
          exact ih _ _
        | E_BiFunc => trivial
        | E_Number => trivial
        | E_Logic => trivial
        | E_LambdaArg => trivial

/-! ## The number of frames after a normal return -/

theorem Res.PostOk.bind {α β : Type} {P Q : Lisp → Prop} {r : Res α} {k : α → Lisp → Res β}
    (h : r.PostOk P) (hk : ∀ a L1, P L1 → (k a L1).PostOk Q) : (r.bind k).PostOk Q := by
  cases r with
  | ok a L1 => exact hk a L1 h
  | throw e L1 => trivial
  | undefined => trivial
  | timeout => trivial

theorem deref_postOk {α β : Type} {P : Lisp → Prop} (p : Option α) {k : α → Res β}
    (hk : ∀ a, (k a).PostOk P) : (deref p k).PostOk P := by
  cases p with
  | none => trivial
  | some a => exact hk a

theorem Lisp.Put_frames {m : Nat} {L : Lisp} (h : L.Frames m) (id : String) (v : Nat) :
    (L.Put id v).PostOk (Lisp.Frames m) := by
  unfold Lisp.Put IdHashMap.Put
  unfold Lisp.Frames at h
  cases hI : L._ids with
  | nil => trivial
  | cons top rest =>
    rw [hI] at h
    simpa [Res.PostOk, Lisp.Frames] using h

theorem Lisp.RemoveTemp_frames {m : Nat} {L : Lisp} (h : L.Frames (m + 1)) :
    L.RemoveTemp.PostOk (Lisp.Frames m) := by
  unfold Lisp.RemoveTemp IdHashMap.RemoveTemp
  unfold Lisp.Frames at h
  cases hI : L._ids with
  | nil => trivial
  | cons top rest =>
    rw [hI] at h
    simpa [Res.PostOk, Lisp.Frames] using h

theorem Lisp.AddTemp_frames {m : Nat} {L : Lisp} (h : L.Frames m) :
    L.AddTemp.Frames (m + 1) := by
  unfold Lisp.Frames at *
  simp [Lisp.AddTemp, IdHashMap.AddTemp, h]

theorem Preserve_frames {m : Nat} {L : Lisp} (h : L.Frames m) (list : Nat) :
    (Preserve L list).Frames m := by
  unfold Preserve
  split_ifs
  · split
    · split_ifs
      · exact h
      · exact h
    · exact h
  · exact h

theorem putLambdaArgs_frames : ∀ (n m : Nat) (L : Lisp) (x : Option Nat), L.Frames m →
    (putLambdaArgs n L x).PostOk (Lisp.Frames m) := by
  intro n
  induction n with
  | zero => intro m L x _; trivial
  | succ n ih =>
    intro m L x h
    cases x with
    | none => exact h
    | some x =>
      simp only [putLambdaArgs]
      exact Res.PostOk.bind (Lisp.Put_frames h _ _) (fun _ L1 h1 => ih m L1 _ h1)

theorem TraverseLambdaWith_frames {tap : Lisp → Option Nat → Res Unit}
    (ht : ∀ m L p, L.Frames m → (tap L p).PostOk (Lisp.Frames m)) (m : Nat) (L : Lisp)
    (lmda : Nat) (h : L.Frames m) : (TraverseLambdaWith tap L lmda).PostOk (Lisp.Frames m) := by
  unfold TraverseLambdaWith
  apply deref_postOk
  intro r
  apply Res.PostOk.bind (ht m _ _ h)
  intro _ L1 h1
  split
  · exact ht m _ _ h1
  · exact h1

theorem TraverseAndPreserve_frames : ∀ (n m : Nat) (L : Lisp) (p : Option Nat), L.Frames m →
    (TraverseAndPreserve n L p).PostOk (Lisp.Frames m) := by
  intro n
  induction n with
  | zero => intro m L p _; trivial
  | succ n ih =>
    intro m L p h
    cases p with
    | none => trivial
    | some list =>
      simp only [TraverseAndPreserve]
      split_ifs
      · exact Preserve_frames h list
      · apply deref_postOk
        intro r
        apply Res.PostOk.bind (putLambdaArgs_frames n (m + 1) _ _ (Lisp.AddTemp_frames h))
        intro _ L2 h2
        apply Res.PostOk.bind (TraverseLambdaWith_frames ih (m + 1) _ _ h2)
        intro _ L3 h3
        exact Lisp.RemoveTemp_frames h3
      · apply Res.PostOk.bind (P := Lisp.Frames m)
        · split
          · exact ih m _ _ (Preserve_frames h list)
          · exact Preserve_frames h list
        · intro _ L2 h2
          split
          · exact ih m _ _ h2
          · exact h2

theorem TraverseLambda_frames (n m : Nat) (L : Lisp) (lmda : Nat) (h : L.Frames m) :
    (TraverseLambda n L lmda).PostOk (Lisp.Frames m) :=
  TraverseLambdaWith_frames (TraverseAndPreserve_frames n) m L lmda h

theorem bindArgs_frames {ev : Lisp → Option Nat → Res Nat}
    (he : ∀ m L p, L.Frames m → (ev L p).PostOk (Lisp.Frames m)) :
    ∀ (n m : Nat) (L : Lisp) (x para : Option Nat), L.Frames m →
      (bindArgs ev n L x para).PostOk (Lisp.Frames m) := by
  intro n
  induction n with
  | zero => intro m L x para _; trivial
  | succ n ih =>
    intro m L x para h
    cases x with
    | none => exact h
    | some x =>
      cases para with
      | none => trivial
      | some p =>
        simp only [bindArgs]
        apply Res.PostOk.bind (he m _ _ h)
        intro v L1 h1
        apply Res.PostOk.bind (Lisp.Put_frames h1 _ _)
        intro _ L2 h2
        exact ih m _ _ _ h2

theorem rebindArgs_frames {ev : Lisp → Option Nat → Res Nat}
    (he : ∀ m L p, L.Frames m → (ev L p).PostOk (Lisp.Frames m)) :
    ∀ (n m : Nat) (L : Lisp) (x : Option Nat), L.Frames m →
      (rebindArgs ev n L x).PostOk (Lisp.Frames m) := by
  intro n
  induction n with
  | zero => intro m L x _; trivial
  | succ n ih =>
    intro m L x h
    cases x with
    | none => exact h
    | some x =>
      simp only [rebindArgs]
      apply Res.PostOk.bind (he m _ _ h)
      intro v L1 h1
      apply Res.PostOk.bind (Lisp.Put_frames h1 _ _)
      intro _ L2 h2
      apply deref_postOk
      intro _
      exact ih m _ _ h2

theorem condLoop_frames {ev : Lisp → Option Nat → Res Nat}
    (he : ∀ m L p, L.Frames m → (ev L p).PostOk (Lisp.Frames m)) :
    ∀ (n m : Nat) (L : Lisp) (x : Option Nat), L.Frames m →
      (condLoop ev n L x).PostOk (Lisp.Frames m) := by
  intro n
  induction n with
  | zero => intro m L x _; trivial
  | succ n ih =>
    intro m L x h
    cases x with
    | none => trivial
    | some x =>
      simp only [condLoop]
      apply Res.PostOk.bind (he m _ _ h)
      intro boo L1 h1
      apply deref_postOk
      intro r
      apply Res.PostOk.bind (he m _ _ h1)
      intro expr L2 h2
      split
      · exact h2
      · exact ih m _ _ h2

/-- When `Eval` returns, the scope stack has as many frames as when it was
called. -/
theorem Eval_frames : ∀ (n m : Nat) (L : Lisp) (p : Option Nat), L.Frames m →
    (Eval n L p).PostOk (Lisp.Frames m) := by
  intro n
  induction n with
  | zero => intro m L p _; trivial
  | succ n ih =>
    intro m L p h
    cases p with
    | none => trivial
    | some list =>
      simp only [Eval]
      cases hR : (L.heap list).right with
      | none =>
        simp only
        split_ifs
        · split
          · trivial
          · split_ifs
            · exact ih m _ _ h
            · exact h
        · exact h
      | some right =>
        simp only
        cases hT : (L.heap list).type with
        | E_Define =>
          simp only
          split
          · trivial
          · apply Res.PostOk.bind (ih m _ _ h)
            intro v L1 h1
            apply Res.PostOk.bind (Lisp.Put_frames h1 _ _)
            intro _ L2 h2
            exact h2
        | E_List =>
          simp only
          apply Res.PostOk.bind (P := Lisp.Frames m)
          · split_ifs
            · exact ih m _ _ h
            · exact h
          · intro first L1 h1
            split_ifs
            · apply deref_postOk; intro r1
              apply Res.PostOk.bind (ih m _ _ h1); intro second L2 h2
              apply deref_postOk; intro r2
              apply deref_postOk; intro a
              apply Res.PostOk.bind (ih m _ _ h2); intro third L3 h3
              apply deref_postOk; intro f
              apply deref_postOk; intro v
              exact h3
            · apply deref_postOk; intro ps
              apply deref_postOk; intro r1
              apply Res.PostOk.bind
                (bindArgs_frames ih n (m + 1) _ _ _ (Lisp.AddTemp_frames h1))
              intro _ L3 h3
              apply deref_postOk; intro ps3
              apply Res.PostOk.bind (ih (m + 1) _ _ h3); intro res L4 h4
              apply Res.PostOk.bind (Lisp.RemoveTemp_frames h4); intro _ L5 h5
              exact h5
            · exact h1
        | E_Lambda =>
          simp only
          have hV : ∀ x : Nat,
              ((putLambdaArgs n L.AddTemp (some x)).bind fun _ L2 =>
                (TraverseLambda n L2 list).bind fun _ L3 =>
                  L3.RemoveTemp.bind fun _ L4 => Res.ok list L4).PostOk (Lisp.Frames m) := by
            intro x
            apply Res.PostOk.bind (putLambdaArgs_frames n (m + 1) _ _ (Lisp.AddTemp_frames h))
            intro _ L2 h2
            apply Res.PostOk.bind (TraverseLambda_frames n (m + 1) _ _ h2); intro _ L3 h3
            apply Res.PostOk.bind (Lisp.RemoveTemp_frames h3); intro _ L4 h4
            exact h4
          apply deref_postOk; intro ps
          apply deref_postOk; intro x
          split_ifs
          · exact hV x
          · apply deref_postOk; intro p
            split_ifs
            · exact hV x
            · apply Res.PostOk.bind
                (rebindArgs_frames ih n (m + 1) _ _ (Lisp.AddTemp_frames h))
              intro _ L2 h2
              apply deref_postOk; intro ps2
              apply Res.PostOk.bind (ih (m + 1) _ _ h2); intro res L3 h3
              apply Res.PostOk.bind (Lisp.RemoveTemp_frames h3); intro _ L4 h4
              exact h4
        | E_Eq =>
          simp only
          apply Res.PostOk.bind (ih m _ _ h); intro arg1 L1 h1
          apply deref_postOk; intro r1
          apply Res.PostOk.bind (ih m _ _ h1); intro arg2 L2 h2
          exact h2
        | E_Cond =>
          simp only
          exact condLoop_frames ih n m _ _ h
        | E_Identifier =>
          simp only
          exact ih m _ _ h
        | E_BiFunc => trivial
        | E_Number => trivial
        | E_Logic => trivial
        | E_LambdaArg => trivial

/-! ## Too few arguments -/

theorem Lisp.Ext.left {L L1 : Lisp} (h : L.Ext L1) {a : Nat} (ha : a < L.next) :
    (L1.heap a).left = (L.heap a).left := by
  have h1 := congrArg Node.left (h.2.2 a ha)
  exact h1

theorem Lisp.Ext.right {L L1 : Lisp} (h : L.Ext L1) {a : Nat} (ha : a < L.next) :
    (L1.heap a).right = (L.heap a).right := by
  have h1 := congrArg Node.right (h.2.2 a ha)
  exact h1

theorem LeftChain_congr {h h1 : Nat → Node} : ∀ (as : List Nat) (x : Option Nat),
    (∀ a ∈ as, (h1 a).left = (h a).left) → LeftChain h x as → LeftChain h1 x as := by
  intro as
  induction as with
  | nil => intro x _ hx; exact hx
  | cons a as ih =>
    intro x hh hx
    obtain ⟨rfl, hx1⟩ := hx
    refine ⟨rfl, ?_⟩
    rw [hh a (List.mem_cons_self _ _)]
    exact ih _ (fun b hb => hh b (List.mem_cons_of_mem _ hb)) hx1

/-- The binding loop of a lambda application with fewer actual arguments than
formal parameters: after the last actual is bound the loop throws. -/
theorem bindArgs_too_few {ev : Lisp → Option Nat → Res Nat}
    (hext : ∀ L p, (ev L p).Post L.Ext)
    (hfr : ∀ m L p, L.Frames m → (ev L p).PostOk (Lisp.Frames m)) :
    ∀ (actuals formals : List Nat) (L Lm : Lisp) (x para : Option Nat) (n m : Nat),
      LeftChain L.heap x formals → LeftChain L.heap para actuals →
      actuals.length < formals.length →
      (∀ a ∈ formals, a < L.next) → (∀ a ∈ actuals, a < L.next) →
      L.Frames (m + 1) → ArgsEval ev L actuals formals Lm → actuals.length < n →
      bindArgs ev n L x para = .throw (.c_str "too few parameters passed") Lm := by
  intro actuals
  induction actuals with
  | nil =>
    intro formals L Lm x para n m hx hp hlt _ _ _ hargs hn
    obtain ⟨n1, rfl⟩ : ∃ n1, n = n1 + 1 := ⟨n - 1, by omega⟩
    cases formals with
    | nil => simp at hlt
    | cons x0 xs =>
      obtain ⟨rfl, _⟩ := hx
      have hp1 : para = none := hp
      subst hp1
      have hL : Lm = L := hargs
      subst hL
      rfl
  | cons a as ih =>
    intro formals L Lm x para n m hx hp hlt hfb hab hframes hargs hn
    obtain ⟨n1, rfl⟩ : ∃ n1, n = n1 + 1 := ⟨n - 1, by simp at hn; omega⟩
    cases formals with
    | nil => simp at hlt
    | cons x0 xs =>
      obtain ⟨rfl, hx1⟩ := hx
      obtain ⟨rfl, hp1⟩ := hp
      obtain ⟨v, L1, hev, hrest⟩ := hargs
      have hx0 : x0 < L.next := hfb x0 (List.mem_cons_self _ _)
      have ha : a < L.next := hab a (List.mem_cons_self _ _)
      have e1 : L.Ext L1 := by
        have := hext L (some a)
        rw [hev] at this
        exact this
      have f1 : L1.Frames (m + 1) := by
        have := hfr (m + 1) L (some a) hframes
        rw [hev] at this
        exact this
      cases hI : L1._ids with
      | nil =>
        unfold Lisp.Frames at f1
        rw [hI] at f1
        cases f1
      | cons top rest =>
        have hput : L1.Put (L1.heap x0).name v =
            .ok () { L1 with _ids := top.assign (L1.heap x0).name v :: rest } := by
          simp [Lisp.Put, IdHashMap.Put, hI]
        rw [hput] at hrest
        simp only [Res.stateD] at hrest
        have e2 : L.Ext { L1 with _ids := top.assign (L1.heap x0).name v :: rest } :=
          Lisp.Ext.trans e1 (Lisp.Ext.ids L1 _)
        have f2 : Lisp.Frames (m + 1)
            { L1 with _ids := top.assign (L1.heap x0).name v :: rest } := by
          unfold Lisp.Frames at f1 ⊢
          rw [hI] at f1
          exact f1
        simp only [bindArgs, hev, Res.bind, hput]
        apply ih xs _ Lm _ _ n1 m
        · rw [Lisp.Ext.left e2 hx0]
          exact LeftChain_congr xs _
            (fun b hb => Lisp.Ext.left e2 (hfb b (List.mem_cons_of_mem _ hb))) hx1
        · rw [Lisp.Ext.left e2 ha]
          exact LeftChain_congr as _
            (fun b hb => Lisp.Ext.left e2 (hab b (List.mem_cons_of_mem _ hb))) hp1
        · simpa using hlt
        · intro b hb
          exact Nat.lt_of_lt_of_le (hfb b (List.mem_cons_of_mem _ hb)) e2.1
        · intro b hb
          exact Nat.lt_of_lt_of_le (hab b (List.mem_cons_of_mem _ hb)) e2.1
        · exact f2
        · exact hrest
        · simpa using hn
/-- An operation that ends with the exception `e` equals the throw of `e` in
the state it leaves. -/
theorem Res.eq_throw_of_thrown {α : Type} {r : Res α} {e : Exn} (h : r.thrown = some e) :
    r = .throw e r.stateD := by
  cases r with
  | ok a L => cases h
  | throw e1 L => simp only [Res.thrown, Option.some.injEq] at h; subst h; rfl
  | undefined => cases h
  | timeout => cases h

/-- One round of the loop of the `E_Cond` branch: the condition of the clause
`x` is evaluated, then its expression, and only then the condition's value is
tested. -/
theorem condLoop_round (ev : Lisp → Option Nat → Res Nat) (n : Nat) (L L1 : Lisp)
    (x r boo : Nat) (hb : ev L (L.heap x).right = .ok boo L1)
    (hx : (L1.heap x).right = some r) :
    (∀ e L2, ev L1 (L1.heap r).left = .throw e L2 →
      condLoop ev (n + 1) L (some x) = .throw e L2) ∧
    (∀ v L2, ev L1 (L1.heap r).left = .ok v L2 →
      condLoop ev (n + 1) L (some x) =
        if (L2.heap boo).val.logic then .ok v L2 else condLoop ev n L2 (L2.heap x).left) := by
  constructor
  · intro e L2 he
    simp [condLoop, hb, Res.bind, hx, deref, he]
  · intro v L2 he
    simp [condLoop, hb, Res.bind, hx, deref, he]
/-- The line `(/ a b)` on two literals, the second of value zero, in the
freshly initialised interpreter: the built-in division divides by zero. -/
theorem exec_div_zero (a b : String) (ha : IsLiteral a) (hb : IsLiteral b)
    (h0 : litVal b = 0) (fuel : Nat) (hf : 2 ≤ fuel) :
    Exec fuel Lisp.new ("(" ++ "/" ++ " " ++ a ++ " " ++ b ++ ")") = .undefined := by
  obtain ⟨k, rfl⟩ : ∃ k, fuel = k + 2 := ⟨fuel - 2, by omega⟩
  unfold Exec BuildSyntaxTree
  rw [tokenize_binary _ (by decide) a b ha hb, Lisp.new_eq]
  simp [atomType, Token.move, isdigit, BuildSyntaxTree.loop, BuildSyntaxTree.step, Res.bind,
    stoi_of_isLiteral ha, stoi_of_isLiteral hb,
    Lisp.alloc, Lisp.Put, IdHashMap.Put, Lisp.modify, AddLeft, AddRight, Frame.assign,
    keywordKind, Eval, deref, IdHashMap.Get, Frame.find, BiFunc.call, Res.result,
    Function.update_apply, h0]
/-! ## The shape of every token -/

/-- The object `AddLeft` makes has a parent. -/
theorem AddLeft_parent (L : Lisp) (cur : Nat) :
    ((AddLeft L cur).2.heap (AddLeft L cur).1).parent.isSome = true := by
  simp only [AddLeft, Lisp.alloc, Lisp.modify, Function.update_apply]
  split
  · rename_i h; simp [h.symm]
  · simp

/-- The object `AddRight` makes has a parent. -/
theorem AddRight_parent (L : Lisp) (cur : Nat) :
    ((AddRight L cur).2.heap (AddRight L cur).1).parent.isSome = true := by
  simp only [AddRight, Lisp.alloc, Lisp.modify, Function.update_apply]
  split
  · rename_i h; simp [h.symm]
  · simp

/-- `AddLeft` leaves the scope stack alone. -/
theorem AddLeft_ids (L : Lisp) (cur : Nat) : (AddLeft L cur).2._ids = L._ids := rfl

/-- `AddRight` leaves the scope stack alone. -/
theorem AddRight_ids (L : Lisp) (cur : Nat) : (AddRight L cur).2._ids = L._ids := rfl

/-- One round of the loop of `BuildSyntaxTree`: it goes on exactly when
`treeBuilt` says so for the token, and then `cur` has a parent (or the token
was none of the three kinds), the stack of open lists has grown or shrunk with
the bracket, and the scope stack is as it was; it never throws anything but
the `out_of_range` of `stoi`. -/
theorem BuildSyntaxTree.step_spec (L : Lisp) (st : ParseState) (x : Token) :
    match BuildSyntaxTree.step L st x with
    | .ok st1 L1 =>
      L1._ids = L._ids ∧
      ∀ ts, treeBuilt ((L.heap st.cur).parent.isSome) st.list_stack.length (x :: ts) =
        treeBuilt ((L1.heap st1.cur).parent.isSome) st1.list_stack.length ts
    | .throw e _ =>
      e = .out_of_range ∧
      ∀ ts, treeBuilt ((L.heap st.cur).parent.isSome) st.list_stack.length (x :: ts) = false
    | .undefined =>
      ∀ ts, treeBuilt ((L.heap st.cur).parent.isSome) st.list_stack.length (x :: ts) = false
    | .timeout => False := by
  obtain ⟨cur, stack⟩ := st
  obtain ⟨ty, nm⟩ := x
  cases ty with
  | E_Bracket =>
    by_cases hn : nm = "("
    · simp only [BuildSyntaxTree.step, hn, if_true]
      refine ⟨rfl, fun ts => ?_⟩
      simp only [treeBuilt, if_true, List.length_cons]
      rw [AddRight_parent]
    · cases stack with
      | nil => simp [BuildSyntaxTree.step, hn, treeBuilt]
      | cons top rest =>
        simp only [BuildSyntaxTree.step, hn, if_false]
        refine ⟨?_, fun ts => ?_⟩
        · rw [AddLeft_ids]
          split
          · split <;> rfl
          · rfl
        · simp only [treeBuilt, hn, if_false, List.length_cons]
          rw [AddLeft_parent]
  | E_Number =>
    cases hs : stoi nm with
    | none => simp [BuildSyntaxTree.step, hs, treeBuilt]
    | some v =>
      simp only [BuildSyntaxTree.step, hs]
      refine ⟨rfl, fun ts => ?_⟩
      simp only [treeBuilt, hs, Option.isSome_some, Bool.true_and]
      rw [AddLeft_parent]
  | E_Identifier =>
    have hpar : ((L.modify cur fun n => { n with name := nm }).heap cur).parent =
        (L.heap cur).parent := by
      simp [Lisp.modify]
    cases hk : keywordKind nm with
    | none =>
      simp only [BuildSyntaxTree.step, hk]
      refine ⟨rfl, fun ts => ?_⟩
      simp only [treeBuilt, hk, Option.isSome_none, Bool.false_and, if_false]
      rw [AddLeft_parent]
      simp
    | some k =>
      cases hp : (L.heap cur).parent with
      | none =>
        simp only [BuildSyntaxTree.step, hk, hpar, hp]
        refine ⟨rfl, fun ts => ?_⟩
        simp only [treeBuilt, hk, Option.isSome_none, Bool.and_false, Bool.false_and, if_false]
        rw [AddLeft_parent]
        simp
      | some p =>
        cases stack with
        | nil => simp [BuildSyntaxTree.step, hk, hpar, hp, treeBuilt]
        | cons top rest =>
          by_cases hpt : p = top
          · simp only [BuildSyntaxTree.step, hk, hpar, hp, hpt, if_true]
            refine ⟨rfl, fun ts => ?_⟩
            have : (((L.modify cur fun n => { n with name := nm }).modify top
                fun n => { n with type := k, name := nm }).heap cur).parent = some p := by
              simp only [Lisp.modify, Function.update_apply]
              split <;> simp_all
            simp [treeBuilt, hk, this]
          · simp only [BuildSyntaxTree.step, hk, hpar, hp, hpt, if_false]
            refine ⟨rfl, fun ts => ?_⟩
            simp only [treeBuilt, hk, List.length_cons]
            rw [AddLeft_parent]
            simp
  | E_Start =>
    simp only [BuildSyntaxTree.step]
    refine ⟨rfl, fun ts => ?_⟩
    simp [treeBuilt, Lisp.modify, Function.update_apply]
/-- The loop of `BuildSyntaxTree` returns exactly for the token sequences
`treeBuilt` accepts; it leaves the scope stack alone and throws nothing but
the `out_of_range` of `stoi`. -/
theorem BuildSyntaxTree.loop_spec (ts : List Token) :
    ∀ (L : Lisp) (st : ParseState),
      match BuildSyntaxTree.loop L st ts with
      | .ok _ L1 =>
        L1._ids = L._ids ∧
          treeBuilt ((L.heap st.cur).parent.isSome) st.list_stack.length ts = true
      | .throw e _ =>
        e = .out_of_range ∧
          treeBuilt ((L.heap st.cur).parent.isSome) st.list_stack.length ts = false
      | .undefined =>
        treeBuilt ((L.heap st.cur).parent.isSome) st.list_stack.length ts = false
      | .timeout => False := by
  induction ts with
  | nil => intro L st; simp [BuildSyntaxTree.loop, treeBuilt]
  | cons x rest ih =>
    intro L st
    have hs := BuildSyntaxTree.step_spec L st x
    rw [BuildSyntaxTree.loop]
    cases hstep : BuildSyntaxTree.step L st x with
    | ok st1 L1 =>
      rw [hstep] at hs
      simp only [Res.bind]
      have h1 := ih L1 st1
      rw [hs.2 rest]
      cases hl : BuildSyntaxTree.loop L1 st1 rest with
      | ok st2 L2 => rw [hl] at h1; exact ⟨h1.1.trans hs.1, h1.2⟩
      | throw e L2 => rw [hl] at h1; exact h1
      | undefined => rw [hl] at h1; exact h1
      | timeout => rw [hl] at h1; exact h1
    | throw e L1 => rw [hstep] at hs; exact ⟨hs.1, hs.2 rest⟩
    | undefined => rw [hstep] at hs; exact hs rest
    | timeout => rw [hstep] at hs; exact hs.elim

/-- `BuildSyntaxTree` returns exactly for the lines whose token sequence
`treeBuilt` accepts; the tree it returns is rooted at the first object it
makes; it leaves the scope stack alone and throws nothing but the
`out_of_range` of `stoi`. -/
theorem BuildSyntaxTree_spec (L : Lisp) (line : String) :
    match BuildSyntaxTree L line with
    | .ok root L1 =>
      root = L.next ∧ L1._ids = L._ids ∧ treeBuilt false 0 (tokenize line.data) = true
    | .throw e _ => e = .out_of_range ∧ treeBuilt false 0 (tokenize line.data) = false
    | .undefined => treeBuilt false 0 (tokenize line.data) = false
    | .timeout => False := by
  have h := BuildSyntaxTree.loop_spec (tokenize line.data) (L.alloc {}).2 ⟨L.next, []⟩
  have hp : (((L.alloc {}).2.heap L.next).parent.isSome) = false := by
    simp [Lisp.alloc]
  simp only [hp, List.length_nil] at h
  unfold BuildSyntaxTree
  simp only [Lisp.alloc] at h ⊢
  cases hl : BuildSyntaxTree.loop
      { L with heap := Function.update L.heap L.next {}, next := L.next + 1 } ⟨L.next, []⟩
      (tokenize line.data) with
  | ok st1 L1 => rw [hl] at h; exact ⟨rfl, h.1, h.2⟩
  | throw e L1 => rw [hl] at h; exact h
  | undefined => rw [hl] at h; exact h
  | timeout => rw [hl] at h; exact h.elim

/-- A `)` with no open list keeps `treeBuilt` from accepting. -/
theorem treeBuilt_of_unmatchedClose (ts : List Token) :
    ∀ (hp : Bool) (d : Nat), unmatchedClose d ts = true → treeBuilt hp d ts = false := by
  induction ts with
  | nil => intro hp d h; simp [unmatchedClose] at h
  | cons t ts ih =>
    intro hp d h
    obtain ⟨ty, nm⟩ := t
    cases ty with
    | E_Bracket =>
      by_cases hn : nm = "("
      · simp only [unmatchedClose, hn, if_true] at h
        simp only [treeBuilt, hn, if_true]
        exact ih _ _ h
      · cases d with
        | zero => simp [treeBuilt, hn]
        | succ d =>
          simp only [unmatchedClose, hn, if_false, if_true] at h
          simp only [treeBuilt, hn, if_false]
          exact ih _ _ h
    | E_Number =>
      simp only [unmatchedClose] at h
      simp only [treeBuilt]
      rw [ih _ _ (by simpa using h)]
      simp
    | E_Identifier =>
      simp only [unmatchedClose] at h
      simp only [treeBuilt]
      rw [ih _ _ (by simpa using h)]
      simp
    | E_Start =>
      simp only [unmatchedClose] at h
      simp only [treeBuilt]
      exact ih _ _ (by simpa using h)

/-- The line `(op a b` on two literals, its bracket left open, in the freshly
initialised interpreter. -/
theorem exec_binary_open (op : BiFunc) (a b : String) (ha : IsLiteral a) (hb : IsLiteral b)
    (hdiv : op = .div → litVal b ≠ 0)
    (hlo : INT_MIN ≤ op.math (litVal a) (litVal b)) (hhi : op.math (litVal a) (litVal b) ≤ INT_MAX)
    (fuel : Nat) (hf : 2 ≤ fuel) :
    (Exec fuel Lisp.new ("(" ++ op.symbol ++ " " ++ a ++ " " ++ b)).result =
      some (to_string (op.math (litVal a) (litVal b))) := by
  obtain ⟨k, rfl⟩ : ∃ k, fuel = k + 2 := ⟨fuel - 2, by omega⟩
  have hw := wrap32_of_range hlo hhi
  have hb0 := litVal_nonneg b
  have ht : ∀ o : String, IsAtom o.data → tokenize ("(" ++ o ++ " " ++ a ++ " " ++ b).data =
      [⟨.E_Bracket, "("⟩, ⟨atomType o.data, o⟩, ⟨.E_Number, a⟩, ⟨.E_Number, b⟩] := by
    intro o ho
    simp only [String.data_append, List.append_assoc]
    simp only [List.singleton_append, List.cons_append, List.nil_append]
    rw [tokenize_open, tokenize_atom _ ho ' ' _ (by decide), tokenize_space ' ' _ (by decide),
      tokenize_literal ha ' ' _ (by decide), tokenize_space ' ' _ (by decide),
      tokenize_atom_end (isAtom_of_isLiteral hb), atomType_of_isLiteral hb]
  unfold Exec BuildSyntaxTree
  cases op
  all_goals
    rw [ht _ (by decide), Lisp.new_eq]
    simp [BiFunc.symbol, atomType, Token.move, isdigit, BuildSyntaxTree.loop, BuildSyntaxTree.step, Res.bind, stoi_of_isLiteral ha, stoi_of_isLiteral hb,
      Lisp.alloc, Lisp.Put, IdHashMap.Put, Lisp.modify, AddLeft, AddRight, Frame.assign,
      keywordKind, Eval, deref, IdHashMap.Get, Frame.find, BiFunc.call, Res.result,
      Function.update_apply]
  · simpa [BiFunc.math] using congrArg to_string hw
  · simpa [BiFunc.math] using congrArg to_string hw
  · simpa [BiFunc.math] using congrArg to_string hw
  · have h0 : litVal b ≠ 0 := hdiv rfl
    have h1 : ¬ (litVal b = -1) := by omega
    simp [h0, h1, BiFunc.math]
/-! ## What a normal return leaves of the scope stack -/

theorem Lisp.SameIds.scoped {L L1 : Lisp} (h : L.SameIds L1) : L.Scoped L1 := by
  obtain ⟨h1, h2⟩ := h
  exact ⟨⟨by rw [h1], by rw [h1], h2⟩, by rw [h1]; intro id hv; exact hv, fun _ => h1⟩

theorem Lisp.Scoped.scoped_refl (L : Lisp) : L.Scoped L :=
  Lisp.SameIds.scoped ⟨rfl, fun h => h⟩

theorem Lisp.Below.below_refl (L : Lisp) : L.Below L := ⟨rfl, rfl, fun h => h⟩

theorem Lisp.Below.below_trans {L L1 L2 : Lisp} (h1 : L.Below L1) (h2 : L1.Below L2) : L.Below L2 :=
  ⟨h2.1.trans h1.1, h2.2.1.trans h1.2.1, fun h => h2.2.2 (h1.2.2 h)⟩

theorem Lisp.Scoped.scoped_trans {L L1 L2 : Lisp} (h1 : L.Scoped L1) (h2 : L1.Scoped L2) :
    L.Scoped L2 :=
  ⟨h1.1.below_trans h2.1, fun id hv => h2.2.1 id (h1.2.1 id hv),
    fun h => (h2.2.2 (h1.1.2.2 h)).trans (h1.2.2 h)⟩

theorem Lisp.Inner.below {L X Y : Lisp} (h1 : L.Inner X) (h2 : X.Below Y) : L.Inner Y :=
  ⟨h2.1.trans h1.1, h2.2.1.trans h1.2.1, fun h => h2.2.2 (h1.2.2 h)⟩

theorem Lisp.AddTemp_inner (L : Lisp) : L.Inner L.AddTemp :=
  ⟨by simp [Lisp.AddTemp, IdHashMap.AddTemp], rfl, fun h => h⟩

theorem Lisp.RemoveTemp_inner {L X : Lisp} (h : L.Inner X) :
    X.RemoveTemp.PostOk (L.SameIds) := by
  unfold Lisp.RemoveTemp IdHashMap.RemoveTemp
  obtain ⟨h1, h2, h3⟩ := h
  cases hI : X._ids with
  | nil => trivial
  | cons top rest =>
    rw [hI] at h2
    exact ⟨h2, h3⟩

theorem Lisp.Put_below (L : Lisp) (id : String) (v : Nat) :
    (L.Put id v).PostOk (L.Below) := by
  unfold Lisp.Put IdHashMap.Put
  cases hI : L._ids with
  | nil => trivial
  | cons top rest => exact ⟨by simp [hI], by simp [hI], fun h => h⟩

theorem Lisp.alloc_sameIds (L : Lisp) (nd : Node) (h : nd.type ≠ .E_Define) :
    L.SameIds (L.alloc nd).2 := by
  refine ⟨rfl, fun hn a ha => ?_⟩
  simp only [Lisp.alloc, Function.update_apply] at ha ⊢
  split_ifs at ha ⊢ with h1
  · exact (h ha).elim
  · exact hn a ha

theorem Preserve_sameIds (L : Lisp) (list : Nat) : L.SameIds (Preserve L list) := by
  have hm : ∀ val, L.SameIds
      (L.modify list fun n => { n with identifier_target := some val }) := by
    intro val
    refine ⟨rfl, fun hn a ha => ?_⟩
    simp only [Lisp.modify, Function.update_apply] at ha ⊢
    split_ifs at ha ⊢ with h1
    · subst h1; exact hn a ha
    · exact hn a ha
  unfold Preserve
  split_ifs
  · split
    · split_ifs
      · exact hm _
      · exact ⟨rfl, fun h => h⟩
    · exact ⟨rfl, fun h => h⟩
  · exact ⟨rfl, fun h => h⟩

/-- Sequencing under a transitive relation between the state before and the
state after. -/
theorem Res.PostOk.bind_rel {α β : Type} {R : Lisp → Lisp → Prop}
    (ht : ∀ A B C : Lisp, R A B → R B C → R A C) {L : Lisp} {r : Res α}
    {k : α → Lisp → Res β} (h : r.PostOk (R L))
    (hk : ∀ a L1, R L L1 → (k a L1).PostOk (R L1)) : (r.bind k).PostOk (R L) := by
  cases r with
  | ok a L1 =>
    have h2 := hk a L1 h
    simp only [Res.bind]
    cases hr : k a L1 with
    | ok b L2 => rw [hr] at h2; exact ht _ _ _ h h2
    | throw e L2 => trivial
    | undefined => trivial
    | timeout => trivial
  | throw e L1 => trivial
  | undefined => trivial
  | timeout => trivial

theorem Res.PostOk.weaken {α : Type} {P Q : Lisp → Prop} {r : Res α} (h : r.PostOk P)
    (hpq : ∀ L, P L → Q L) : r.PostOk Q := by
  cases r with
  | ok a L1 => exact hpq L1 h
  | throw e L1 => trivial
  | undefined => trivial
  | timeout => trivial

theorem Res.PostOk.bind_below {α β : Type} {L : Lisp} {r : Res α} {k : α → Lisp → Res β}
    (h : r.PostOk (L.Below)) (hk : ∀ a L1, L.Below L1 → (k a L1).PostOk (L1.Below)) :
    (r.bind k).PostOk (L.Below) :=
  Res.PostOk.bind_rel (R := Lisp.Below) (fun _ _ _ => Lisp.Below.below_trans) h hk

theorem Res.PostOk.bind_scoped {α β : Type} {L : Lisp} {r : Res α} {k : α → Lisp → Res β}
    (h : r.PostOk (L.Scoped)) (hk : ∀ a L1, L.Scoped L1 → (k a L1).PostOk (L1.Scoped)) :
    (r.bind k).PostOk (L.Scoped) :=
  Res.PostOk.bind_rel (R := Lisp.Scoped) (fun _ _ _ => Lisp.Scoped.scoped_trans) h hk

theorem putLambdaArgs_below : ∀ (n : Nat) (L : Lisp) (x : Option Nat),
    (putLambdaArgs n L x).PostOk (L.Below) := by
  intro n
  induction n with
  | zero => intro L x; trivial
  | succ n ih =>
    intro L x
    cases x with
    | none => exact Lisp.Below.below_refl L
    | some x =>
      simp only [putLambdaArgs]
      exact Res.PostOk.bind_below (Lisp.Put_below L _ _) (fun _ L1 _ => ih L1 _)

theorem TraverseLambdaWith_scoped {tap : Lisp → Option Nat → Res Unit}
    (ht : ∀ L p, (tap L p).PostOk (L.Scoped)) (L : Lisp) (lmda : Nat) :
    (TraverseLambdaWith tap L lmda).PostOk (L.Scoped) := by
  unfold TraverseLambdaWith
  apply deref_postOk
  intro r
  apply Res.PostOk.bind_scoped (ht _ _)
  intro _ L1 h1
  split
  · exact ht _ _
  · exact Lisp.Scoped.scoped_refl L1

theorem TraverseAndPreserve_scoped : ∀ (n : Nat) (L : Lisp) (p : Option Nat),
    (TraverseAndPreserve n L p).PostOk (L.Scoped) := by
  intro n
  induction n with
  | zero => intro L p; trivial
  | succ n ih =>
    intro L p
    cases p with
    | none => trivial
    | some list =>
      simp only [TraverseAndPreserve]
      split_ifs
      · exact (Preserve_sameIds L list).scoped
      · apply deref_postOk
        intro r
        apply Res.PostOk.weaken (P := L.SameIds) _ (fun _ h => h.scoped)
        apply Res.PostOk.bind (P := L.Inner)
          ((putLambdaArgs_below n L.AddTemp _).weaken
            (fun _ h => (Lisp.AddTemp_inner L).below h))
        intro _ L2 h2
        apply Res.PostOk.bind (P := L.Inner)
          ((TraverseLambdaWith_scoped ih L2 list).weaken (fun _ h => h2.below h.1))
        intro _ L3 h3
        exact Lisp.RemoveTemp_inner h3
      · have hp := (Preserve_sameIds L list).scoped
        apply Res.PostOk.bind (P := L.Scoped)
        · split
          · exact (ih _ _).weaken (fun _ h => hp.scoped_trans h)
          · exact hp
        · intro _ L2 h2
          split
          · exact (ih _ _).weaken (fun _ h => h2.scoped_trans h)
          · exact h2

theorem TraverseLambda_scoped (n : Nat) (L : Lisp) (lmda : Nat) :
    (TraverseLambda n L lmda).PostOk (L.Scoped) :=
  TraverseLambdaWith_scoped (TraverseAndPreserve_scoped n) L lmda

theorem bindArgs_below {ev : Lisp → Option Nat → Res Nat}
    (he : ∀ L p, (ev L p).PostOk (L.Scoped)) :
    ∀ (n : Nat) (L : Lisp) (x para : Option Nat), (bindArgs ev n L x para).PostOk (L.Below) := by
  intro n
  induction n with
  | zero => intro L x para; trivial
  | succ n ih =>
    intro L x para
    cases x with
    | none => exact Lisp.Below.below_refl L
    | some x =>
      cases para with
      | none => trivial
      | some p =>
        simp only [bindArgs]
        apply Res.PostOk.bind_below ((he _ _).weaken (fun _ h => h.1))
        intro v L1 _
        apply Res.PostOk.bind_below (Lisp.Put_below L1 _ _)
        intro _ L2 _
        exact ih _ _ _

theorem rebindArgs_below {ev : Lisp → Option Nat → Res Nat}
    (he : ∀ L p, (ev L p).PostOk (L.Scoped)) :
    ∀ (n : Nat) (L : Lisp) (x : Option Nat), (rebindArgs ev n L x).PostOk (L.Below) := by
  intro n
  induction n with
  | zero => intro L x; trivial
  | succ n ih =>
    intro L x
    cases x with
    | none => exact Lisp.Below.below_refl L
    | some x =>
      simp only [rebindArgs]
      apply Res.PostOk.bind_below ((he _ _).weaken (fun _ h => h.1))
      intro v L1 _
      apply Res.PostOk.bind_below (Lisp.Put_below L1 _ _)
      intro _ L2 _
      apply deref_postOk
      intro _
      exact ih _ _

theorem condLoop_scoped {ev : Lisp → Option Nat → Res Nat}
    (he : ∀ L p, (ev L p).PostOk (L.Scoped)) :
    ∀ (n : Nat) (L : Lisp) (x : Option Nat), (condLoop ev n L x).PostOk (L.Scoped) := by
  intro n
  induction n with
  | zero => intro L x; trivial
  | succ n ih =>
    intro L x
    cases x with
    | none => trivial
    | some x =>
      simp only [condLoop]
      apply Res.PostOk.bind_scoped (he _ _)
      intro boo L1 _
      apply deref_postOk
      intro r
      apply Res.PostOk.bind_scoped (he _ _)
      intro expr L2 _
      split
      · exact Lisp.Scoped.scoped_refl L2
      · exact ih _ _

theorem Frame.find_filter_ne (f : Frame) (id id1 : String) (h : id1 ≠ id) :
    Frame.find (f.filter fun e => decide (e.1 ≠ id1)) id = Frame.find f id := by
  induction f with
  | nil => rfl
  | cons e f ih =>
    obtain ⟨k, v⟩ := e
    by_cases hk : k = id1
    · have hki : k ≠ id := by rw [hk]; exact h
      have hf : List.filter (fun e : String × Nat => decide (e.1 ≠ id1)) ((k, v) :: f) =
          List.filter (fun e : String × Nat => decide (e.1 ≠ id1)) f := by
        simp [List.filter, hk]
      rw [hf, ih]
      simp [Frame.find, hki]
    · simp only [List.filter, hk, ne_eq, not_false_eq_true, decide_True, Frame.find]
      split_ifs
      · rfl
      · exact ih

theorem Frame.find_assign_isSome (f : Frame) (id id1 : String) (v : Nat)
    (h : (Frame.find f id).isSome) : (Frame.find (f.assign id1 v) id).isSome := by
  unfold Frame.assign
  by_cases hk : id1 = id
  · simp [Frame.find, hk]
  · simp only [Frame.find, hk, if_false]
    rw [Frame.find_filter_ne f id id1 hk]
    exact h

/-- The scope stack when `Eval` returns: as many frames as at the call, the
same frames below the top one, every name bound in the top frame still bound
there, and no change at all when no object is a `define` form. -/
theorem Eval_scoped : ∀ (n : Nat) (L : Lisp) (p : Option Nat),
    (Eval n L p).PostOk (L.Scoped) := by
  intro n
  induction n with
  | zero => intro L p; trivial
  | succ n ih =>
    intro L p
    cases p with
    | none => trivial
    | some list =>
      simp only [Eval]
      cases hR : (L.heap list).right with
      | none =>
        simp only
        split_ifs
        · split
          · trivial
          · split_ifs
            · exact ih _ _
            · exact Lisp.Scoped.scoped_refl L
        · exact Lisp.Scoped.scoped_refl L
      | some right =>
        simp only
        cases hT : (L.heap list).type with
        | E_Define =>
          simp only
          split
          · trivial
          · have h1 := ih L (L.heap right).left
            cases hres : Eval n L (L.heap right).left with
            | ok v L1 =>
              rw [hres] at h1
              simp only [Res.bind, Lisp.Put, IdHashMap.Put]
              cases hI : L1._ids with
              | nil => trivial
              | cons top1 rest1 =>
                obtain ⟨⟨hl, htl, hnd⟩, hmono, _⟩ := h1
                rw [hI] at hl htl hmono
                refine ⟨⟨by simpa using hl, by simpa using htl, hnd⟩, ?_, ?_⟩
                · intro id hid
                  exact Frame.find_assign_isSome top1 id _ v (hmono id hid)
                · intro hn
                  have := hn list hT
                  rw [hR] at this
                  cases this
            | throw e L1 => trivial
            | undefined => trivial
            | timeout => trivial
        | E_List =>
          simp only
          apply Res.PostOk.bind_scoped
          · split_ifs
            · exact ih _ _
            · exact Lisp.Scoped.scoped_refl L
          · intro first L1 _
            split_ifs
            · apply deref_postOk; intro r1
              apply Res.PostOk.bind_scoped (ih _ _); intro second L2 _
              apply deref_postOk; intro r2
              apply deref_postOk; intro a
              apply Res.PostOk.bind_scoped (ih _ _); intro third L3 _
              apply deref_postOk; intro f
              apply deref_postOk; intro v
              exact (Lisp.alloc_sameIds L3 _ (by simp)).scoped
            · apply deref_postOk; intro ps
              apply deref_postOk; intro r1
              apply Res.PostOk.weaken (P := L1.SameIds) _ (fun _ h => h.scoped)
              apply Res.PostOk.bind (P := L1.Inner)
                ((bindArgs_below ih n _ _ _).weaken
                  (fun _ h => (Lisp.AddTemp_inner L1).below h))
              intro _ L3 h3
              apply deref_postOk; intro ps3
              apply Res.PostOk.bind (P := L1.Inner)
                ((ih _ _).weaken (fun _ h => h3.below h.1))
              intro res L4 h4
              apply Res.PostOk.bind (P := L1.SameIds) (Lisp.RemoveTemp_inner h4)
              intro _ L5 h5
              exact h5
            · exact Lisp.Scoped.scoped_refl L1
        | E_Lambda =>
          simp only
          have hV : ∀ x : Nat,
              ((putLambdaArgs n L.AddTemp (some x)).bind fun _ L2 =>
                (TraverseLambda n L2 list).bind fun _ L3 =>
                  L3.RemoveTemp.bind fun _ L4 => Res.ok list L4).PostOk (L.Scoped) := by
            intro x
            apply Res.PostOk.weaken (P := L.SameIds) _ (fun _ h => h.scoped)
            apply Res.PostOk.bind (P := L.Inner)
              ((putLambdaArgs_below n _ _).weaken (fun _ h => (Lisp.AddTemp_inner L).below h))
            intro _ L2 h2
            apply Res.PostOk.bind (P := L.Inner)
              ((TraverseLambda_scoped n L2 list).weaken (fun _ h => h2.below h.1))
            intro _ L3 h3
            apply Res.PostOk.bind (P := L.SameIds) (Lisp.RemoveTemp_inner h3)
            intro _ L4 h4
            exact h4
          apply deref_postOk; intro ps
          apply deref_postOk; intro x
          split_ifs
          · exact hV x
          · apply deref_postOk; intro p
            split_ifs
            · exact hV x
            · apply Res.PostOk.weaken (P := L.SameIds) _ (fun _ h => h.scoped)
              apply Res.PostOk.bind (P := L.Inner)
                ((rebindArgs_below ih n _ _).weaken
                  (fun _ h => (Lisp.AddTemp_inner L).below h))
              intro _ L2 h2
              apply deref_postOk; intro ps2
              apply Res.PostOk.bind (P := L.Inner)
                ((ih _ _).weaken (fun _ h => h2.below h.1))
              intro res L3 h3
              apply Res.PostOk.bind (P := L.SameIds) (Lisp.RemoveTemp_inner h3)
              intro _ L4 h4
              exact h4
        | E_Eq =>
          simp only
          apply Res.PostOk.bind_scoped (ih _ _); intro arg1 L1 _
          apply deref_postOk; intro r1
          apply Res.PostOk.bind_scoped (ih _ _); intro arg2 L2 _
          exact (Lisp.alloc_sameIds L2 _ (by simp)).scoped
        | E_Cond =>
          simp only
          exact condLoop_scoped ih n _ _
        | E_Identifier =>
          simp only
          exact ih _ _
        | E_BiFunc => trivial
        | E_Number => trivial
        | E_Logic => trivial
        | E_LambdaArg => trivial
/-- When `Exec` returns, the scope stack has as many frames as before the
line, and the frames below the top one are the same. -/
theorem Exec_scoped (fuel : Nat) (L L2 : Lisp) (line out : String)
    (h : Exec fuel L line = .ok out L2) :
    L2._ids.length = L._ids.length ∧ L2._ids.tail = L._ids.tail := by
  unfold Exec at h
  have hs := BuildSyntaxTree_spec L line
  cases hb : BuildSyntaxTree L line with
  | ok root L1 =>
    rw [hb] at hs h
    simp only [Res.bind] at h
    have he := Eval_scoped fuel L1 (some root)
    cases hv : Eval fuel L1 (some root) with
    | ok res L3 =>
      rw [hv] at he h
      simp only at h
      have h3 : L3 = L2 := by
        split_ifs at h <;> (injection h)
      subst h3
      exact ⟨he.1.1.trans (by rw [hs.2.1]), he.1.2.1.trans (by rw [hs.2.1])⟩
    | throw e L3 => rw [hv] at h; cases h
    | undefined => rw [hv] at h; cases h
    | timeout => rw [hv] at h; cases h
  | throw e L1 => rw [hb] at h; cases h
  | undefined => rw [hb] at h; cases h
  | timeout => rw [hb] at h; cases h
/-! ## The tree of a well-formed list and its serialisation -/

theorem Lisp.Shifted.type {n0 d : Nat} {X Y : Lisp} (h : X.Shifted n0 d Y) (a : Nat) :
    (Y.heap (shift n0 d a)).type = (X.heap a).type := by
  rw [h.2.2.1 a]; rfl

theorem Lisp.Shifted.name {n0 d : Nat} {X Y : Lisp} (h : X.Shifted n0 d Y) (a : Nat) :
    (Y.heap (shift n0 d a)).name = (X.heap a).name := by
  rw [h.2.2.1 a]; rfl

theorem Lisp.Shifted.val {n0 d : Nat} {X Y : Lisp} (h : X.Shifted n0 d Y) (a : Nat) :
    (Y.heap (shift n0 d a)).val = (X.heap a).val := by
  rw [h.2.2.1 a]; rfl

theorem Lisp.Grows.refl_of {L : Lisp} (h : L.WF) : L.Grows L := ⟨h, Nat.le_refl _, rfl⟩

theorem Lisp.Grows.grows_trans {L L1 L2 : Lisp} (h1 : L.Grows L1) (h2 : L1.Grows L2) :
    L.Grows L2 :=
  ⟨h2.1, Nat.le_trans h1.2.1 h2.2.1, h2.2.2.trans h1.2.2⟩

theorem Node.Closed.of_le {nd : Node} {n m : Nat} (h : nd.Closed n) (hnm : n ≤ m) :
    nd.Closed m :=
  ⟨fun p hp => Nat.lt_of_lt_of_le (h.1 p hp) hnm, fun p hp => Nat.lt_of_lt_of_le (h.2.1 p hp) hnm,
    fun p hp => Nat.lt_of_lt_of_le (h.2.2.1 p hp) hnm,
    fun p hp => Nat.lt_of_lt_of_le (h.2.2.2 p hp) hnm⟩

theorem Lisp.WF.left_wf {L : Lisp} (h : L.WF) {a p : Nat} (hp : (L.heap a).left = some p) :
    p < L.next := (h.1 a).1 p hp

theorem Lisp.WF.right_wf {L : Lisp} (h : L.WF) {a p : Nat} (hp : (L.heap a).right = some p) :
    p < L.next := (h.1 a).2.1 p hp

theorem Lisp.WF.target_wf {L : Lisp} (h : L.WF) {a p : Nat}
    (hp : (L.heap a).identifier_target = some p) : p < L.next := (h.1 a).2.2.1 p hp

theorem Frame.find_mem (f : Frame) (id : String) (v : Nat) (h : Frame.find f id = some v) :
    ∃ e ∈ f, e.2 = v := by
  induction f with
  | nil => cases h
  | cons e f ih =>
    obtain ⟨k, w⟩ := e
    simp only [Frame.find] at h
    split_ifs at h
    · exact ⟨(k, w), List.mem_cons_self _ _, by simpa using h⟩
    · obtain ⟨e, he, hv⟩ := ih h
      exact ⟨e, List.mem_cons_of_mem _ he, hv⟩

theorem IdHashMap.Get_mem (m : IdHashMap) (id : String) (v : Nat) (h : m.Get id = some v) :
    ∃ f ∈ m, ∃ e ∈ f, e.2 = v := by
  induction m with
  | nil => cases h
  | cons top rest ih =>
    simp only [IdHashMap.Get] at h
    cases hf : Frame.find top id with
    | some w =>
      rw [hf] at h
      simp only [Option.some.injEq] at h
      subst h
      obtain ⟨e, he, hv⟩ := Frame.find_mem top id w hf
      exact ⟨top, List.mem_cons_self _ _, e, he, hv⟩
    | none =>
      rw [hf] at h
      obtain ⟨f, hfm, e, he, hv⟩ := ih h
      exact ⟨f, List.mem_cons_of_mem _ hfm, e, he, hv⟩

theorem Lisp.WF.get_wf {L : Lisp} (h : L.WF) {id : String} {v : Nat}
    (hg : L._ids.Get id = some v) : v < L.next := by
  obtain ⟨f, hf, e, he, hv⟩ := IdHashMap.Get_mem _ _ _ hg
  rw [← hv]
  exact h.2.2.1 f hf e he

/-- Making an object whose pointers are in use keeps the state well formed. -/
theorem Lisp.WF.alloc_wf {L : Lisp} (h : L.WF) (nd : Node) (hnd : nd.Closed L.next) :
    L.Grows (L.alloc nd).2 ∧ (L.alloc nd).1 < (L.alloc nd).2.next := by
  refine ⟨⟨⟨?_, ?_, ?_, ?_⟩, ?_, rfl⟩, ?_⟩
  · intro a
    simp only [Lisp.alloc, Function.update_apply]
    split_ifs
    · exact hnd.of_le (Nat.le_succ _)
    · exact (h.1 a).of_le (Nat.le_succ _)
  · intro a ha
    simp only [Lisp.alloc] at ha
    simp only [Lisp.alloc, Function.update_apply]
    rw [if_neg (by omega)]
    exact h.2.1 a (by omega)
  · intro f hf e he
    exact Nat.lt_succ_of_lt (h.2.2.1 f hf e he)
  · exact Nat.lt_succ_of_lt h.2.2.2
  · exact Nat.le_succ _
  · exact Nat.lt_succ_self _

/-- Assigning to fields of an object in use, with pointers in use, keeps the
state well formed. -/
theorem Lisp.WF.modify_wf {L : Lisp} (h : L.WF) (p : Nat) (hp : p < L.next) (f : Node → Node)
    (hf : (L.heap p).Closed L.next → (f (L.heap p)).Closed L.next) :
    L.Grows (L.modify p f) := by
  refine ⟨⟨?_, ?_, h.2.2.1, h.2.2.2⟩, Nat.le_refl _, rfl⟩
  · intro a
    simp only [Lisp.modify, Function.update_apply]
    split_ifs with hap
    · exact hf (h.1 p)
    · exact h.1 a
  · intro a ha
    simp only [Lisp.modify] at ha
    simp only [Lisp.modify, Function.update_apply]
    rw [if_neg (by omega)]
    exact h.2.1 a ha

theorem Res.PostG.bind_postG {α β : Type} {L : Lisp} {V : α → Lisp → Prop} {V1 : β → Lisp → Prop}
    {r : Res α} {k : α → Lisp → Res β} (h : r.PostG L V)
    (hk : ∀ v L1, L.Grows L1 → V v L1 → (k v L1).PostG L1 V1) : (r.bind k).PostG L V1 := by
  cases r with
  | ok v L1 =>
    have h2 := hk v L1 h.1 h.2
    simp only [Res.bind]
    cases hr : k v L1 with
    | ok b L2 => rw [hr] at h2; exact ⟨h.1.grows_trans h2.1, h2.2⟩
    | throw e L2 => rw [hr] at h2; exact h.1.grows_trans h2
    | undefined => trivial
    | timeout => trivial
  | throw e L1 => exact h
  | undefined => trivial
  | timeout => trivial

theorem deref_postG {α β : Type} {L : Lisp} {V : β → Lisp → Prop} (p : Option α)
    {k : α → Res β} (hk : ∀ a, p = some a → (k a).PostG L V) : (deref p k).PostG L V := by
  cases p with
  | none => trivial
  | some a => exact hk a rfl

theorem Res.PostG.of_grows {α : Type} {L L0 : Lisp} {V : α → Lisp → Prop} {r : Res α}
    (h0 : L0.Grows L) (h : r.PostG L V) : r.PostG L0 V := by
  cases r with
  | ok v L1 => exact ⟨h0.grows_trans h.1, h.2⟩
  | throw e L1 => exact h0.grows_trans h
  | undefined => trivial
  | timeout => trivial

theorem Lisp.Put_postG {L : Lisp} (h : L.WF) (id : String) (v : Nat) (hv : v < L.next) :
    (L.Put id v).PostG L (fun _ _ => True) := by
  unfold Lisp.Put IdHashMap.Put
  cases hI : L._ids with
  | nil => trivial
  | cons top rest =>
    refine ⟨⟨⟨h.1, h.2.1, ?_, h.2.2.2⟩, Nat.le_refl _, rfl⟩, trivial⟩
    intro f hf e he
    have hids := h.2.2.1
    rw [hI] at hids
    rcases List.mem_cons.1 hf with rfl | hf
    · simp only [Frame.assign] at he
      rcases List.mem_cons.1 he with rfl | he
      · exact hv
      · exact hids top (List.mem_cons_self _ _) e (List.mem_of_mem_filter he)
    · exact hids f (List.mem_cons_of_mem _ hf) e he

theorem Lisp.AddTemp_grows {L : Lisp} (h : L.WF) : L.Grows L.AddTemp := by
  refine ⟨⟨h.1, h.2.1, ?_, h.2.2.2⟩, Nat.le_refl _, rfl⟩
  intro f hf e he
  simp only [Lisp.AddTemp, IdHashMap.AddTemp] at hf
  rcases List.mem_cons.1 hf with rfl | hf
  · cases he
  · exact h.2.2.1 f hf e he

theorem Lisp.RemoveTemp_postG {L : Lisp} (h : L.WF) :
    L.RemoveTemp.PostG L (fun _ _ => True) := by
  unfold Lisp.RemoveTemp IdHashMap.RemoveTemp
  cases hI : L._ids with
  | nil => trivial
  | cons top rest =>
    refine ⟨⟨⟨h.1, h.2.1, ?_, h.2.2.2⟩, Nat.le_refl _, rfl⟩, trivial⟩
    intro f hf e he
    have hids := h.2.2.1
    rw [hI] at hids
    exact hids f (List.mem_cons_of_mem _ hf) e he

theorem Preserve_grows {L : Lisp} (h : L.WF) (list : Nat) (hl : list < L.next) :
    L.Grows (Preserve L list) := by
  unfold Preserve
  split_ifs
  · cases hG : L._ids.Get (L.heap list).name with
    | none => exact Lisp.Grows.refl_of h
    | some val =>
      simp only
      split_ifs
      · apply h.modify_wf list hl
        intro hc
        exact ⟨hc.1, hc.2.1, fun p hp => by
          simp only [Option.some.injEq] at hp
          rw [← hp]
          exact h.get_wf hG, hc.2.2.2⟩
      · exact Lisp.Grows.refl_of h
  · exact Lisp.Grows.refl_of h
theorem Res.PostG.ok_self {α : Type} {L : Lisp} {V : α → Lisp → Prop} (h : L.WF) (v : α)
    (hv : V v L) : (Res.ok v L).PostG L V := ⟨Lisp.Grows.refl_of h, hv⟩

theorem Res.PostG.ok_grows {α : Type} {L L1 : Lisp} {V : α → Lisp → Prop} (h : L.Grows L1)
    (v : α) (hv : V v L1) : (Res.ok v L1).PostG L V := ⟨h, hv⟩

theorem Node.Closed.plain (k : Kind) (v : Val) (n : Nat) :
    ({ type := k, val := v } : Node).Closed n := by
  refine ⟨?_, ?_, ?_, ?_⟩ <;> intro p hp <;> cases hp

theorem putLambdaArgs_postG : ∀ (n : Nat) (L : Lisp) (x : Option Nat), L.WF →
    (putLambdaArgs n L x).PostG L (fun _ _ => True) := by
  intro n
  induction n with
  | zero => intro L x _; trivial
  | succ n ih =>
    intro L x h
    cases x with
    | none => exact Res.PostG.ok_self h () trivial
    | some x =>
      simp only [putLambdaArgs]
      apply Res.PostG.bind_postG (Lisp.Put_postG h _ _ h.2.2.2)
      intro _ L1 hg _
      exact ih L1 _ hg.1

theorem TraverseLambdaWith_postG {tap : Lisp → Option Nat → Res Unit}
    (ht : ∀ (L : Lisp) (p : Option Nat), L.WF → (∀ a, p = some a → a < L.next) →
      (tap L p).PostG L (fun _ _ => True))
    (L : Lisp) (lmda : Nat) (h : L.WF) :
    (TraverseLambdaWith tap L lmda).PostG L (fun _ _ => True) := by
  unfold TraverseLambdaWith
  apply deref_postG
  intro r _
  apply Res.PostG.bind_postG (ht L _ h (fun a ha => h.left_wf ha))
  intro _ L1 hg _
  cases hl : (L1.heap lmda).left with
  | none => exact Res.PostG.ok_self hg.1 () trivial
  | some l => exact ht L1 (some l) hg.1 (fun a ha => by
      simp only [Option.some.injEq] at ha
      rw [← ha]
      exact hg.1.left_wf hl)

theorem TraverseAndPreserve_postG : ∀ (n : Nat) (L : Lisp) (p : Option Nat), L.WF →
    (∀ a, p = some a → a < L.next) →
      (TraverseAndPreserve n L p).PostG L (fun _ _ => True) := by
  intro n
  induction n with
  | zero => intro L p _ _; trivial
  | succ n ih =>
    intro L p h hp
    cases p with
    | none => trivial
    | some list =>
      have hl : list < L.next := hp list rfl
      simp only [TraverseAndPreserve]
      split_ifs
      · exact Res.PostG.ok_grows (Preserve_grows h list hl) () trivial
      · have hA := Lisp.AddTemp_grows h
        apply Res.PostG.of_grows hA
        apply deref_postG
        intro r _
        apply Res.PostG.bind_postG (putLambdaArgs_postG n _ _ hA.1)
        intro _ L2 hg2 _
        apply Res.PostG.bind_postG (TraverseLambdaWith_postG ih L2 list hg2.1)
        intro _ L3 hg3 _
        exact Lisp.RemoveTemp_postG hg3.1
      · have hP := Preserve_grows h list hl
        apply Res.PostG.of_grows hP
        apply Res.PostG.bind_postG (V := fun _ _ => True)
        · cases hL : ((Preserve L list).heap list).left with
          | none => exact Res.PostG.ok_self hP.1 () trivial
          | some l =>
            exact ih _ (some l) hP.1 (fun a ha => by
              simp only [Option.some.injEq] at ha
              rw [← ha]
              exact hP.1.left_wf hL)
        · intro _ L2 hg2 _
          cases hR : (L2.heap list).right with
          | none => exact Res.PostG.ok_self hg2.1 () trivial
          | some r =>
            exact ih _ (some r) hg2.1 (fun a ha => by
              simp only [Option.some.injEq] at ha
              rw [← ha]
              exact hg2.1.right_wf hR)

theorem TraverseLambda_postG (n : Nat) (L : Lisp) (lmda : Nat) (h : L.WF) :
    (TraverseLambda n L lmda).PostG L (fun _ _ => True) :=
  TraverseLambdaWith_postG (TraverseAndPreserve_postG n) L lmda h

theorem bindArgs_postG {ev : Lisp → Option Nat → Res Nat}
    (he : ∀ (L : Lisp) (p : Option Nat), L.WF → (∀ a, p = some a → a < L.next) →
      (ev L p).PostG L Lisp.Has) :
    ∀ (n : Nat) (L : Lisp) (x para : Option Nat), L.WF →
      (∀ a, para = some a → a < L.next) →
      (bindArgs ev n L x para).PostG L (fun _ _ => True) := by
  intro n
  induction n with
  | zero => intro L x para _ _; trivial
  | succ n ih =>
    intro L x para h hp
    cases x with
    | none => exact Res.PostG.ok_self h () trivial
    | some x =>
      cases para with
      | none => exact Lisp.Grows.refl_of h
      | some p =>
        simp only [bindArgs]
        apply Res.PostG.bind_postG (he L (some p) h hp)
        intro v L1 hg1 hv
        apply Res.PostG.bind_postG (Lisp.Put_postG hg1.1 _ _ hv)
        intro _ L2 hg2 _
        exact ih L2 _ _ hg2.1 (fun a ha => hg2.1.left_wf ha)

theorem rebindArgs_postG {ev : Lisp → Option Nat → Res Nat}
    (he : ∀ (L : Lisp) (p : Option Nat), L.WF → (∀ a, p = some a → a < L.next) →
      (ev L p).PostG L Lisp.Has) :
    ∀ (n : Nat) (L : Lisp) (x : Option Nat), L.WF →
      (rebindArgs ev n L x).PostG L (fun _ _ => True) := by
  intro n
  induction n with
  | zero => intro L x _; trivial
  | succ n ih =>
    intro L x h
    cases x with
    | none => exact Res.PostG.ok_self h () trivial
    | some x =>
      simp only [rebindArgs]
      apply Res.PostG.bind_postG (he L _ h (fun a ha => h.get_wf ha))
      intro v L1 hg1 hv
      apply Res.PostG.bind_postG (Lisp.Put_postG hg1.1 _ _ hv)
      intro _ L2 hg2 _
      apply deref_postG
      intro _ _
      exact ih L2 _ hg2.1

theorem condLoop_postG {ev : Lisp → Option Nat → Res Nat}
    (he : ∀ (L : Lisp) (p : Option Nat), L.WF → (∀ a, p = some a → a < L.next) →
      (ev L p).PostG L Lisp.Has) :
    ∀ (n : Nat) (L : Lisp) (x : Option Nat), L.WF →
      (condLoop ev n L x).PostG L Lisp.Has := by
  intro n
  induction n with
  | zero => intro L x _; trivial
  | succ n ih =>
    intro L x h
    cases x with
    | none => exact Lisp.Grows.refl_of h
    | some x =>
      simp only [condLoop]
      apply Res.PostG.bind_postG (he L _ h (fun a ha => h.right_wf ha))
      intro boo L1 hg1 _
      apply deref_postG
      intro r _
      apply Res.PostG.bind_postG (he L1 _ hg1.1 (fun a ha => hg1.1.left_wf ha))
      intro expr L2 hg2 hv
      split_ifs
      · exact Res.PostG.ok_self hg2.1 expr hv
      · exact ih L2 _ hg2.1

/-- `Eval` keeps the state well formed, and what it returns is the address of
an object. -/
theorem Eval_postG : ∀ (n : Nat) (L : Lisp) (p : Option Nat), L.WF →
    (∀ a, p = some a → a < L.next) → (Eval n L p).PostG L Lisp.Has := by
  intro n
  induction n with
  | zero => intro L p _ _; trivial
  | succ n ih =>
    intro L p h hp
    cases p with
    | none => trivial
    | some list =>
      have hl : list < L.next := hp list rfl
      simp only [Eval]
      cases hR : (L.heap list).right with
      | none =>
        simp only
        split_ifs
        · cases hT : (L.heap list).identifier_target with
          | some t =>
            simp only
            have ht : t < L.next := h.target_wf hT
            split_ifs
            · exact ih L (some t) h (fun a ha => by
                simp only [Option.some.injEq] at ha; rw [← ha]; exact ht)
            · exact Res.PostG.ok_self h t ht
          | none =>
            simp only
            cases hG : L._ids.Get (L.heap list).name with
            | none => exact Lisp.Grows.refl_of h
            | some t =>
              simp only
              have ht : t < L.next := h.get_wf hG
              split_ifs
              · exact ih L (some t) h (fun a ha => by
                  simp only [Option.some.injEq] at ha; rw [← ha]; exact ht)
              · exact Res.PostG.ok_self h t ht
        · exact Res.PostG.ok_self h list hl
      | some right =>
        have hr : right < L.next := h.right_wf hR
        simp only
        cases hT : (L.heap list).type with
        | E_Define =>
          simp only
          split
          · exact Lisp.Grows.refl_of h
          · apply Res.PostG.bind_postG (ih L _ h (fun a ha => h.left_wf ha))
            intro v L1 hg1 hv
            apply Res.PostG.bind_postG (Lisp.Put_postG hg1.1 _ _ hv)
            intro _ L2 hg2 _
            refine Res.PostG.ok_self hg2.1 list ?_
            have := hg1.2.1
            have := hg2.2.1
            unfold Lisp.Has
            omega
        | E_List =>
          simp only
          apply Res.PostG.bind_postG (V := Lisp.Has)
          · split_ifs
            · exact ih L (some right) h (fun a ha => by
                simp only [Option.some.injEq] at ha; rw [← ha]; exact hr)
            · exact Res.PostG.ok_self h right hr
          · intro first L1 hg1 hf
            split_ifs
            · apply deref_postG; intro r1 _
              apply Res.PostG.bind_postG (ih L1 _ hg1.1 (fun a ha => hg1.1.left_wf ha))
              intro second L2 hg2 _
              apply deref_postG; intro r2 _
              apply deref_postG; intro a _
              apply Res.PostG.bind_postG (ih L2 _ hg2.1 (fun a ha => hg2.1.left_wf ha))
              intro third L3 hg3 _
              apply deref_postG; intro f _
              apply deref_postG; intro v _
              have hal := hg3.1.alloc_wf { type := .E_Number, val := { number := v } }
                (Node.Closed.plain _ _ _)
              exact ⟨hal.1, hal.2⟩
            · have hA := Lisp.AddTemp_grows hg1.1
              apply Res.PostG.of_grows hA
              apply deref_postG; intro ps _
              apply deref_postG; intro r1 _
              apply Res.PostG.bind_postG (bindArgs_postG ih n _ _ _ hA.1
                (fun a ha => hA.1.left_wf ha))
              intro _ L3 hg3 _
              apply deref_postG; intro ps3 _
              apply Res.PostG.bind_postG (ih L3 _ hg3.1 (fun a ha => hg3.1.left_wf ha))
              intro res L4 hg4 hres
              apply Res.PostG.bind_postG (Lisp.RemoveTemp_postG hg4.1)
              intro _ L5 hg5 _
              refine Res.PostG.ok_self hg5.1 res ?_
              have := hg5.2.1
              unfold Lisp.Has at hres ⊢
              omega
            · exact Res.PostG.ok_self hg1.1 first hf
        | E_Lambda =>
          simp only
          have hA := Lisp.AddTemp_grows h
          have hV : ∀ x : Nat,
              ((putLambdaArgs n L.AddTemp (some x)).bind fun _ L2 =>
                (TraverseLambda n L2 list).bind fun _ L3 =>
                  L3.RemoveTemp.bind fun _ L4 => Res.ok list L4).PostG L Lisp.Has := by
            intro x
            apply Res.PostG.of_grows hA
            apply Res.PostG.bind_postG (putLambdaArgs_postG n _ _ hA.1)
            intro _ L2 hg2 _
            apply Res.PostG.bind_postG (TraverseLambda_postG n L2 list hg2.1)
            intro _ L3 hg3 _
            apply Res.PostG.bind_postG (Lisp.RemoveTemp_postG hg3.1)
            intro _ L4 hg4 _
            refine Res.PostG.ok_self hg4.1 list ?_
            have := hA.2.1
            have := hg2.2.1
            have := hg3.2.1
            have := hg4.2.1
            unfold Lisp.Has
            omega
          apply deref_postG; intro ps _
          apply deref_postG; intro x _
          split_ifs
          · exact hV x
          · apply deref_postG; intro p _
            split_ifs
            · exact hV x
            · apply Res.PostG.of_grows hA
              apply Res.PostG.bind_postG (rebindArgs_postG ih n _ _ hA.1)
              intro _ L2 hg2 _
              apply deref_postG; intro ps2 _
              apply Res.PostG.bind_postG (ih L2 _ hg2.1 (fun a ha => hg2.1.left_wf ha))
              intro res L3 hg3 hres
              apply Res.PostG.bind_postG (Lisp.RemoveTemp_postG hg3.1)
              intro _ L4 hg4 _
              refine Res.PostG.ok_self hg4.1 res ?_
              have := hg4.2.1
              unfold Lisp.Has at hres ⊢
              omega
        | E_Eq =>
          simp only
          apply Res.PostG.bind_postG (ih L _ h (fun a ha => by
            simp only [Option.some.injEq] at ha; rw [← ha]; exact hr))
          intro arg1 L1 hg1 _
          apply deref_postG; intro r1 _
          apply Res.PostG.bind_postG (ih L1 _ hg1.1 (fun a ha => hg1.1.left_wf ha))
          intro arg2 L2 hg2 _
          have hal := hg2.1.alloc_wf
            { type := .E_Logic,
              val := { number :=
                if (L2.heap arg1).val.number = (L2.heap arg2).val.number then 1 else 0 } }
            (Node.Closed.plain _ _ _)
          exact ⟨hal.1, hal.2⟩
        | E_Cond =>
          simp only
          exact condLoop_postG ih n L _ h
        | E_Identifier =>
          simp only
          exact ih L (some list) h hp
        | E_BiFunc => trivial
        | E_Number => trivial
        | E_Logic => trivial
        | E_LambdaArg => trivial
theorem Lisp.Kept.kept_refl (L : Lisp) : L.Kept L := fun _ _ h => h

theorem Lisp.Kept.kept_trans {L L1 L2 : Lisp} (h1 : L.Kept L1) (h2 : L1.Kept L2) : L.Kept L2 :=
  fun id v h => h2 id v (h1 id v h)

theorem Lisp.SameIds.kept {L L1 : Lisp} (h : L.SameIds L1) : L.Kept L1 := by
  intro id v hv
  rw [h.1]
  exact hv

theorem Res.PostOk.bind_kept {α β : Type} {L : Lisp} {V : α → Lisp → Prop} {r : Res α}
    {k : α → Lisp → Res β} (hG : r.PostG L V) (hK : r.PostOk (L.Kept))
    (hk : ∀ v L1, L.Grows L1 → V v L1 → (k v L1).PostOk (L1.Kept)) :
    (r.bind k).PostOk (L.Kept) := by
  cases r with
  | ok v L1 =>
    have h2 := hk v L1 hG.1 hG.2
    simp only [Res.bind]
    cases hr : k v L1 with
    | ok b L2 => rw [hr] at h2; exact Lisp.Kept.kept_trans hK h2
    | throw e L2 => trivial
    | undefined => trivial
    | timeout => trivial
  | throw e L1 => trivial
  | undefined => trivial
  | timeout => trivial

theorem IdHashMap.head_find_of_Get_none {m : IdHashMap} {id : String}
    (h : m.Get id = none) : Frame.find (m.headD []) id = none := by
  cases m with
  | nil => rfl
  | cons top rest => exact (IdHashMap.Get_cons_none h).1

theorem Frame.find_assign_ne (f : Frame) (id id1 : String) (v : Nat) (h : id1 ≠ id) :
    Frame.find (f.assign id1 v) id = Frame.find f id := by
  unfold Frame.assign
  simp only [Frame.find, h, if_false]
  exact Frame.find_filter_ne f id id1 h

theorem condLoop_kept {ev : Lisp → Option Nat → Res Nat}
    (heG : ∀ (L : Lisp) (p : Option Nat), L.WF → (∀ a, p = some a → a < L.next) →
      (ev L p).PostG L Lisp.Has)
    (heK : ∀ (L : Lisp) (p : Option Nat), L.WF → (∀ a, p = some a → a < L.next) →
      (ev L p).PostOk (L.Kept)) :
    ∀ (n : Nat) (L : Lisp) (x : Option Nat), L.WF → (condLoop ev n L x).PostOk (L.Kept) := by
  intro n
  induction n with
  | zero => intro L x _; trivial
  | succ n ih =>
    intro L x h
    cases x with
    | none => trivial
    | some x =>
      simp only [condLoop]
      apply Res.PostOk.bind_kept (heG L _ h (fun a ha => h.right_wf ha))
        (heK L _ h (fun a ha => h.right_wf ha))
      intro boo L1 hg1 _
      apply deref_postOk
      intro r
      apply Res.PostOk.bind_kept (heG L1 _ hg1.1 (fun a ha => hg1.1.left_wf ha))
        (heK L1 _ hg1.1 (fun a ha => hg1.1.left_wf ha))
      intro expr L2 hg2 _
      split_ifs
      · exact Lisp.Kept.kept_refl L2
      · exact ih L2 _ hg2.1

/-- In a well-formed state, when `Eval` of an object returns, every binding of
the frame that was on top at the call is still there, with the same object. -/
theorem Eval_kept : ∀ (n : Nat) (L : Lisp) (p : Option Nat), L.WF →
    (∀ a, p = some a → a < L.next) → (Eval n L p).PostOk (L.Kept) := by
  intro n
  induction n with
  | zero => intro L p _ _; trivial
  | succ n ih =>
    intro L p h hp
    cases p with
    | none => trivial
    | some list =>
      have hl : list < L.next := hp list rfl
      have some_lt : ∀ {t : Nat}, t < L.next → ∀ a, some t = some a → a < L.next := by
        intro t ht a ha
        simp only [Option.some.injEq] at ha
        rw [← ha]
        exact ht
      simp only [Eval]
      cases hR : (L.heap list).right with
      | none =>
        simp only
        split_ifs
        · cases hT : (L.heap list).identifier_target with
          | some t =>
            simp only
            split_ifs
            · exact ih L (some t) h (some_lt (h.target_wf hT))
            · exact Lisp.Kept.kept_refl L
          | none =>
            simp only
            cases hG : L._ids.Get (L.heap list).name with
            | none => trivial
            | some t =>
              simp only
              split_ifs
              · exact ih L (some t) h (some_lt (h.get_wf hG))
              · exact Lisp.Kept.kept_refl L
        · exact Lisp.Kept.kept_refl L
      | some right =>
        have hr : right < L.next := h.right_wf hR
        simp only
        cases hT : (L.heap list).type with
        | E_Define =>
          simp only
          cases hG : L._ids.Get (L.heap right).name with
          | some _ => trivial
          | none =>
            simp only
            have hK := ih L (L.heap right).left h (fun a ha => h.left_wf ha)
            have hE := Eval_ext n L (L.heap right).left
            cases hres : Eval n L (L.heap right).left with
            | ok v L1 =>
              rw [hres] at hK hE
              have hname : (L1.heap right).name = (L.heap right).name := by
                have := congrArg Node.name (hE.2.2 right hr)
                exact this
              simp only [Res.bind, Lisp.Put, IdHashMap.Put, hname]
              cases hI : L1._ids with
              | nil => trivial
              | cons top1 rest1 =>
                intro id v0 hv0
                have h0 := IdHashMap.head_find_of_Get_none hG
                have hne : (L.heap right).name ≠ id := by
                  intro he
                  rw [he, hv0] at h0
                  cases h0
                have h1 := hK id v0 hv0
                rw [hI] at h1
                simp only [List.headD_cons] at h1 ⊢
                rw [Frame.find_assign_ne top1 id _ v hne]
                exact h1
            | throw e L1 => trivial
            | undefined => trivial
            | timeout => trivial
        | E_List =>
          simp only
          apply Res.PostOk.bind_kept (V := Lisp.Has)
          · split_ifs
            · exact Eval_postG n L (some right) h (some_lt hr)
            · exact Res.PostG.ok_self h right hr
          · split_ifs
            · exact ih L (some right) h (some_lt hr)
            · exact Lisp.Kept.kept_refl L
          · intro first L1 hg1 _
            split_ifs
            · apply deref_postOk; intro r1
              apply Res.PostOk.bind_kept
                (Eval_postG n L1 _ hg1.1 (fun a ha => hg1.1.left_wf ha))
                (ih L1 _ hg1.1 (fun a ha => hg1.1.left_wf ha))
              intro second L2 hg2 _
              apply deref_postOk; intro r2
              apply deref_postOk; intro a
              apply Res.PostOk.bind_kept
                (Eval_postG n L2 _ hg2.1 (fun a ha => hg2.1.left_wf ha))
                (ih L2 _ hg2.1 (fun a ha => hg2.1.left_wf ha))
              intro third L3 hg3 _
              apply deref_postOk; intro f
              apply deref_postOk; intro v
              exact (Lisp.alloc_sameIds L3 _ (by simp)).kept
            · apply deref_postOk; intro ps
              apply deref_postOk; intro r1
              apply Res.PostOk.weaken (P := L1.SameIds) _ (fun _ h => h.kept)
              apply Res.PostOk.bind (P := L1.Inner)
                ((bindArgs_below (Eval_scoped n) n _ _ _).weaken
                  (fun _ h => (Lisp.AddTemp_inner L1).below h))
              intro _ L3 h3
              apply deref_postOk; intro ps3
              apply Res.PostOk.bind (P := L1.Inner)
                ((Eval_scoped n _ _).weaken (fun _ h => h3.below h.1))
              intro res L4 h4
              apply Res.PostOk.bind (P := L1.SameIds) (Lisp.RemoveTemp_inner h4)
              intro _ L5 h5
              exact h5
            · exact Lisp.Kept.kept_refl L1
        | E_Lambda =>
          simp only
          have hV : ∀ x : Nat,
              ((putLambdaArgs n L.AddTemp (some x)).bind fun _ L2 =>
                (TraverseLambda n L2 list).bind fun _ L3 =>
                  L3.RemoveTemp.bind fun _ L4 => Res.ok list L4).PostOk (L.Kept) := by
            intro x
            apply Res.PostOk.weaken (P := L.SameIds) _ (fun _ h => h.kept)
            apply Res.PostOk.bind (P := L.Inner)
              ((putLambdaArgs_below n _ _).weaken (fun _ h => (Lisp.AddTemp_inner L).below h))
            intro _ L2 h2
            apply Res.PostOk.bind (P := L.Inner)
              ((TraverseLambda_scoped n L2 list).weaken (fun _ h => h2.below h.1))
            intro _ L3 h3
            apply Res.PostOk.bind (P := L.SameIds) (Lisp.RemoveTemp_inner h3)
            intro _ L4 h4
            exact h4
          apply deref_postOk; intro ps
          apply deref_postOk; intro x
          split_ifs
          · exact hV x
          · apply deref_postOk; intro p
            split_ifs
            · exact hV x
            · apply Res.PostOk.weaken (P := L.SameIds) _ (fun _ h => h.kept)
              apply Res.PostOk.bind (P := L.Inner)
                ((rebindArgs_below (Eval_scoped n) n _ _).weaken
                  (fun _ h => (Lisp.AddTemp_inner L).below h))
              intro _ L2 h2
              apply deref_postOk; intro ps2
              apply Res.PostOk.bind (P := L.Inner)
                ((Eval_scoped n _ _).weaken (fun _ h => h2.below h.1))
              intro res L3 h3
              apply Res.PostOk.bind (P := L.SameIds) (Lisp.RemoveTemp_inner h3)
              intro _ L4 h4
              exact h4
        | E_Eq =>
          simp only
          apply Res.PostOk.bind_kept (Eval_postG n L (some right) h (some_lt hr))
            (ih L (some right) h (some_lt hr))
          intro arg1 L1 hg1 _
          apply deref_postOk; intro r1
          apply Res.PostOk.bind_kept
            (Eval_postG n L1 _ hg1.1 (fun a ha => hg1.1.left_wf ha))
            (ih L1 _ hg1.1 (fun a ha => hg1.1.left_wf ha))
          intro arg2 L2 hg2 _
          exact (Lisp.alloc_sameIds L2 _ (by simp)).kept
        | E_Cond =>
          simp only
          exact condLoop_kept (Eval_postG n) ih n L _ h
        | E_Identifier =>
          simp only
          exact ih L (some list) h hp
        | E_BiFunc => trivial
        | E_Number => trivial
        | E_Logic => trivial
        | E_LambdaArg => trivial

/-! ## The claims -/

/-- C1: for each of the four operators and all unsigned decimal literals `a`,
`b` in `int` range (`b` not zero for `/`, the result in `int` range), `Exec` of
the line `(op a b)` in the freshly initialised interpreter returns the decimal
rendering of the operator applied to the two numbers, `/` truncating. -/
theorem C1_exec_binary (op : BiFunc) (a b : String) (ha : IsLiteral a) (hb : IsLiteral b)
    (hdiv : op = .div → litVal b ≠ 0)
    (hlo : INT_MIN ≤ op.math (litVal a) (litVal b)) (hhi : op.math (litVal a) (litVal b) ≤ INT_MAX)
    (fuel : Nat) (hf : 2 ≤ fuel) :
    (Exec fuel Lisp.new ("(" ++ op.symbol ++ " " ++ a ++ " " ++ b ++ ")")).result =
      some (to_string (op.math (litVal a) (litVal b))) :=
  exec_binary_result op a b ha hb hdiv hlo hhi fuel hf

/-- C1 at `(/ 7 2)`, which returns `3`. -/
theorem C1_exec_binary_witness :
    IsLiteral "7" ∧ IsLiteral "2" ∧ (Exec 2 Lisp.new "(/ 7 2)").result = some "3" :=
  ⟨by decide, by decide,
    C1_exec_binary .div "7" "2" (by decide) (by decide) (by decide) (by decide) (by decide) 2
      (Nat.le_refl 2)⟩

/-- C2: for an identifier token `x` that no frame of the scope stack binds and
an unsigned decimal literal `n` in `int` range, `Exec` of `(define x n)`
returns (the name `define`), and `Exec` of the line `x` in the state it leaves
returns the decimal rendering of `n`. -/
theorem C2_define_then_lookup (L : Lisp) (x n : String) (hx : IsIdentifier x)
    (hfree : L._ids.Get x = none) (hn : IsLiteral n) (hids : L._ids ≠ [])
    (fuel : Nat) (hf : 2 ≤ fuel) :
    ∃ L1, Exec fuel L ("(define " ++ x ++ " " ++ n ++ ")") = .ok "define" L1 ∧
      (Exec fuel L1 x).result = some (to_string (litVal n)) := by
  obtain ⟨k, rfl⟩ : ∃ k, fuel = k + 2 := ⟨fuel - 2, by omega⟩
  obtain ⟨heap, next, ids, lmd⟩ := L
  cases ids with
  | nil => exact (hids rfl).elim
  | cons top rest =>
    obtain ⟨k1, k2, k3, k4⟩ := keywordKind_none hx.2.2.2
    obtain ⟨f1, f2⟩ := IdHashMap.Get_cons_none hfree
    unfold Exec
    unfold BuildSyntaxTree
    rw [tokenize_define x n hx hn, tokenize_identifier x hx]
    simp [BuildSyntaxTree.loop, BuildSyntaxTree.step, Res.bind, stoi_of_isLiteral hn, k1, k2, k3, k4, f1, f2,
      Lisp.alloc, Lisp.Put, IdHashMap.Put, Lisp.modify, AddLeft, AddRight, Frame.assign,
      keywordKind, Eval, deref, IdHashMap.Get, Frame.find, Res.result,
      Function.update_apply, Nat.add_assoc]


/-- C2 at `x` and `5` in the freshly initialised interpreter. -/
theorem C2_define_then_lookup_witness :
    IsIdentifier "x" ∧ Lisp.new._ids.Get "x" = none ∧ IsLiteral "5" ∧
      ∃ L1, Exec 2 Lisp.new "(define x 5)" = .ok "define" L1 ∧
        (Exec 2 L1 "x").result = some "5" :=
  ⟨by decide, by decide, by decide,
    C2_define_then_lookup Lisp.new "x" "5" (by decide) (by decide) (by decide) (by decide) 2
      (Nat.le_refl 2)⟩

/-- C3: `Eval` of a `Define` node whose name some frame of the scope stack
already binds throws the string `identifier "<name>" exists`, and the state at
the throw is the state before the call: the same frames with the same
bindings, in which the name resolves to the value it had. -/
theorem C3_define_duplicate (fuel : Nat) (L : Lisp) (list id : Nat)
    (hty : (L.heap list).type = .E_Define) (hr : (L.heap list).right = some id)
    (hb : ∃ f ∈ L._ids, Frame.binds f (L.heap id).name) :
    ∃ v, L._ids.Get (L.heap id).name = some v ∧
      Eval (fuel + 1) L (some list) =
        .throw (.string ("identifier \"" ++ (L.heap id).name ++ "\" exists")) L := by
  obtain ⟨v, hv⟩ := IdHashMap.Get_isSome_of_binds hb
  exact ⟨v, hv, by simp [Eval, hty, hr, hv]⟩

/-- C3 on the `define` node of the sample state, whose name `x` is bound. -/
theorem C3_define_duplicate_witness :
    (∃ f ∈ sampleState._ids, Frame.binds f "x") ∧
      ∃ v, sampleState._ids.Get "x" = some v ∧
        Eval 1 sampleState (some 0) =
          .throw (.string "identifier \"x\" exists") sampleState :=
  ⟨⟨[("x", 5)], by decide, by decide⟩,
    C3_define_duplicate 0 sampleState 0 1 rfl rfl ⟨[("x", 5)], by decide, by decide⟩⟩

/-- C4: for `op` one of `+`, `-`, `*` and unsigned decimal literals `a`, `b`
(the result in `int` range), the line `(define add2 (lambda (x y) (op x y)))`
in the freshly initialised interpreter returns, and in the state it leaves the
line `(add2 a b)` returns what `(op a b)` returns in the freshly initialised
interpreter: the decimal rendering of the operator applied to the numbers. -/
theorem C4_lambda_two_args (op : BiFunc) (hop : op ≠ .div) (a b : String)
    (ha : IsLiteral a) (hb : IsLiteral b)
    (hlo : INT_MIN ≤ op.math (litVal a) (litVal b))
    (hhi : op.math (litVal a) (litVal b) ≤ INT_MAX) (fuel : Nat) (hf : 6 ≤ fuel) :
    ∃ L1, Exec fuel Lisp.new ("(define add2 (lambda (x y) (" ++ op.symbol ++ " x y)))") =
        .ok "define" L1 ∧
      (Exec fuel L1 ("(add2 " ++ a ++ " " ++ b ++ ")")).result =
        (Exec fuel Lisp.new ("(" ++ op.symbol ++ " " ++ a ++ " " ++ b ++ ")")).result ∧
      (Exec fuel L1 ("(add2 " ++ a ++ " " ++ b ++ ")")).result =
        some (to_string (op.math (litVal a) (litVal b))) := by
  have h1 := Res.eq_ok_of_result (add2State_facts op).1
  have h2 := Exec_result_of_le (call_add2 op hop a b ha hb hlo hhi) (by omega : 4 ≤ fuel)
  have h3 := exec_binary_result op a b ha hb (fun h => (hop h).elim) hlo hhi fuel (by omega)
  exact ⟨add2State op, Exec_of_le h1 (by simp) hf, by rw [h2, h3], h2⟩

/-- C4 at `+`, `3` and `4`: the call `(add2 3 4)` returns `7`. -/
theorem C4_lambda_two_args_witness :
    IsLiteral "3" ∧ IsLiteral "4" ∧
      ∃ L1, Exec 6 Lisp.new "(define add2 (lambda (x y) (+ x y)))" = .ok "define" L1 ∧
        (Exec 6 L1 "(add2 3 4)").result = (Exec 6 Lisp.new "(+ 3 4)").result ∧
        (Exec 6 L1 "(add2 3 4)").result = some "7" :=
  ⟨by decide, by decide,
    C4_lambda_two_args .add (by decide) "3" "4" (by decide) (by decide) (by decide) (by decide)
      6 (Nat.le_refl 6)⟩

/-- C5: after the line
`(define 666kk (lambda (x1) (lambda (x2 x3) (+ x1 (+ x2 x3)))))` in the freshly
initialised interpreter, the line `((666kk a) b c)` returns the decimal
rendering of `a + b + c` for all unsigned decimal literals whose sum is in
`int` range: the lambda returned by `(666kk a)` still has `a` for `x1` after
the frame of that call is gone. -/
theorem C5_returned_lambda_keeps_argument (a b c : String) (ha : IsLiteral a)
    (hb : IsLiteral b) (hc : IsLiteral c) (hsum : litVal a + litVal b + litVal c ≤ INT_MAX)
    (fuel : Nat) (hf : 10 ≤ fuel) :
    ∃ L1, Exec fuel Lisp.new
          "(define 666kk (lambda (x1) (lambda (x2 x3) (+ x1 (+ x2 x3)))))" = .ok "define" L1 ∧
      (Exec fuel L1 ("((666kk " ++ a ++ ") " ++ b ++ " " ++ c ++ ")")).result =
        some (to_string (litVal a + litVal b + litVal c)) :=
  ⟨kkState, Exec_of_le (Res.eq_ok_of_result kkState_facts.1) (by simp) hf,
    Exec_result_of_le (call_kk a b c ha hb hc hsum) hf⟩

/-- C5 at `10`, `20`, `30`: the line `((666kk 10) 20 30)` returns `60`. -/
theorem C5_returned_lambda_keeps_argument_witness :
    IsLiteral "10" ∧ IsLiteral "20" ∧ IsLiteral "30" ∧
      ∃ L1, Exec 10 Lisp.new
            "(define 666kk (lambda (x1) (lambda (x2 x3) (+ x1 (+ x2 x3)))))" = .ok "define" L1 ∧
        (Exec 10 L1 "((666kk 10) 20 30)").result = some "60" :=
  ⟨by decide, by decide, by decide,
    C5_returned_lambda_keeps_argument "10" "20" "30" (by decide) (by decide) (by decide)
      (by decide) 10 (Nat.le_refl 10)⟩

/-- C6: for unsigned decimal literals `a`, `b` in `int` range, `Exec` of the
line `(eq? a b)` in the freshly initialised interpreter returns `True` when the
two denote the same integer and `False` otherwise. -/
theorem C6_exec_eq (a b : String) (ha : IsLiteral a) (hb : IsLiteral b)
    (fuel : Nat) (hf : 2 ≤ fuel) :
    (Exec fuel Lisp.new ("(eq? " ++ a ++ " " ++ b ++ ")")).result =
      some (if litVal a = litVal b then "True" else "False") := by
  obtain ⟨k, rfl⟩ : ∃ k, fuel = k + 2 := ⟨fuel - 2, by omega⟩
  have ht : tokenize ("(eq? " ++ a ++ " " ++ b ++ ")").data =
      [⟨.E_Bracket, "("⟩, ⟨.E_Identifier, "eq?"⟩, ⟨.E_Number, a⟩, ⟨.E_Number, b⟩,
        ⟨.E_Bracket, ")"⟩] := by
    simp only [String.data_append, List.append_assoc]
    simp only [List.singleton_append, List.cons_append, List.nil_append]
    have h := tokenize_atom "eq?".data (by decide) ' '
      (a.data ++ ' ' :: (b.data ++ [')'])) (by decide)
    simp only [List.cons_append, List.nil_append] at h
    rw [tokenize_open, h, tokenize_space ' ' _ (by decide),
      tokenize_literal ha ' ' _ (by decide), tokenize_space ' ' _ (by decide),
      tokenize_literal hb ')' _ (by decide), tokenize_close, tokenize_nil]
    rfl
  unfold Exec BuildSyntaxTree
  rw [ht, Lisp.new_eq]
  by_cases h : litVal a = litVal b <;>
  simp [BuildSyntaxTree.loop, BuildSyntaxTree.step, Res.bind, stoi_of_isLiteral ha, stoi_of_isLiteral hb,
    Lisp.alloc, Lisp.Put, IdHashMap.Put, Lisp.modify, AddLeft, AddRight, Frame.assign,
    keywordKind, Eval, deref, IdHashMap.Get, Frame.find, Res.result, Val.logic,
    Function.update_apply, h]

/-- C6 at `(eq? 3 3)` and `(eq? 3 4)`. -/
theorem C6_exec_eq_witness :
    IsLiteral "3" ∧ IsLiteral "4" ∧ (Exec 2 Lisp.new "(eq? 3 3)").result = some "True" ∧
      (Exec 2 Lisp.new "(eq? 3 4)").result = some "False" :=
  ⟨by decide, by decide,
    C6_exec_eq "3" "3" (by decide) (by decide) 2 (Nat.le_refl 2),
    C6_exec_eq "3" "4" (by decide) (by decide) 2 (Nat.le_refl 2)⟩

/-- C7: for a `cond` line with one or more clauses `(c e)`, each `c` the literal
`True` or `False` and each `e` an unsigned decimal literal, in the freshly
initialised interpreter: when some condition is `True`, `Exec` returns the
decimal rendering of the expression of the first such clause; when none is,
`Exec` ends with the thrown message `no True condition`. -/
theorem C7_cond_first_true (clauses : List (Bool × String)) (hne : clauses ≠ [])
    (hlit : ∀ ce ∈ clauses, IsLiteral ce.2) (fuel : Nat) (hf : clauses.length + 2 ≤ fuel) :
    (∀ pre e post, clauses = pre ++ (true, e) :: post → (∀ ce ∈ pre, ce.1 = false) →
      (Exec fuel Lisp.new (condLine clauses)).result = some (to_string (litVal e))) ∧
    ((∀ ce ∈ clauses, ce.1 = false) →
      (Exec fuel Lisp.new (condLine clauses)).thrown = some (.c_str "no True condition")) := by
  obtain ⟨k, rfl⟩ : ∃ k, fuel = k + 2 := ⟨fuel - 2, by omega⟩
  cases clauses with
  | nil => exact (hne rfl).elim
  | cons ce cs =>
    obtain ⟨L, hparse, hids, h7t, h7r, h5, h6, hchain⟩ := parse_condLine ce cs hlit
    have hT : L._ids.Get "True" = some 5 := by rw [hids]; decide
    have hF : L._ids.Get "False" = some 6 := by rw [hids]; decide
    have hev : Eval (k + 2) L (some 7) = condLoop (Eval (k + 1)) (k + 1) L (some 8) := by
      simp [Eval, h7t, h7r]
    obtain ⟨hA, hB⟩ := condLoop_chain 8 5 6 L hT (by rw [h5]) (by rw [h5]) hF (by rw [h6])
      (by rw [h6]) k (ce :: cs) (some 8) (k + 1) hchain (by omega)
    constructor
    · intro pre e post hsplit hpre
      obtain ⟨v, hv, hvt, hvn⟩ := hA pre e post hsplit hpre
      simp [Exec, hparse, Res.bind, hev, hv, hvt, hvn, Res.result]
    · intro hall
      simp [Exec, hparse, Res.bind, hev, hB hall, Res.thrown]

/-- C7 at `(cond (False 1) (True 2) (True 3))`, which returns `2`, and at
`(cond (False 1))`, which ends with the thrown message. -/
theorem C7_cond_first_true_witness :
    (Exec 5 Lisp.new "(cond (False 1) (True 2) (True 3))").result = some "2" ∧
      (Exec 3 Lisp.new "(cond (False 1))").thrown = some (.c_str "no True condition") :=
  ⟨(C7_cond_first_true [(false, "1"), (true, "2"), (true, "3")] (by decide) (by decide) 5
      (by decide)).1 [(false, "1")] "2" [(true, "3")] rfl (by decide),
    (C7_cond_first_true [(false, "1")] (by decide) (by decide) 3 (by decide)).2 (by decide)⟩

/-- C8: a list whose operator is, or evaluates to, a lambda with more formal
parameters than the list has actual arguments, each actual evaluating without
error: `Eval` of the list throws the message `too few parameters passed`, in
the state the binding of the last actual left, so the body of the lambda is not
evaluated. -/
theorem C8_too_few_arguments (fuel : Nat) (L L1 Lm : Lisp) (list r first ps : Nat)
    (formals actuals : List Nat)
    (hlist : (L.heap list).type = .E_List) (hr : (L.heap list).right = some r)
    (hcallee : ((L.heap r).type = .E_Lambda ∧ first = r ∧ L1 = L) ∨
      ((L.heap r).type ≠ .E_BiFunc ∧ (L.heap r).type ≠ .E_Lambda ∧
        Eval fuel L (some r) = .ok first L1))
    (hlam : (L1.heap first).type = .E_Lambda) (hps : (L1.heap first).right = some ps)
    (hformals : LeftChain L1.heap (L1.heap ps).right formals)
    (hactuals : LeftChain L1.heap (L1.heap r).left actuals)
    (hlt : actuals.length < formals.length)
    (hlist_alloc : list < L.next)
    (hformals_alloc : ∀ a ∈ formals, a < L1.next)
    (hactuals_alloc : ∀ a ∈ actuals, a < L1.next)
    (hargs : ArgsEval (Eval fuel) L1.AddTemp actuals formals Lm)
    (hfuel : actuals.length < fuel) :
    Eval (fuel + 1) L (some list) = .throw (.c_str "too few parameters passed") Lm := by
  have hfirst : (if (L.heap r).type ≠ .E_BiFunc ∧ (L.heap r).type ≠ .E_Lambda then
      Eval fuel L (some r) else .ok r L) = .ok first L1 := by
    rcases hcallee with ⟨h1, rfl, rfl⟩ | ⟨h1, h2, h3⟩
    · simp [h1]
    · simp [h1, h2, h3]
  have hext : L.Ext L1 := by
    rcases hcallee with ⟨_, _, rfl⟩ | ⟨_, _, h3⟩
    · exact Lisp.Ext.refl _
    · have := Eval_ext fuel L (some r)
      rw [h3] at this
      exact this
  have hr1 : (L1.heap list).right = some r := by rw [Lisp.Ext.right hext hlist_alloc, hr]
  have hne : (L1.heap first).type ≠ .E_BiFunc := by rw [hlam]; decide
  have hloop := bindArgs_too_few (Eval_ext fuel) (fun m L p h => Eval_frames fuel m L p h)
    actuals formals L1.AddTemp Lm (L1.heap ps).right (L1.heap r).left fuel L1._ids.length
    hformals hactuals hlt hformals_alloc hactuals_alloc (Lisp.AddTemp_frames rfl) hargs hfuel
  have hA : L1.AddTemp.heap = L1.heap := rfl
  simp only [Eval, hr, hlist, hfirst, Res.bind, hne, hlam, if_true, if_false, hA, hps, hr1,
    deref, hloop]
  simp

/-- C8 on the tree of `((lambda (x y) x) 1)`: two formal parameters, one actual
argument. -/
theorem C8_too_few_arguments_witness :
    Eval 3 sampleCall (some 0) = .throw (.c_str "too few parameters passed")
      { sampleCall with _ids := [[("x", 6)], []] } :=
  C8_too_few_arguments 2 sampleCall sampleCall { sampleCall with _ids := [[("x", 6)], []] }
    0 1 1 2 [3, 4] [6] rfl rfl (Or.inl ⟨rfl, rfl, rfl⟩) rfl rfl ⟨rfl, rfl, rfl⟩ ⟨rfl, rfl⟩
    (by decide) (by decide) (by decide) (by decide) ⟨6, sampleCall.AddTemp, rfl, rfl⟩
    (by decide)

/-- C9: the lines `(+)` and `(+ 1)` in the freshly initialised interpreter do
not end in a reported error: `Eval` dereferences the null pointer that stands
for the missing operand, which is undefined behaviour. -/
theorem C9_missing_operand_dereferenced :
    Exec 2 Lisp.new "(+)" = .undefined ∧ Exec 2 Lisp.new "(+ 1)" = .undefined :=
  missing_operand_undefined .add "1" (by decide) 2 (Nat.le_refl 2)

/-- C10: for a leaf `Identifier` node without a cached target, `Eval` throws
the string `undefined identifier <name>` and leaves the state as it was when no
frame binds the name; and when the innermost frame that binds the name binds it
to a `Number`, `Logic`, `BiFunc` or `Lambda` node, `Eval` returns exactly that
node. -/
theorem C10_leaf_identifier (fuel : Nat) (L : Lisp) (list : Nat)
    (hty : (L.heap list).type = .E_Identifier) (_hl : (L.heap list).left = none)
    (hr : (L.heap list).right = none) (ht : (L.heap list).identifier_target = none) :
    ((∀ f ∈ L._ids, ¬ Frame.binds f (L.heap list).name) →
        Eval (fuel + 1) L (some list) =
          .throw (.string ("undefined identifier " ++ (L.heap list).name)) L) ∧
      (∀ (inner outer : List Frame) (f : Frame) (v : Nat),
        L._ids = inner ++ f :: outer → (∀ g ∈ inner, ¬ Frame.binds g (L.heap list).name) →
        f.find (L.heap list).name = some v →
        ((L.heap v).type = .E_Number ∨ (L.heap v).type = .E_Logic ∨
          (L.heap v).type = .E_BiFunc ∨ (L.heap v).type = .E_Lambda) →
        Eval (fuel + 1) L (some list) = .ok v L) := by
  constructor
  · intro h
    simp [Eval, hty, hr, ht, IdHashMap.Get_none_of_not_binds h]
  · intro inner outer f v hids hin hf hv
    have hg : L._ids.Get (L.heap list).name = some v := by
      rw [hids]; exact IdHashMap.Get_innermost hin hf
    have hne : (L.heap v).type ≠ .E_Identifier := by
      rcases hv with h | h | h | h <;> rw [h] <;> decide
    simp [Eval, hty, hr, ht, hg, hne]

/-- C10 on the leaf identifiers `y` (unbound) and `x` (bound) of the sample state. -/
theorem C10_leaf_identifier_witness :
    Eval 1 sampleState (some 3) = .throw (.string "undefined identifier y") sampleState ∧
      Eval 1 sampleState (some 4) = .ok 5 sampleState :=
  ⟨(C10_leaf_identifier 0 sampleState 3 rfl rfl rfl rfl).1 (by decide),
    (C10_leaf_identifier 0 sampleState 4 rfl rfl rfl rfl).2 [] [] [("x", 5)] 5 rfl (by decide)
      rfl (Or.inl rfl)⟩

/-- C11, evaluated where the code leaves the claim: in the freshly initialised
interpreter the line `((lambda (x) y) 5)` ends with the thrown message
`undefined identifier y` and leaves two frames on the scope stack, the upper
one still binding the parameter `x`, so that `main` prints `5` for the next
line `x`; and after `(define add2 (lambda (x y) (+ x y)))` the line `(add2 3)`
ends with the thrown `too few parameters passed`, again with two frames left,
an exception the handler of `main` does not catch. -/
theorem C11_frames_left_by_throw :
    (Exec 3 Lisp.new "((lambda (x) y) 5)").thrown = some (.string "undefined identifier y") ∧
      (Exec 3 Lisp.new "((lambda (x) y) 5)").stateD._ids.length = 2 ∧
      (main 3 Lisp.new ["((lambda (x) y) 5)", "x"]).1 = ["undefined identifier y", "5"] ∧
      (Exec 3 (add2State .add) "(add2 3)").thrown = some (.c_str "too few parameters passed") ∧
      (Exec 3 (add2State .add) "(add2 3)").stateD._ids.length = 2 ∧
      (main 6 Lisp.new ["(define add2 (lambda (x y) (+ x y)))", "(add2 3)", "x"]).1 =
        ["define"] ∧
      (main 6 Lisp.new ["(define add2 (lambda (x y) (+ x y)))", "(add2 3)", "x"]).2.uncaught =
        some (.c_str "too few parameters passed") := by
  decide!

/-- C14, the claim as stated fails at `(+ 1 2`: in the freshly initialised
interpreter `BuildSyntaxTree` returns a tree for this line and `Exec` returns
`3`; and for the line `)` nothing is thrown, the behaviour is undefined. -/
theorem C14_unbalanced_counterexample :
    (BuildSyntaxTree Lisp.new "(+ 1 2").result = some 7 ∧
      (Exec 2 Lisp.new "(+ 1 2").result = some "3" ∧
      (Exec 2 Lisp.new ")").thrown = none ∧
      (main 2 Lisp.new [")"]).2.isUndefined = true := by
  decide!

/-- C14 as amended: `BuildSyntaxTree` has no syntax error. For every line it
returns a tree exactly when, in the token sequence, every `)` has an open
list, every number is in the range of `int` and no reserved word is met with
no list open after the first object got a parent; a `(` that is never closed
does not keep it from returning. It throws nothing but the `out_of_range` of
`stoi`. When some `)` has no open list, `Exec` evaluates nothing: its
behaviour is undefined, or `out_of_range` was thrown before. And a line
`(op a b` on two literals, its bracket left open, is evaluated as `(op a b)`
is: `Exec` returns the decimal rendering of the result. -/
theorem C14_no_syntax_error (L : Lisp) (line : String) (fuel : Nat)
    (op : BiFunc) (a b : String) (ha : IsLiteral a) (hb : IsLiteral b)
    (hdiv : op = .div → litVal b ≠ 0)
    (hlo : INT_MIN ≤ op.math (litVal a) (litVal b)) (hhi : op.math (litVal a) (litVal b) ≤ INT_MAX)
    (hf : 2 ≤ fuel) :
    ((BuildSyntaxTree L line).result.isSome = treeBuilt false 0 (tokenize line.data)) ∧
      (∀ e, (BuildSyntaxTree L line).thrown = some e → e = .out_of_range) ∧
      (unmatchedClose 0 (tokenize line.data) = true →
        Exec fuel L line = .undefined ∨ (Exec fuel L line).thrown = some .out_of_range) ∧
      (Exec fuel Lisp.new ("(" ++ op.symbol ++ " " ++ a ++ " " ++ b)).result =
        some (to_string (op.math (litVal a) (litVal b))) := by
  have hs := BuildSyntaxTree_spec L line
  refine ⟨?_, ?_, ?_, exec_binary_open op a b ha hb hdiv hlo hhi fuel hf⟩
  · cases hr : BuildSyntaxTree L line with
    | ok r L1 => rw [hr] at hs; simp [Res.result, hs.2.2]
    | throw e L1 => rw [hr] at hs; simp [Res.result, hs.2]
    | undefined => rw [hr] at hs; simp [Res.result, hs]
    | timeout => rw [hr] at hs; exact hs.elim
  · intro e he
    cases hr : BuildSyntaxTree L line with
    | ok r L1 => rw [hr] at he; cases he
    | throw e1 L1 =>
      rw [hr] at hs he
      simp only [Res.thrown, Option.some.injEq] at he
      rw [← he]; exact hs.1
    | undefined => rw [hr] at he; cases he
    | timeout => rw [hr] at he; cases he
  · intro hu
    have ht := treeBuilt_of_unmatchedClose _ false 0 hu
    unfold Exec
    cases hr : BuildSyntaxTree L line with
    | ok r L1 => rw [hr] at hs; rw [hs.2.2] at ht; cases ht
    | throw e1 L1 => rw [hr] at hs; right; simp [Res.bind, Res.thrown, hs.1]
    | undefined => left; rfl
    | timeout => rw [hr] at hs; exact hs.elim

/-- C14 as amended, at the line `(+ 1 2))` in the freshly initialised
interpreter, whose last `)` has no open list, and at `(+ 1 2`. -/
theorem C14_no_syntax_error_witness :
    (Exec 2 Lisp.new "(+ 1 2))" = .undefined ∨
        (Exec 2 Lisp.new "(+ 1 2))").thrown = some .out_of_range) ∧
      (Exec 2 Lisp.new "(+ 1 2").result = some "3" :=
  ⟨(C14_no_syntax_error Lisp.new "(+ 1 2))" 2 .add "1" "2" (by decide) (by decide) (by decide)
      (by decide) (by decide) (by decide)).2.2.1 (by decide),
    (C14_no_syntax_error Lisp.new "(+ 1 2))" 2 .add "1" "2" (by decide) (by decide) (by decide)
      (by decide) (by decide) (by decide)).2.2.2⟩

/-- C16, evaluated where the code leaves the claim: for the line `(foo define)`
in the freshly initialised interpreter `BuildSyntaxTree` returns the list at
address 7, still of kind `E_List`, whose second item, at address 9, is named
`define` and has the kind `E_Define` of a new object, not `E_Identifier`; so
`(+ 1 define)` returns `1` instead of reporting an undefined identifier. For
`(define lambda x)` the reserved word in second place retags the list to
`E_Lambda`. -/
theorem C16_reserved_word_not_first :
    (BuildSyntaxTree Lisp.new "(foo define)").result = some 7 ∧
      ((BuildSyntaxTree Lisp.new "(foo define)").stateD.heap 7).type = .E_List ∧
      ((BuildSyntaxTree Lisp.new "(foo define)").stateD.heap 7).right = some 8 ∧
      ((BuildSyntaxTree Lisp.new "(foo define)").stateD.heap 8).left = some 9 ∧
      ((BuildSyntaxTree Lisp.new "(foo define)").stateD.heap 9).name = "define" ∧
      ((BuildSyntaxTree Lisp.new "(foo define)").stateD.heap 9).type = .E_Define ∧
      (Exec 2 Lisp.new "(+ 1 define)").result = some "1" ∧
      ((BuildSyntaxTree Lisp.new "(define lambda x)").stateD.heap 7).type = .E_Lambda := by
  decide!

/-- C17, the claim as stated fails at `(/ 7 0)`: in the freshly initialised
interpreter `main` prints nothing for the lines `(/ 7 0)` and `(+ 1 2)`: the
first line reports no error, its behaviour is undefined, and the second line
is not reached. -/
theorem C17_div_zero_counterexample :
    (Exec 2 Lisp.new "(/ 7 0)").thrown = none ∧
      (main 2 Lisp.new ["(/ 7 0)", "(+ 1 2)"]).1 = [] ∧
      (main 2 Lisp.new ["(/ 7 0)", "(+ 1 2)"]).2.isUndefined = true := by
  decide!

/-- C17 as amended: for every unsigned decimal literal `a` and every literal
`b` of value zero (such as `0`), executing `(/ a b)` in the freshly initialised
interpreter divides by zero in the built-in `/`: `Exec` neither returns nor
throws, its behaviour is undefined, and `main` prints nothing for that line or
for any line after it. -/
theorem C17_div_zero_undefined (a b : String) (ha : IsLiteral a) (hb : IsLiteral b)
    (h0 : litVal b = 0) (fuel : Nat) (hf : 2 ≤ fuel) (rest : List String) :
    Exec fuel Lisp.new ("(/ " ++ a ++ " " ++ b ++ ")") = .undefined ∧
      main fuel Lisp.new (("(/ " ++ a ++ " " ++ b ++ ")") :: rest) = ([], .undefined) := by
  have h : Exec fuel Lisp.new ("(/ " ++ a ++ " " ++ b ++ ")") = .undefined :=
    exec_div_zero a b ha hb h0 fuel hf
  refine ⟨h, ?_⟩
  simp only [main, h]

/-- C17 as amended, at `(/ 7 0)` followed by `(+ 1 2)`. -/
theorem C17_div_zero_undefined_witness :
    Exec 2 Lisp.new "(/ 7 0)" = .undefined ∧
      main 2 Lisp.new ["(/ 7 0)", "(+ 1 2)"] = ([], .undefined) :=
  C17_div_zero_undefined "7" "0" (by decide) (by decide) (by decide) 2 (by decide) ["(+ 1 2)"]

/-- C18: whenever `Eval` of a node returns a value, the scope stack has as
many frames as when `Eval` was called and every frame below the one on top at
the call is the same; every name bound in that top frame is still bound in it,
and in a well-formed state (every state `main` reaches is one) with the same
object, so that the top frame only gains bindings; when no object of the state
is a `define` form the whole scope stack is the same, so that what `Eval`
leaves behind is left by a `define`; likewise `TraverseAndPreserve` returns
with as many frames as it was called with: each `AddTemp` of a successful path
is matched by one `RemoveTemp`. -/
theorem C18_scope_stack_after_return (fuel : Nat) (L L1 : Lisp) (p : Option Nat) (v : Nat)
    (h : Eval fuel L p = .ok v L1) :
    L1._ids.length = L._ids.length ∧ L1._ids.tail = L._ids.tail ∧
      (∀ id, ((L._ids.headD []).find id).isSome → ((L1._ids.headD []).find id).isSome) ∧
      (L.WF → (∀ a, p = some a → a < L.next) →
        ∀ id w, (L._ids.headD []).find id = some w → (L1._ids.headD []).find id = some w) ∧
      (L.NoDefine → L1._ids = L._ids) ∧
      (∀ q L2, TraverseAndPreserve fuel L q = .ok () L2 →
        L2._ids.length = L._ids.length ∧ L2._ids.tail = L._ids.tail) := by
  have h1 := Eval_scoped fuel L p
  rw [h] at h1
  refine ⟨h1.1.1, h1.1.2.1, h1.2.1, ?_, h1.2.2, ?_⟩
  · intro hwf hp
    have h3 := Eval_kept fuel L p hwf hp
    rw [h] at h3
    exact h3
  · intro q L2 hq
    have h2 := TraverseAndPreserve_scoped fuel L q
    rw [hq] at h2
    exact ⟨h2.1.1, h2.1.2.1⟩

/-- C18 on the tree of `((lambda (x) x) 5)` in the freshly initialised
interpreter: `Eval` pushes a frame for the call, returns the object of `5`
(address 14), and the scope stack afterwards has the one frame it had. -/
theorem C18_scope_stack_after_return_witness :
    (Eval 3 sampleApply (some 7)).stateD._ids.length = sampleApply._ids.length ∧
      (Eval 3 sampleApply (some 7)).stateD._ids.tail = sampleApply._ids.tail :=
  ⟨(C18_scope_stack_after_return 3 sampleApply (Eval 3 sampleApply (some 7)).stateD (some 7) 14
      (Res.eq_ok_of_result (by decide!))).1,
    (C18_scope_stack_after_return 3 sampleApply (Eval 3 sampleApply (some 7)).stateD (some 7) 14
      (Res.eq_ok_of_result (by decide!))).2.1⟩

/-- C20: `Eval` of a `cond` evaluates the expression of a clause before it
tests the clause's condition. For a `cond` node `list` whose first clause `x`
has a condition that evaluates to `boo` (true or false): when the evaluation
of the clause's expression throws, `Eval` of the `cond` throws the same
exception in the same state, whatever the later clauses are; when it returns
`v`, `Eval` of the `cond` returns `v` if `boo` is true and otherwise goes on
with the next clause from the state the expression's evaluation left. -/
theorem C20_cond_expression_before_test (fuel : Nat) (L L1 : Lisp) (list x r boo : Nat)
    (ht : (L.heap list).type = .E_Cond) (hr : (L.heap list).right = some x)
    (hb : Eval fuel L (L.heap x).right = .ok boo L1) (hx : (L1.heap x).right = some r) :
    (∀ e L2, Eval fuel L1 (L1.heap r).left = .throw e L2 →
      Eval (fuel + 1) L (some list) = .throw e L2) ∧
    (∀ v L2, Eval fuel L1 (L1.heap r).left = .ok v L2 →
      Eval (fuel + 1) L (some list) =
        if (L2.heap boo).val.logic then .ok v L2
        else condLoop (Eval fuel) (fuel - 1) L2 (L2.heap x).left) := by
  obtain ⟨n, rfl⟩ : ∃ n, fuel = n + 1 := by
    cases fuel with
    | zero => simp [Eval] at hb
    | succ n => exact ⟨n, rfl⟩
  have hev : Eval (n + 1 + 1) L (some list) = condLoop (Eval (n + 1)) (n + 1) L (some x) := by
    simp [Eval, ht, hr]
  rw [hev]
  exact condLoop_round (Eval (n + 1)) n L L1 x r boo hb hx

/-- C20 at the tree of `(cond (False y) (True 1))` in the freshly initialised
interpreter: the first condition is false, the first expression `y` is an
undefined identifier, and `Eval` of the `cond` throws for it although the
second clause is true. -/
theorem C20_cond_expression_before_test_witness :
    (Eval 2 (BuildSyntaxTree Lisp.new "(cond (False y) (True 1))").stateD (some 7)).thrown =
      some (.string "undefined identifier y") := by
  have ht : ((BuildSyntaxTree Lisp.new "(cond (False y) (True 1))").stateD.heap 7).type =
      .E_Cond := by decide!
  have hr : ((BuildSyntaxTree Lisp.new "(cond (False y) (True 1))").stateD.heap 7).right =
      some 8 := by decide!
  have hb : (Eval 1 (BuildSyntaxTree Lisp.new "(cond (False y) (True 1))").stateD
      ((BuildSyntaxTree Lisp.new "(cond (False y) (True 1))").stateD.heap 8).right).result =
      some 6 := by decide!
  have hx : ((Eval 1 (BuildSyntaxTree Lisp.new "(cond (False y) (True 1))").stateD
      ((BuildSyntaxTree Lisp.new "(cond (False y) (True 1))").stateD.heap 8).right).stateD.heap
      8).right = some 9 := by decide!
  have he : (Eval 1 (Eval 1 (BuildSyntaxTree Lisp.new "(cond (False y) (True 1))").stateD
      ((BuildSyntaxTree Lisp.new "(cond (False y) (True 1))").stateD.heap 8).right).stateD
      (((Eval 1 (BuildSyntaxTree Lisp.new "(cond (False y) (True 1))").stateD
      ((BuildSyntaxTree Lisp.new "(cond (False y) (True 1))").stateD.heap 8).right).stateD.heap
      9).left)).thrown = some (.string "undefined identifier y") := by decide!
  generalize (BuildSyntaxTree Lisp.new "(cond (False y) (True 1))").stateD = L at *
  rw [(C20_cond_expression_before_test 1 L _ 7 8 9 6 ht hr (Res.eq_ok_of_result hb) hx).1 _ _
    (Res.eq_throw_of_thrown he)]
  rfl

end Lispreter
